import Mathlib

/-!
# vdtreflex encoder: shallow embedding and verified properties

The development embeds `compiler/source/encoder.cpp` of the reflection compiler.
A `std::string` is a finite sequence of characters, modelled as `List Char`;
the text literals of the source are written as Lean string literals and
converted with `String.toList`.
-/

set_option maxRecDepth 100000

/-- A C++ `std::string`: a sequence of characters. -/
abbrev Str := List Char

instance : Coe String Str := ⟨String.toList⟩

/-! ## StringUtil (declared in `string_util.h`, which is not part of the sources) -/

namespace StringUtil

/-- Modelled from the spec: `StringUtil::replace` of the missing `string_util.h`.
It replaces every occurrence of the pattern `src` by `dst`, scanning from left to
right without rescanning the text already produced. The counter `skip` is the number of
characters of a matched occurrence that are still to be consumed. -/
def replaceAux (src dst : Str) : Nat → Str → Str
  | _, [] => []
  | skip + 1, _ :: cs => replaceAux src dst skip cs
  | 0, c :: cs =>
    if src ≠ [] ∧ src.isPrefixOf (c :: cs) then dst ++ replaceAux src dst (src.length - 1) cs
    else c :: replaceAux src dst 0 cs

/-- Modelled from the spec: `StringUtil::replace(str, src, dst)` of the missing
`string_util.h`: every occurrence of `src` in `str` is replaced by `dst`. -/
def replace (str src dst : Str) : Str := replaceAux src dst 0 str

/-- Modelled from the spec: `StringUtil::split(str, delimiter)` of the missing
`string_util.h`: the text is cut at every occurrence of the delimiter, so a text with
`n` delimiters gives `n + 1` pieces, in order. -/
def split : Str → Char → List Str
  | [], _ => [[]]
  | c :: cs, delimiter =>
    if c = delimiter then [] :: split cs delimiter
    else
      match split cs delimiter with
      | [] => [[c]]
      | piece :: pieces => (c :: piece) :: pieces

/-- Modelled from the spec: `StringUtil::trim(str)` of the missing `string_util.h`:
the surrounding whitespace (space, tab, carriage return, line feed) is stripped. -/
def trim (str : Str) : Str :=
  (str.dropWhile Char.isWhitespace).rdropWhile Char.isWhitespace

/-- Modelled from the spec: `StringUtil::startsWith(str, head)` of the missing
`string_util.h`: `head` is an initial segment of `str`. -/
def startsWith (str head : Str) : Bool := head.isPrefixOf str

/-- Modelled from the spec: `StringUtil::endsWith(str, tail)` of the missing
`string_util.h`: `tail` is a final segment of `str`. -/
def endsWith (str tail : Str) : Bool := tail.isSuffixOf str

end StringUtil

/-! ## Data model (declared in headers that are not part of the sources) -/

/-- Modelled from the spec: the kind of a symbol, `SymbolType` (§3 SymbolKind, one of
Class and Enum); the enumerators `S_class` and `S_enum` are the ones the encoder names. -/
inductive SymbolType where
  | S_class
  | S_enum
  deriving DecidableEq, Repr

/-- Modelled from the spec: `SymbolTable`, the mapping name → kind; `find` is
`List.lookup`, so the first entry of a name is the one the table holds. -/
abbrev SymbolTable := List (Str × SymbolType)

/-- The classification `NativeType` of a type string; the enumerators are those named by
`Encoder::toString(NativeType)`. -/
inductive NativeType where
  | T_bool
  | T_char
  | T_double
  | T_enum
  | T_float
  | T_int
  | T_string
  | T_template
  | T_type
  | T_void
  | T_unknown
  deriving DecidableEq, Repr

/-- The suffix shape `DecoratorType` of a type string; the enumerators are those named by
`Encoder::toString(DecoratorType)`. -/
inductive DecoratorType where
  | D_pointer
  | D_reference
  | D_raw
  deriving DecidableEq, Repr

/-- Modelled from the spec: `Property` (§3): name, declared type string and meta map
(listed in the iteration order of the map). -/
structure Property where
  name : Str
  type : Str
  meta : List (Str × Str)
  deriving DecidableEq, Repr

/-- Modelled from the spec: `TypeClass` (§3): name, is-struct flag, parent name, meta map
and ordered properties. -/
structure TypeClass where
  name : Str
  isStruct : Bool
  parent : Str
  meta : List (Str × Str)
  properties : List Property
  deriving DecidableEq, Repr

/-- Modelled from the spec: `TypeEnum` (§3): name and ordered option names. -/
structure TypeEnum where
  name : Str
  options : List Str
  deriving DecidableEq, Repr

/-- Modelled from the spec: `TypeCollection` (§3): the classes and the enums of one
translation unit, found by name. -/
structure TypeCollection where
  classes : List TypeClass
  enums : List TypeEnum
  deriving Repr

/-- Modelled from the spec: `TypeCollection::findClass(name)`, the class of that name, or
`none` for the null pointer. -/
def TypeCollection.findClass (collection : TypeCollection) (name : Str) : Option TypeClass :=
  collection.classes.find? (fun c => c.name = name)

/-- Modelled from the spec: `TypeCollection::findEnum(name)`, the enum of that name, or
`none` for the null pointer. -/
def TypeCollection.findEnum (collection : TypeCollection) (name : Str) : Option TypeEnum :=
  collection.enums.find? (fun e => e.name = name)

/-! ## EncodeBuffer (encoder.cpp lines 8-37) -/

/-- The line buffer `EncodeBuffer`: the member `m_lines`. -/
structure EncodeBuffer where
  m_lines : List Str := []
  deriving DecidableEq, Repr

namespace EncodeBuffer

/-- Source function `EncodeBuffer::push(token)` (lines 8-18): a first line when the buffer is empty,
otherwise the token is appended to the last line. -/
def push (buffer : EncodeBuffer) (token : Str) : EncodeBuffer :=
  if buffer.m_lines.isEmpty then ⟨buffer.m_lines ++ [token]⟩
  else ⟨buffer.m_lines.dropLast ++ [buffer.m_lines.getLastD [] ++ token]⟩

/-- Source function `EncodeBuffer::push_line(line)` (lines 20-23). -/
def push_line (buffer : EncodeBuffer) (line : Str) : EncodeBuffer :=
  ⟨buffer.m_lines ++ [line]⟩

/-- Modelled from the spec: the variadic `push(token, tokens...)` of the missing
`encoder.h`, which pushes its tokens one after the other. -/
def pushAll (buffer : EncodeBuffer) (tokens : List Str) : EncodeBuffer :=
  tokens.foldl push buffer

/-- Modelled from the spec: the variadic `push_line(line, tokens...)` of the missing
`encoder.h`, which starts a line with its first token and appends the others to it. -/
def push_lineAll (buffer : EncodeBuffer) (tokens : List Str) : EncodeBuffer :=
  match tokens with
  | [] => buffer
  | line :: rest => (buffer.push_line line).pushAll rest

/-- Source function `EncodeBuffer::string(useEndline)` (lines 25-37). -/
def string (buffer : EncodeBuffer) (useEndline : Bool) : Str :=
  buffer.m_lines.foldl
    (fun content line => if useEndline then content ++ line ++ "\n" else content ++ line) []

end EncodeBuffer

/-! ## Type classification (encoder.cpp lines 590-710) -/

namespace Encoder

/-- The loop of lines 595-598 of `parseNativeType`: the last character is popped as long as
it is `*`, `&` or a space. -/
def popDecorators (type : Str) : Str :=
  type.rdropWhile (fun c => c = '*' || c = '&' || c = ' ')

/-- Source function `Encoder::parseNativeType(symbolTable, t)` (lines 590-621). -/
def parseNativeType (symbolTable : SymbolTable) (t : Str) : NativeType :=
  let type := StringUtil.replace t "std::" ""
  if type.isEmpty then NativeType.T_unknown
  else
    let type := popDecorators type
    if type = "bool" then NativeType.T_bool
    else if type = "char" then NativeType.T_char
    else if type = "double" then NativeType.T_double
    else if type = "float" then NativeType.T_float
    else if type = "int" then NativeType.T_int
    else if type = "void" then NativeType.T_void
    else if type = "string" then NativeType.T_string
    else if '<' ∈ type then NativeType.T_template
    else
      match symbolTable.lookup type with
      | some SymbolType.S_class => NativeType.T_type
      | some SymbolType.S_enum => NativeType.T_enum
      | none => NativeType.T_unknown

/-- Source function `Encoder::parseDecoratorType(symbolTable, t)` (lines 623-628). -/
def parseDecoratorType (_symbolTable : SymbolTable) (t : Str) : DecoratorType :=
  if StringUtil.endsWith t "*" then DecoratorType.D_pointer
  else if StringUtil.endsWith t "&" then DecoratorType.D_reference
  else DecoratorType.D_raw

/-- Source function `Encoder::extractTypenames(token)` (lines 630-646). `token.find` is `List.indexOf`,
which is the length of the token when the character does not occur; `substr` from
`startIndex + 1` to the end is `List.drop`, and `pop_back` is `List.dropLast`. -/
def extractTypenames (token : Str) : List Str :=
  let startIndex := token.indexOf '<'
  if startIndex = token.length then []
  else if token.getLast? ≠ some '>' then []
  else
    let content := (token.drop (startIndex + 1)).dropLast
    (StringUtil.split content ',').map StringUtil.trim

/-- Source function `Encoder::sanitizeTemplate(token)` (lines 648-659). -/
def sanitizeTemplate (token : Str) : Str :=
  let startIndex := token.indexOf '<'
  if startIndex = token.length then token
  else if token.getLast? ≠ some '>' then token
  else (token.drop (startIndex + 1)).dropLast

/-- Source function `Encoder::toString(NativeType)` (lines 661-678). -/
def toStringNative : NativeType → Str
  | .T_bool => "reflect::NativeType::Type::T_bool"
  | .T_char => "reflect::NativeType::Type::T_char"
  | .T_double => "reflect::NativeType::Type::T_double"
  | .T_enum => "reflect::NativeType::Type::T_enum"
  | .T_float => "reflect::NativeType::Type::T_float"
  | .T_int => "reflect::NativeType::Type::T_int"
  | .T_string => "reflect::NativeType::Type::T_string"
  | .T_template => "reflect::NativeType::Type::T_template"
  | .T_type => "reflect::NativeType::Type::T_type"
  | .T_void => "reflect::NativeType::Type::T_void"
  | .T_unknown => "reflect::NativeType::Type::T_unknown"

/-- Source function `Encoder::toString(DecoratorType)` (lines 680-689). -/
def toStringDecorator : DecoratorType → Str
  | .D_pointer => "reflect::NativeType::DecoratorType::D_pointer"
  | .D_reference => "reflect::NativeType::DecoratorType::D_reference"
  | .D_raw => "reflect::NativeType::DecoratorType::D_raw"

/-- Source function `Encoder::isValidListType(type)` (lines 691-696). -/
def isValidListType (type : NativeType) : Bool :=
  type ≠ NativeType.T_template && type ≠ NativeType.T_void && type ≠ NativeType.T_unknown

/-- Source function `Encoder::isValidMapKeyType(type)` (lines 698-703). -/
def isValidMapKeyType (type : NativeType) : Bool :=
  type ≠ NativeType.T_template && type ≠ NativeType.T_void && type ≠ NativeType.T_unknown

/-- Source function `Encoder::isValidMapValueType(type)` (lines 705-710). -/
def isValidMapValueType (type : NativeType) : Bool :=
  type ≠ NativeType.T_template && type ≠ NativeType.T_void && type ≠ NativeType.T_unknown

end Encoder

/-! ## Property reflection and serialisation (encoder.cpp lines 401-588) -/

namespace Encoder

/-- The body of `Encoder::encodePropertyReflection(offset, symbolTable, type)` (lines
415-438), with the recursive call of line 428 passed as `recur`. -/
def encodePropertyReflectionBody (recur : Str → SymbolTable → Str → Str)
    (offset : Str) (symbolTable : SymbolTable) (type : Str) : Str :=
  let decoratorType := parseDecoratorType symbolTable type
  let nativeType := parseNativeType symbolTable type
  let buffer : EncodeBuffer := {}
  let off : Str := offset ++ "    "
  let buffer :=
    if nativeType = NativeType.T_template then
      let typenames := extractTypenames type
      let buffer := typenames.foldl
        (fun buffer tname =>
          buffer.pushAll ["\n" ++ off, recur (offset ++ "    ") symbolTable tname, ","])
        buffer
      buffer.push ("\n" ++ offset)
    else
      buffer.push " "
  "reflect::NativeType\x7b \"" ++ type ++ "\", \x7b " ++ buffer.string false ++ "\x7d, "
    ++ toStringDecorator decoratorType ++ ", sizeof(" ++ type ++ "), "
    ++ toStringNative nativeType ++ " \x7d"

/-- The recursion of the descriptor emitter, bounded by a number of nested calls; the
bound is never reached when it is at least the length of the type string (see
`encodePropertyReflectionAux_fuel`). -/
def encodePropertyReflectionAux : Nat → Str → SymbolTable → Str → Str
  | 0 => encodePropertyReflectionBody (fun _ _ _ => [])
  | fuel + 1 => encodePropertyReflectionBody (encodePropertyReflectionAux fuel)

/-- Source function `Encoder::encodePropertyReflection(offset, symbolTable, type)` (lines 415-438). Every
type argument is shorter than the type string, so the length bounds the recursion. -/
def encodePropertyReflection (offset : Str) (symbolTable : SymbolTable) (type : Str) : Str :=
  encodePropertyReflectionAux type.length offset symbolTable type

/-- Source function `Encoder::encodePropertyReflection(offset, symbolTable, property, name)` (lines
401-413); the loop over the meta map carries the flag `first`. -/
def encodePropertyReflectionProperty (offset : Str) (symbolTable : SymbolTable)
    (property : Property) (name : Str) : Str :=
  let buffer : EncodeBuffer := {}
  let buffer := buffer.pushAll [offset, "\x7b \"", property.name,
    "\", reflect::Property\x7b offsetof(", name, ", ", property.name, "), reflect::meta_t \x7b"]
  let (buffer, _) := property.meta.foldl
    (fun (state : EncodeBuffer × Bool) (entry : Str × Str) =>
      (state.1.pushAll [if state.2 then "" else ", ", "\x7b\"", entry.1, "\", \"", entry.2,
        "\"\x7d"], false))
    (buffer, true)
  let buffer := buffer.pushAll [" \x7d, \"", property.name, "\", ",
    encodePropertyReflection offset symbolTable property.type, " \x7d \x7d"]
  buffer.string false

/-- The body of `Encoder::encodePropertySerialization(offset, symbolTable, serialize, name,
type)` (lines 445-583), with the recursive calls (lines 509, 515, 535, 537, 548, 551)
passed as `recur`. A `break` leaves the buffer as it is. -/
def encodePropertySerializationBody (recur : Str → SymbolTable → Bool → Str → Str → Str)
    (offset : Str) (symbolTable : SymbolTable) (serialize : Bool) (name type : Str) : Str :=
  let decoratorType := parseDecoratorType symbolTable type
  let nativeType := parseNativeType symbolTable type
  let buffer : EncodeBuffer := {}
  if decoratorType ≠ DecoratorType.D_raw then ""
  else
    let buffer :=
      match nativeType with
      | .T_bool | .T_char | .T_double | .T_float | .T_int | .T_string =>
        buffer.pushAll [offset, "stream ", if serialize then "<<" else ">>", " ", name, ";"]
      | .T_enum =>
        if serialize then
          buffer.pushAll [offset, "stream << static_cast<int>(", name, ");"]
        else
          let buffer := buffer.pushAll [offset, "\x7b"]
          let buffer := buffer.pushAll ["\n", offset, "    ", "int pack;"]
          let buffer := buffer.pushAll ["\n", offset, "    ", "stream >> pack;"]
          let buffer := buffer.pushAll ["\n", offset, "    ", name, " = static_cast<", type,
            ">(", name, ");"]
          buffer.pushAll ["\n", offset, "\x7d"]
      | .T_template =>
        match extractTypenames type with
        | [] => buffer
        | typenames0 :: typenamesRest =>
          if StringUtil.startsWith type "vector" || StringUtil.startsWith type "std::vector"
              || StringUtil.startsWith type "list" || StringUtil.startsWith type "std::list" then
            if !isValidListType (parseNativeType symbolTable typenames0) then buffer
            else
              let buffer := buffer.pushAll [offset, "\x7b"]
              let buffer :=
                if serialize then
                  let buffer := buffer.pushAll ["\n", offset, "    ", "stream << ", name,
                    ".size();"]
                  buffer.pushAll ["\n", offset, "    ", "for (const auto& element : ", name, ")"]
                else
                  let buffer := buffer.pushAll ["\n", offset, "    ", "std::size_t size;"]
                  let buffer := buffer.pushAll ["\n", offset, "    ", "stream >> size;"]
                  let buffer := buffer.pushAll ["\n", offset, "    ", name, ".resize(size);"]
                  buffer.pushAll ["\n", offset, "    ", "for (int i = 0; i < ", name,
                    ".size(); ++i)"]
              let buffer := buffer.pushAll ["\n", offset, "    ", "\x7b"]
              let buffer :=
                if serialize then
                  let temp := recur "    " symbolTable serialize "element" typenames0
                  buffer.pushAll ["\n", offset, "    ", temp]
                else
                  let buffer := buffer.pushAll ["\n", offset, "        ", typenames0,
                    " element;"]
                  let temp := recur "" symbolTable serialize "element" typenames0
                  let buffer := buffer.pushAll ["\n", offset, "        ", temp]
                  buffer.pushAll ["\n", offset, "        ", name, ".push_back(element);"]
              let buffer := buffer.pushAll ["\n", offset, "    ", "\x7d"]
              buffer.pushAll ["\n", offset, "\x7d"]
          else if StringUtil.startsWith type "map" || StringUtil.startsWith type "std::map"
              || StringUtil.startsWith type "unordered_map"
              || StringUtil.startsWith type "std::unordered_map" then
            match typenamesRest with
            | [] => buffer
            | typenames1 :: _ =>
              if !isValidMapKeyType (parseNativeType symbolTable typenames0)
                  || !isValidMapValueType (parseNativeType symbolTable typenames1) then buffer
              else
                let buffer := buffer.pushAll [offset, "\x7b"]
                let buffer :=
                  if serialize then
                    let buffer := buffer.pushAll ["\n", offset, "    ", "stream << ", name,
                      ".size();"]
                    let buffer := buffer.pushAll ["\n", offset, "    ",
                      "for (const auto& pair : ", name, ")"]
                    let buffer := buffer.pushAll ["\n", offset, "    ", "\x7b"]
                    let temp := recur "    " symbolTable serialize "pair.first" typenames0
                    let buffer := buffer.pushAll ["\n", offset, "    ", temp]
                    let temp := recur "    " symbolTable serialize "pair.second" typenames1
                    let buffer := buffer.pushAll ["\n", offset, "    ", temp]
                    buffer.pushAll ["\n", offset, "    ", "\x7d"]
                  else
                    let buffer := buffer.pushAll ["\n", offset, "    ", "std::size_t size;"]
                    let buffer := buffer.pushAll ["\n", offset, "    ", "stream >> size;"]
                    let buffer := buffer.pushAll ["\n", offset, "    ",
                      "for (int i = 0; i < size; ++i)"]
                    let buffer := buffer.pushAll ["\n", offset, "    ", "\x7b"]
                    let buffer := buffer.pushAll ["\n", offset, "        ", typenames0, " key;"]
                    let temp := recur "    " symbolTable serialize "key" typenames0
                    let buffer := buffer.pushAll ["\n", offset, "    ", temp]
                    let buffer := buffer.pushAll ["\n", offset, "        ", typenames1,
                      " value;"]
                    let temp := recur "    " symbolTable serialize "value" typenames1
                    let buffer := buffer.pushAll ["\n", offset, "    ", temp]
                    let buffer := buffer.pushAll ["\n", offset, "        ", name,
                      ".insert(std::make_pair(key, value));"]
                    buffer.pushAll ["\n", offset, "    ", "\x7d"]
                buffer.pushAll ["\n", offset, "\x7d"]
          else buffer
      | .T_type =>
        if serialize then
          buffer.pushAll [offset, "stream << static_cast<std::string>(", name, ");"]
        else
          let buffer := buffer.pushAll [offset, "\x7b"]
          let buffer := buffer.pushAll ["\n", offset, "    ", "std::string pack;"]
          let buffer := buffer.pushAll ["\n", offset, "    ", "stream >> pack;"]
          let buffer := buffer.pushAll ["\n", offset, "    ", name, ".from_string(pack);"]
          buffer.pushAll ["\n", offset, "\x7d"]
      | .T_void | .T_unknown => buffer
    buffer.string false

/-- The recursion of the serialisation emitter, bounded by a number of nested calls; the
bound is never reached when it is at least the length of the type string. -/
def encodePropertySerializationAux : Nat → Str → SymbolTable → Bool → Str → Str → Str
  | 0 => encodePropertySerializationBody (fun _ _ _ _ _ => [])
  | fuel + 1 => encodePropertySerializationBody (encodePropertySerializationAux fuel)

/-- Source function `Encoder::encodePropertySerialization(offset, symbolTable, serialize, name, type)`
(lines 445-583). Every type argument is shorter than the type string, so the length bounds
the recursion. -/
def encodePropertySerialization (offset : Str) (symbolTable : SymbolTable) (serialize : Bool)
    (name type : Str) : Str :=
  encodePropertySerializationAux type.length offset symbolTable serialize name type

/-- Source function `Encoder::encodePropertySerialization(offset, symbolTable, serialize, property)` (lines
440-443). -/
def encodePropertySerializationProperty (offset : Str) (symbolTable : SymbolTable)
    (serialize : Bool) (property : Property) : Str :=
  encodePropertySerialization offset symbolTable serialize property.name property.type

/-- Source function `Encoder::encodePropertySerializationToJson` (lines 585-588). -/
def encodePropertySerializationToJson (_offset : Str) (_symbolTable : SymbolTable)
    (_serialize : Bool) (_property : Property) : Str :=
  ""

end Encoder

/-! ## The class encoder (encoder.cpp lines 155-369) -/

namespace Encoder

/-- How a parent walk (`while (parent_name != "IType")`) ends: the loop is left with the
flag `has_parent`, or the function returns `false` because `findClass` gave the null
pointer. In both cases the source buffer holds what was pushed so far. -/
inductive ParentWalk where
  | finished (has_parent : Bool) (sourceBuffer : EncodeBuffer)
  | missing (sourceBuffer : EncodeBuffer)
  deriving DecidableEq, Repr

/-- The parent walk that the class encoder runs four times (lines 189-206, 232-252, 289-309
and 332-352). `marker` is the first token of the marker line (the indentation and
`// Parent class `), `emit` is the body of the loop over the properties of the parent. The
first argument bounds the number of iterations: `none` means the bound was reached while
the loop was still running. -/
def walkParents (collection : TypeCollection) (marker : Str)
    (emit : EncodeBuffer → Property → EncodeBuffer) :
    Nat → Str → Bool → EncodeBuffer → Option ParentWalk
  | fuel, parent_name, has_parent, sourceBuffer =>
    if parent_name = "IType" then some (ParentWalk.finished has_parent sourceBuffer)
    else
      match fuel with
      | 0 => none
      | fuel + 1 =>
        match collection.findClass parent_name with
        | none => some (ParentWalk.missing sourceBuffer)
        | some parentClass =>
          let sourceBuffer := sourceBuffer.push_lineAll [marker, parent_name, " properties"]
          let sourceBuffer := parentClass.properties.foldl emit sourceBuffer
          walkParents collection marker emit fuel parentClass.parent true sourceBuffer

/-- The loop body of lines 202 and 213: one line of the `properties()` table. -/
def pushReflection (symbolTable : SymbolTable) (name : Str) (sourceBuffer : EncodeBuffer)
    (property : Property) : EncodeBuffer :=
  sourceBuffer.push_line (encodePropertyReflectionProperty "        " symbolTable property name ++ ",")

/-- The loop body of lines 245-248, 259-262, 302-305 and 316-319: the serialisation code of
a property is pushed as a line unless it is empty. -/
def pushSerialization (symbolTable : SymbolTable) (serialize : Bool) (sourceBuffer : EncodeBuffer)
    (property : Property) : EncodeBuffer :=
  let temp := encodePropertySerializationProperty "    " symbolTable serialize property
  if !temp.isEmpty then sourceBuffer.push_line temp else sourceBuffer

/-- The loop body of lines 345-348 and 359-362. -/
def pushSerializationToJson (symbolTable : SymbolTable) (serialize : Bool)
    (sourceBuffer : EncodeBuffer) (property : Property) : EncodeBuffer :=
  let temp := encodePropertySerializationToJson "    " symbolTable serialize property
  if !temp.isEmpty then sourceBuffer.push_line temp else sourceBuffer

/-- Source function `Encoder::encode(headerBuffer, sourceBuffer, symbolTable, collection, type)` for a class
(lines 155-369). The result is `none` when one of the four parent walks does not end within
`fuel` iterations; otherwise it is the returned flag with the two buffers as the call leaves
them. -/
def encodeClass (fuel : Nat) (headerBuffer sourceBuffer : EncodeBuffer)
    (symbolTable : SymbolTable) (collection : TypeCollection) (type : TypeClass) :
    Option (Bool × EncodeBuffer × EncodeBuffer) :=
  -- header
  let forward_keyword : Str := if type.isStruct then "struct" else "class"
  let headerBuffer := headerBuffer.push_line "template <>"
  let headerBuffer := headerBuffer.push_lineAll ["struct reflect::Type<", forward_keyword, " ",
    type.name, "> : reflect::RegisteredInTypeFactory<", forward_keyword, " ", type.name, ">"]
  let headerBuffer := headerBuffer.push_line "\x7b"
  let headerBuffer := headerBuffer.push_line "    static const reflect::meta_t& meta();"
  let headerBuffer := headerBuffer.push_line "    static const char* const name();"
  let headerBuffer := headerBuffer.push_line "    static const reflect::properties_t& properties();"
  let headerBuffer := headerBuffer.push_line ""
  let headerBuffer := headerBuffer.push_line "    static bool registered() \x7b return value; \x7d;"
  let headerBuffer := headerBuffer.push_line "\x7d;"
  let headerBuffer := headerBuffer.push_line ""
  -- source
  let sourceBuffer := sourceBuffer.push_lineAll ["const reflect::meta_t& reflect::Type<",
    type.name, ">::meta()"]
  let sourceBuffer := sourceBuffer.push_line "\x7b"
  let sourceBuffer := sourceBuffer.push_line "    static reflect::meta_t s_meta \x7b"
  let sourceBuffer := type.meta.foldl
    (fun sourceBuffer entry =>
      sourceBuffer.push_lineAll ["        \x7b \"", entry.1, "\", \"", entry.2, "\" \x7d,"])
    sourceBuffer
  let sourceBuffer := sourceBuffer.push_line "    \x7d;"
  let sourceBuffer := sourceBuffer.push_line "    return s_meta;"
  let sourceBuffer := sourceBuffer.push_line "\x7d"
  let sourceBuffer := sourceBuffer.push_lineAll ["const char* const reflect::Type<", type.name,
    ">::name() \x7b return \"", type.name, "\"; \x7d"]
  let sourceBuffer := sourceBuffer.push_line ""
  let sourceBuffer := sourceBuffer.push_lineAll ["const reflect::properties_t& Type<", type.name,
    ">::properties()"]
  let sourceBuffer := sourceBuffer.push_line "\x7b"
  let sourceBuffer := sourceBuffer.push_line "    static reflect::properties_t s_properties \x7b"
  -- look for parent classes
  match walkParents collection "        // Parent class " (pushReflection symbolTable type.name)
      fuel type.parent false sourceBuffer with
  | none => none
  | some (ParentWalk.missing sourceBuffer) => some (false, headerBuffer, sourceBuffer)
  | some (ParentWalk.finished has_parent sourceBuffer) =>
  let sourceBuffer :=
    if has_parent then sourceBuffer.push_line "        // Properties" else sourceBuffer
  let sourceBuffer := type.properties.foldl (pushReflection symbolTable type.name) sourceBuffer
  let sourceBuffer := sourceBuffer.push_line "    \x7d;"
  let sourceBuffer := sourceBuffer.push_line "    return s_properties;"
  let sourceBuffer := sourceBuffer.push_line "\x7d"
  let sourceBuffer := sourceBuffer.push_line ""
  let sourceBuffer := sourceBuffer.push_lineAll ["const reflect::meta_t& ", type.name,
    "::type_meta() const \x7b return reflect::Type<", type.name, ">::meta(); \x7d"]
  let sourceBuffer := sourceBuffer.push_lineAll ["const char* const ", type.name,
    "::type_name() const \x7b return reflect::Type<", type.name, ">::name(); \x7d"]
  let sourceBuffer := sourceBuffer.push_lineAll ["const reflect::properties_t& ", type.name,
    "::type_properties() const \x7b return reflect::Type<", type.name, ">::properties(); \x7d"]
  let sourceBuffer := sourceBuffer.push_line ""
  let sourceBuffer := sourceBuffer.push_lineAll [type.name, "::operator std::string() const"]
  let sourceBuffer := sourceBuffer.push_line "\x7b"
  let sourceBuffer := sourceBuffer.push_line "    reflect::encoding::ByteBuffer buffer;"
  let sourceBuffer := sourceBuffer.push_line
    "    reflect::encoding::OutputByteStream stream(buffer);"
  let sourceBuffer := sourceBuffer.push_line "    stream << type_name();"
  let sourceBuffer := sourceBuffer.push_line "    "
  -- look for parent classes
  match walkParents collection "    // Parent class " (pushSerialization symbolTable true)
      fuel type.parent false sourceBuffer with
  | none => none
  | some (ParentWalk.missing sourceBuffer) => some (false, headerBuffer, sourceBuffer)
  | some (ParentWalk.finished has_parent sourceBuffer) =>
  let sourceBuffer :=
    if has_parent then sourceBuffer.push_line "    // Properties" else sourceBuffer
  let sourceBuffer := type.properties.foldl (pushSerialization symbolTable true) sourceBuffer
  let sourceBuffer := sourceBuffer.push_line "    "
  let sourceBuffer := sourceBuffer.push_line
    "    return std::string(reinterpret_cast<const char*>(&stream.getBuffer()[0]), stream.getBuffer().size());"
  let sourceBuffer := sourceBuffer.push_line "\x7d"
  let sourceBuffer := sourceBuffer.push_line ""
  let sourceBuffer := sourceBuffer.push_lineAll ["void ", type.name,
    "::from_string(const std::string& str)"]
  let sourceBuffer := sourceBuffer.push_line "\x7b"
  let sourceBuffer := sourceBuffer.push_line "    reflect::encoding::ByteBuffer buffer;"
  let sourceBuffer := sourceBuffer.push_line "    std::transform("
  let sourceBuffer := sourceBuffer.push_line "        std::begin(str),"
  let sourceBuffer := sourceBuffer.push_line "        std::end(str),"
  let sourceBuffer := sourceBuffer.push_line "        std::back_inserter(buffer),"
  let sourceBuffer := sourceBuffer.push_line "        [](const char c)"
  let sourceBuffer := sourceBuffer.push_line "        \x7b"
  let sourceBuffer := sourceBuffer.push_line "            return std::byte(c);"
  let sourceBuffer := sourceBuffer.push_line "        \x7d"
  let sourceBuffer := sourceBuffer.push_line "    );"
  let sourceBuffer := sourceBuffer.push_line "    "
  let sourceBuffer := sourceBuffer.push_line "    reflect::encoding::InputByteStream stream(buffer);"
  let sourceBuffer := sourceBuffer.push_line "    std::string _name;"
  let sourceBuffer := sourceBuffer.push_line "    stream >> _name;"
  let sourceBuffer := sourceBuffer.push_line "    if (_name != type_name()) return;"
  let sourceBuffer := sourceBuffer.push_line "    "
  -- look for parent classes
  match walkParents collection "    // Parent class " (pushSerialization symbolTable false)
      fuel type.parent false sourceBuffer with
  | none => none
  | some (ParentWalk.missing sourceBuffer) => some (false, headerBuffer, sourceBuffer)
  | some (ParentWalk.finished has_parent sourceBuffer) =>
  let sourceBuffer :=
    if has_parent then sourceBuffer.push_line "    // Properties" else sourceBuffer
  let sourceBuffer := type.properties.foldl (pushSerialization symbolTable false) sourceBuffer
  let sourceBuffer := sourceBuffer.push_line "\x7d"
  let sourceBuffer := sourceBuffer.push_line ""
  let sourceBuffer := sourceBuffer.push_lineAll ["void ", type.name,
    "::from_json(const std::string& json)"]
  let sourceBuffer := sourceBuffer.push_line "\x7b"
  let sourceBuffer := sourceBuffer.push_line "\x7d"
  let sourceBuffer := sourceBuffer.push_line ""
  let sourceBuffer := sourceBuffer.push_lineAll ["std::string ", type.name, "::to_json() const"]
  let sourceBuffer := sourceBuffer.push_line "\x7b"
  -- look for parent classes
  match walkParents collection "    // Parent class " (pushSerializationToJson symbolTable true)
      fuel type.parent false sourceBuffer with
  | none => none
  | some (ParentWalk.missing sourceBuffer) => some (false, headerBuffer, sourceBuffer)
  | some (ParentWalk.finished has_parent sourceBuffer) =>
  let sourceBuffer :=
    if has_parent then sourceBuffer.push_line "    // Properties" else sourceBuffer
  let sourceBuffer := type.properties.foldl (pushSerializationToJson symbolTable true)
    sourceBuffer
  let sourceBuffer := sourceBuffer.push_line "    return \"\";"
  let sourceBuffer := sourceBuffer.push_line "\x7d"
  let sourceBuffer := sourceBuffer.push_line ""
  some (true, headerBuffer, sourceBuffer)

end Encoder

/-! ## The enum encoder (encoder.cpp lines 371-399) -/

namespace Encoder

/-- Source function `Encoder::encode(headerBuffer, sourceBuffer, symbolTable, type)` for an
enum (lines 371-399): the returned flag with the two buffers as the call leaves them. -/
def encodeEnum (headerBuffer sourceBuffer : EncodeBuffer) (_symbolTable : SymbolTable)
    (type : TypeEnum) : Bool × EncodeBuffer × EncodeBuffer :=
  -- header
  let headerBuffer := headerBuffer.push_line "template <>"
  let headerBuffer := headerBuffer.push_lineAll ["struct reflect::Enum<enum class ", type.name,
    "> : reflect::RegisteredInEnumFactory<enum class ", type.name, ">"]
  let headerBuffer := headerBuffer.push_line "\x7b"
  let headerBuffer := headerBuffer.push_line "    static const char* const name();"
  let headerBuffer := headerBuffer.push_line "    static const reflect::enum_values_t& values();"
  let headerBuffer := headerBuffer.push_line "    "
  let headerBuffer := headerBuffer.push_line "    static bool registered() \x7b return value; \x7d;"
  let headerBuffer := headerBuffer.push_line "\x7d;"
  let headerBuffer := headerBuffer.push_line ""
  -- source
  let sourceBuffer := sourceBuffer.push_lineAll ["const char* const reflect::Enum<", type.name,
    ">::name() \x7b return \"", type.name, "\"; \x7d"]
  let sourceBuffer := sourceBuffer.push_lineAll ["const reflect::enum_values_t& reflect::Enum<",
    type.name, ">::values()"]
  let sourceBuffer := sourceBuffer.push_line "\x7b"
  let sourceBuffer := sourceBuffer.push_line "    static reflect::enum_values_t s_values\x7b"
  let sourceBuffer := type.options.foldl
    (fun sourceBuffer option =>
      sourceBuffer.push_lineAll ["        \x7b \"", option, "\", static_cast<int>(", type.name,
        "::", option, ") \x7d, "])
    sourceBuffer
  let sourceBuffer := sourceBuffer.push_line "    \x7d;"
  let sourceBuffer := sourceBuffer.push_line "    return s_values;"
  let sourceBuffer := sourceBuffer.push_line "\x7d"
  let sourceBuffer := sourceBuffer.push_line ""
  (true, headerBuffer, sourceBuffer)

end Encoder

/-! ## The file system and the top-level encoder (encoder.cpp lines 39-153) -/

/-- Modelled from the spec: the file system as an explicit map from paths to contents,
together with the paths on which an output stream cannot be opened. -/
structure FileSystem where
  files : List (Str × Str)
  unwritable : List Str
  deriving DecidableEq, Repr

namespace FileSystem

/-- Modelled from the spec: `std::filesystem::exists(filename)`. -/
def «exists» (fs : FileSystem) (filename : Str) : Bool :=
  (fs.files.lookup filename).isSome

/-- The lambda `read` of lines 41-47: the content of the file, empty when the file cannot
be opened. -/
def read (fs : FileSystem) (filename : Str) : Str :=
  (fs.files.lookup filename).getD []

/-- Modelled from the spec: `fstream.is_open()` after `std::ofstream fstream(filename)`. -/
def is_open (fs : FileSystem) (filename : Str) : Bool :=
  !(fs.unwritable.contains filename)

/-- Modelled from the spec: the effect of `fstream << content` on a stream opened on
`filename`: the path holds the content, every other path is left as it is. -/
def write (fs : FileSystem) (filename content : Str) : FileSystem :=
  { fs with files := (filename, content) :: fs.files.filter (fun file => file.1 ≠ filename) }

end FileSystem

namespace Encoder

/-- Modelled from the spec: `path / name` of `std::filesystem::path` (lines 49-50), with
`/` as the separator: a name that is absolute replaces the path; otherwise the name is
appended to the path, behind a separator unless the path is empty or ends with one. -/
def joinPath (path name : Str) : Str :=
  if name.head? = some '/' then name
  else if path.isEmpty || path.getLast? = some '/' then path ++ name
  else path ++ ("/" : Str) ++ name

/-- The lambda `generate` of lines 121-145: the returned flag, the file system as the call
leaves it, and the paths it has written. The call `buffer.string()` takes the default
argument of the missing `encoder.h`, modelled from the spec as `true` (one line break
after every line). -/
def generate (fs : FileSystem) (buffer : EncodeBuffer) (filename : Str) :
    Bool × FileSystem × List Str :=
  let content := buffer.string true
  let previousContent : Str := if fs.exists filename then fs.read filename else ""
  if previousContent ≠ content then
    if !fs.is_open filename then (false, fs, [])
    else (true, fs.write filename content, [filename])
  else (true, fs, [])

/-- The loop of lines 69-99 of the top-level encoder: the enums and the classes named by
the symbol list, each kind in the order of the list; `none` when the function returns
`false` (a name without symbol, a class or an enum that the collection does not hold). -/
def collectSymbols (collection : TypeCollection) (symbolTable : SymbolTable) :
    List Str → List TypeEnum → List TypeClass → Option (List TypeEnum × List TypeClass)
  | [], enums, classes => some (enums, classes)
  | name :: symbolList, enums, classes =>
    match symbolTable.lookup name with
    | none => none
    | some type =>
      if type = SymbolType.S_class then
        match collection.findClass name with
        | none => none
        | some eClass => collectSymbols collection symbolTable symbolList enums (classes ++ [eClass])
      else
        match collection.findEnum name with
        | none => none
        | some eEnum => collectSymbols collection symbolTable symbolList (enums ++ [eEnum]) classes

/-- The loop of lines 102-109: every enum is encoded in turn; `none` when the function
returns `false`. -/
def encodeEnums (symbolTable : SymbolTable) :
    List TypeEnum → EncodeBuffer → EncodeBuffer → Option (EncodeBuffer × EncodeBuffer)
  | [], header_buffer, source_buffer => some (header_buffer, source_buffer)
  | eEnum :: enums, header_buffer, source_buffer =>
    match encodeEnum header_buffer source_buffer symbolTable eEnum with
    | (false, _, _) => none
    | (true, header_buffer, source_buffer) =>
      encodeEnums symbolTable enums header_buffer source_buffer

/-- The loop of lines 112-119: every class is encoded in turn. The outer `none` means that
a parent walk did not end within `fuel` iterations, the inner `none` that the function
returns `false`. -/
def encodeClasses (fuel : Nat) (symbolTable : SymbolTable) (collection : TypeCollection) :
    List TypeClass → EncodeBuffer → EncodeBuffer → Option (Option (EncodeBuffer × EncodeBuffer))
  | [], header_buffer, source_buffer => some (some (header_buffer, source_buffer))
  | eClass :: classes, header_buffer, source_buffer =>
    match encodeClass fuel header_buffer source_buffer symbolTable collection eClass with
    | none => none
    | some (false, _, _) => some none
    | some (true, header_buffer, source_buffer) =>
      encodeClasses fuel symbolTable collection classes header_buffer source_buffer

/-- Lines 52-119 of the top-level encoder: the header buffer and the source buffer as they
stand before the files are generated. The outer `none` means that a parent walk did not
end within `fuel` iterations, the inner `none` that the function returns `false`. -/
def encodeBuffers (fuel : Nat) (symbolList : List Str) (collection : TypeCollection)
    (symbolTable : SymbolTable) (filename : Str) : Option (Option (EncodeBuffer × EncodeBuffer)) :=
  let header_buffer : EncodeBuffer := {}
  let header_buffer := header_buffer.push_line "// Copyright (c) Vito Domenico Tagliente"
  let header_buffer := header_buffer.push_line
    "// automatically generated by the compiler, do not modify"
  let header_buffer := header_buffer.push_line "#pragma once"
  let header_buffer := header_buffer.push_line ""
  let header_buffer := header_buffer.push_line "#include <vdtreflect/runtime.h>"
  let header_buffer := header_buffer.push_line ""
  let source_buffer : EncodeBuffer := {}
  let source_buffer := source_buffer.push_line "// Copyright (c) Vito Domenico Tagliente"
  let source_buffer := source_buffer.push_line
    "// automatically generated by the compiler, do not modify"
  let source_buffer := source_buffer.push_lineAll ["#include \"", filename, "\""]
  let source_buffer := source_buffer.push_line ""
  match collectSymbols collection symbolTable symbolList [] [] with
  | none => some none
  | some (enums, classes) =>
    -- enums
    match encodeEnums symbolTable enums header_buffer source_buffer with
    | none => some none
    | some (header_buffer, source_buffer) =>
      -- classes
      encodeClasses fuel symbolTable collection classes header_buffer source_buffer

/-- Source function `Encoder::encode(symbolList, collection, symbolTable, path, filename)`
(lines 39-153) on the file system `fs`: the returned flag, the file system as the call
leaves it, and the paths written, in order; `none` when a parent walk did not end within
`fuel` iterations. -/
def encode (fuel : Nat) (fs : FileSystem) (symbolList : List Str) (collection : TypeCollection)
    (symbolTable : SymbolTable) (path filename : Str) : Option (Bool × FileSystem × List Str) :=
  let outHeaderFilename := joinPath path (StringUtil.replace filename ".h" "_generated.h")
  let outSourceFilename := joinPath path (StringUtil.replace filename ".h" "_generated.cpp")
  match encodeBuffers fuel symbolList collection symbolTable filename with
  | none => none
  | some none => some (false, fs, [])
  | some (some (header_buffer, source_buffer)) =>
    -- generate the header file only if it is changed or if it doesn't exist
    match generate fs header_buffer outHeaderFilename with
    | (false, fs, written) => some (false, fs, written)
    | (true, fs, written) =>
      -- generate the source file only if it is changed or if it doesn't exist
      match generate fs source_buffer outSourceFilename with
      | (false, fs, writtenSource) => some (false, fs, written ++ writtenSource)
      | (true, fs, writtenSource) => some (true, fs, written ++ writtenSource)

end Encoder

/-! ## Reference definitions for the classification claims -/

namespace Encoder

/-- A type string is normalised: it is not empty, contains no `std::` and does not end
with `*`, `&` or a space. -/
def Normalised (t : Str) : Prop :=
  t ≠ [] ∧ ¬ (("std::" : Str) <:+: t) ∧
    t.getLast? ≠ some '*' ∧ t.getLast? ≠ some '&' ∧ t.getLast? ≠ some ' '

instance : DecidablePred Normalised := fun t => by
  unfold Normalised
  infer_instance

/-- The reference classification of a normalised type string, as the specification words
it: an exact primitive name gives the primitive, otherwise a `<` gives Template, otherwise
the symbol table decides (Class gives UserType, Enum gives Enum), otherwise Unknown. -/
def parseNativeTypeRef (symbolTable : SymbolTable) (t : Str) : NativeType :=
  if t = "bool" then NativeType.T_bool
  else if t = "char" then NativeType.T_char
  else if t = "int" then NativeType.T_int
  else if t = "float" then NativeType.T_float
  else if t = "double" then NativeType.T_double
  else if t = "void" then NativeType.T_void
  else if t = "string" then NativeType.T_string
  else if '<' ∈ t then NativeType.T_template
  else if symbolTable.lookup t = some SymbolType.S_class then NativeType.T_type
  else if symbolTable.lookup t = some SymbolType.S_enum then NativeType.T_enum
  else NativeType.T_unknown

/-- The last character of a type string that is not whitespace, if there is one. -/
def lastNonWhitespace (t : Str) : Option Char :=
  (t.rdropWhile Char.isWhitespace).getLast?


/-- The decorator classification as the specification words it: the last character that is
not whitespace decides, `*` for Pointer, `&` for Reference, anything else for Raw. -/
def parseDecoratorTypeSpec (t : Str) : DecoratorType :=
  if lastNonWhitespace t = some '*' then DecoratorType.D_pointer
  else if lastNonWhitespace t = some '&' then DecoratorType.D_reference
  else DecoratorType.D_raw

end Encoder

/-! ## Reference definitions for the template-argument claims -/

namespace Encoder

/-- The nesting depth of `<...>` after reading one more character. -/
def nextDepth (depth : Nat) (c : Char) : Nat :=
  if c = '<' then depth + 1 else if c = '>' then depth - 1 else depth

/-- The split at top-level commas, as the specification words it: a comma is a separator
only when it is not enclosed by a deeper `<...>`. The first argument is the current depth. -/
def splitTopLevelAux : Nat → Str → List Str
  | _, [] => [[]]
  | depth, c :: cs =>
    if c = ',' ∧ depth = 0 then [] :: splitTopLevelAux 0 cs
    else
      match splitTopLevelAux (nextDepth depth c) cs with
      | [] => [[c]]
      | piece :: pieces => (c :: piece) :: pieces

/-- The split of a text at its top-level commas. -/
def splitTopLevel (content : Str) : List Str := splitTopLevelAux 0 content

/-- The text between the first `<` and the last character of a type string. -/
def templateContent (token : Str) : Str :=
  (token.drop (token.indexOf '<' + 1)).dropLast

/-- The template-argument extraction as the specification words it: for a type string that
contains `<` and ends with `>`, the text between the first `<` and the final `>`, split at
top-level commas, each piece trimmed. -/
def extractTypenamesSpec (token : Str) : List Str :=
  if '<' ∈ token ∧ token.getLast? = some '>' then
    (splitTopLevel (templateContent token)).map StringUtil.trim
  else []

/-- No comma of the text is enclosed by a `<...>`: every comma is read at depth zero. The
first argument is the current depth. -/
def noNestedCommaAux : Nat → Str → Bool
  | _, [] => true
  | depth, c :: cs =>
    if c = ',' then depth = 0 && noNestedCommaAux 0 cs
    else noNestedCommaAux (nextDepth depth c) cs

/-- No comma of the text is enclosed by a `<...>`. -/
def noNestedComma (content : Str) : Bool := noNestedCommaAux 0 content

/-- The value of the local `typenames` of `encodePropertyReflection(offset, symbolTable,
type)` when the function returns (lines 419 and 423-426): the type arguments whose
descriptors make up the arguments list. -/
def reflectionTypenames (symbolTable : SymbolTable) (type : Str) : List Str :=
  if parseNativeType symbolTable type = NativeType.T_template then extractTypenames type else []

end Encoder

/-! ## Reference definitions for the class-encoder claims -/

namespace Encoder

/-- The list `chain` is the sequence of ancestors met by following the parent field from
`parent_name` until the sentinel `IType`, the nearest ancestor first; every one of them is
found in the collection. -/
def isParentChain (collection : TypeCollection) : Str → List TypeClass → Bool
  | parent_name, [] => parent_name = ("IType" : Str)
  | parent_name, parentClass :: rest =>
    parent_name ≠ ("IType" : Str) && collection.findClass parent_name = some parentClass
      && isParentChain collection parentClass.parent rest

/-- The lines that `pushReflection` adds for a property: one line of the table. -/
def reflectionLines (symbolTable : SymbolTable) (name : Str) (property : Property) : List Str :=
  [encodePropertyReflectionProperty "        " symbolTable property name ++ ","]

/-- The lines that `pushSerialization` adds for a property: its code, unless it is empty. -/
def serializationLines (symbolTable : SymbolTable) (serialize : Bool) (property : Property) :
    List Str :=
  if (encodePropertySerializationProperty "    " symbolTable serialize property).isEmpty then []
  else [encodePropertySerializationProperty "    " symbolTable serialize property]

/-- One emitted section for the ancestors `chain`, listed nearest ancestor first: for each
ancestor in that order its marker line and the lines of its properties, then the marker
`// Properties` when there is an ancestor, then the lines of the own properties. -/
def ancestorSection (marker propertiesMarker : Str) (lines : Property → List Str)
    (chain : List TypeClass) (type : TypeClass) : List Str :=
  chain.flatMap (fun parentClass =>
      (marker ++ parentClass.name ++ (" properties" : Str)) :: parentClass.properties.flatMap lines)
    ++ (if chain.isEmpty then [] else [propertiesMarker])
    ++ type.properties.flatMap lines

/-- The lines that a successful class encoder adds to the header buffer. -/
def classHeaderLines (type : TypeClass) : List Str :=
  ([ "template <>",
    ("struct reflect::Type<" : Str) ++ (if type.isStruct then ("struct" : Str) else "class") ++ " "
      ++ type.name ++ "> : reflect::RegisteredInTypeFactory<"
      ++ (if type.isStruct then ("struct" : Str) else "class") ++ " " ++ type.name ++ ">",
    "\x7b",
    "    static const reflect::meta_t& meta();",
    "    static const char* const name();",
    "    static const reflect::properties_t& properties();",
    "",
    "    static bool registered() \x7b return value; \x7d;",
    "\x7d;",
    "" ] : List Str)

/-- The lines that a successful class encoder adds to the source buffer, for a class whose
ancestors are `chain` (nearest first): the fixed lines around the four sections. -/
def classSourceLines (symbolTable : SymbolTable) (type : TypeClass) (chain : List TypeClass) :
    List Str :=
  ([ ("const reflect::meta_t& reflect::Type<" : Str) ++ type.name ++ ">::meta()",
    "\x7b",
    "    static reflect::meta_t s_meta \x7b" ] : List Str)
  ++ type.meta.map (fun entry =>
      ("        \x7b \"" : Str) ++ entry.1 ++ "\", \"" ++ entry.2 ++ "\" \x7d,")
  ++ ([ "    \x7d;",
    "    return s_meta;",
    "\x7d",
    ("const char* const reflect::Type<" : Str) ++ type.name ++ ">::name() \x7b return \""
      ++ type.name ++ "\"; \x7d",
    "",
    ("const reflect::properties_t& Type<" : Str) ++ type.name ++ ">::properties()",
    "\x7b",
    "    static reflect::properties_t s_properties \x7b" ] : List Str)
  ++ ancestorSection "        // Parent class " "        // Properties"
      (reflectionLines symbolTable type.name) chain type
  ++ ([ "    \x7d;",
    "    return s_properties;",
    "\x7d",
    "",
    ("const reflect::meta_t& " : Str) ++ type.name
      ++ "::type_meta() const \x7b return reflect::Type<" ++ type.name ++ ">::meta(); \x7d",
    ("const char* const " : Str) ++ type.name
      ++ "::type_name() const \x7b return reflect::Type<" ++ type.name ++ ">::name(); \x7d",
    ("const reflect::properties_t& " : Str) ++ type.name
      ++ "::type_properties() const \x7b return reflect::Type<" ++ type.name
      ++ ">::properties(); \x7d",
    "",
    type.name ++ ("::operator std::string() const" : Str),
    "\x7b",
    "    reflect::encoding::ByteBuffer buffer;",
    "    reflect::encoding::OutputByteStream stream(buffer);",
    "    stream << type_name();",
    "    " ] : List Str)
  ++ ancestorSection "    // Parent class " "    // Properties"
      (serializationLines symbolTable true) chain type
  ++ ([ "    ",
    "    return std::string(reinterpret_cast<const char*>(&stream.getBuffer()[0]), stream.getBuffer().size());",
    "\x7d",
    "",
    ("void " : Str) ++ type.name ++ "::from_string(const std::string& str)",
    "\x7b",
    "    reflect::encoding::ByteBuffer buffer;",
    "    std::transform(",
    "        std::begin(str),",
    "        std::end(str),",
    "        std::back_inserter(buffer),",
    "        [](const char c)",
    "        \x7b",
    "            return std::byte(c);",
    "        \x7d",
    "    );",
    "    ",
    "    reflect::encoding::InputByteStream stream(buffer);",
    "    std::string _name;",
    "    stream >> _name;",
    "    if (_name != type_name()) return;",
    "    " ] : List Str)
  ++ ancestorSection "    // Parent class " "    // Properties"
      (serializationLines symbolTable false) chain type
  ++ ([ "\x7d",
    "",
    ("void " : Str) ++ type.name ++ "::from_json(const std::string& json)",
    "\x7b",
    "\x7d",
    "",
    ("std::string " : Str) ++ type.name ++ "::to_json() const",
    "\x7b" ] : List Str)
  ++ ancestorSection "    // Parent class " "    // Properties" (fun _ => []) chain type
  ++ ([ "    return \"\";",
    "\x7d",
    "" ] : List Str)

/-- The sample of the inheritance scenario: `Base` with `a`. -/
def sampleBase : TypeClass := ⟨"Base", false, "IType", [], [⟨"a", "int", []⟩]⟩

/-- The sample of the inheritance scenario: `Mid : Base` with `b`. -/
def sampleMid : TypeClass := ⟨"Mid", false, "Base", [], [⟨"b", "int", []⟩]⟩

/-- The sample of the inheritance scenario: `Leaf : Mid` with `c`. -/
def sampleLeaf : TypeClass := ⟨"Leaf", false, "Mid", [], [⟨"c", "int", []⟩]⟩

/-- The collection of the inheritance scenario. -/
def sampleCollection : TypeCollection := ⟨[sampleBase, sampleMid, sampleLeaf], []⟩

/-- The symbol table of the inheritance scenario. -/
def sampleSymbolTable : SymbolTable :=
  [("Base", SymbolType.S_class), ("Mid", SymbolType.S_class), ("Leaf", SymbolType.S_class)]

/-- The marker lines and the stream statements of the inheritance scenario, used to read
the order of the groups off the emitted source. -/
def sampleLandmarks : List Str :=
  [ "        // Parent class Base properties", "        // Parent class Mid properties",
    "        // Properties",
    "    // Parent class Base properties", "    // Parent class Mid properties",
    "    // Properties",
    "    stream << a;", "    stream << b;", "    stream << c;",
    "    stream >> a;", "    stream >> b;", "    stream >> c;" ]

end Encoder

/-! ## Reference definitions for the container claims -/

namespace Encoder

/-- The head test of lines 488-489: the type string starts with `vector`, `std::vector`,
`list` or `std::list`. -/
def isListHead (type : Str) : Bool :=
  StringUtil.startsWith type "vector" || StringUtil.startsWith type "std::vector"
    || StringUtil.startsWith type "list" || StringUtil.startsWith type "std::list"

/-- The head test of lines 522-523: the type string starts with `map`, `std::map`,
`unordered_map` or `std::unordered_map`. -/
def isMapHead (type : Str) : Bool :=
  StringUtil.startsWith type "map" || StringUtil.startsWith type "std::map"
    || StringUtil.startsWith type "unordered_map"
    || StringUtil.startsWith type "std::unordered_map"

end Encoder

/-! ## Reference definitions for the enum encoder and the top-level encoder -/

namespace Encoder

/-- The lines that the enum encoder adds to the header buffer. -/
def enumHeaderLines (type : TypeEnum) : List Str :=
  ([ "template <>",
    ("struct reflect::Enum<enum class " : Str) ++ type.name
      ++ "> : reflect::RegisteredInEnumFactory<enum class " ++ type.name ++ ">",
    "\x7b",
    "    static const char* const name();",
    "    static const reflect::enum_values_t& values();",
    "    ",
    "    static bool registered() \x7b return value; \x7d;",
    "\x7d;",
    "" ] : List Str)

/-- The lines that the enum encoder adds to the source buffer: the `name()` body, the
`values()` signature and table with one line for each option, in declaration order. -/
def enumSourceLines (type : TypeEnum) : List Str :=
  ([ ("const char* const reflect::Enum<" : Str) ++ type.name ++ ">::name() \x7b return \""
      ++ type.name ++ "\"; \x7d",
    ("const reflect::enum_values_t& reflect::Enum<" : Str) ++ type.name ++ ">::values()",
    "\x7b",
    "    static reflect::enum_values_t s_values\x7b" ] : List Str)
  ++ type.options.map (fun option =>
      ("        \x7b \"" : Str) ++ option ++ "\", static_cast<int>(" ++ type.name ++ "::"
        ++ option ++ ") \x7d, ")
  ++ ([ "    \x7d;",
    "    return s_values;",
    "\x7d",
    "" ] : List Str)

/-- The enum `ApplicationMode` of the checked-in sample. -/
def sampleEnum : TypeEnum := ⟨"ApplicationMode", ["Editor", "Server", "Standalone"]⟩

/-- The ancestors met by following the parent field from `parent_name`, the nearest first,
as far as they are found and at most `fuel` of them. -/
def ancestorsOf (collection : TypeCollection) : Nat → Str → List TypeClass
  | 0, _ => []
  | fuel + 1, parent_name =>
    if parent_name = ("IType" : Str) then []
    else
      match collection.findClass parent_name with
      | none => []
      | some parentClass => parentClass :: ancestorsOf collection fuel parentClass.parent

/-- The list `chain` is the sequence of ancestors met by following the parent field from
`parent_name`, the nearest first, all found in the collection, and the name that follows
the last of them is not the sentinel `IType` and is not found in the collection. -/
def isBrokenChain (collection : TypeCollection) : Str → List TypeClass → Bool
  | parent_name, [] =>
    parent_name ≠ ("IType" : Str) && collection.findClass parent_name = none
  | parent_name, parentClass :: rest =>
    parent_name ≠ ("IType" : Str) && collection.findClass parent_name = some parentClass
      && isBrokenChain collection parentClass.parent rest

/-- The walk from `parent_name` is still running after `fuel` iterations: it has met
`fuel` ancestors, all found, and the name that follows is not the sentinel. -/
def walkExhausts (collection : TypeCollection) : Nat → Str → Bool
  | 0, parent_name => parent_name ≠ ("IType" : Str)
  | fuel + 1, parent_name =>
    parent_name ≠ ("IType" : Str) &&
      match collection.findClass parent_name with
      | none => false
      | some parentClass => walkExhausts collection fuel parentClass.parent

/-- The enums named by the symbol list, in the order of the list. -/
def listedEnums (collection : TypeCollection) (symbolTable : SymbolTable)
    (symbolList : List Str) : List TypeEnum :=
  symbolList.filterMap (fun name =>
    if symbolTable.lookup name = some SymbolType.S_enum then collection.findEnum name else none)

/-- The classes named by the symbol list, in the order of the list. -/
def listedClasses (collection : TypeCollection) (symbolTable : SymbolTable)
    (symbolList : List Str) : List TypeClass :=
  symbolList.filterMap (fun name =>
    if symbolTable.lookup name = some SymbolType.S_class then collection.findClass name else none)

/-- The banner lines at the start of the header buffer (lines 53-58). -/
def headerBanner : List Str :=
  ([ "// Copyright (c) Vito Domenico Tagliente",
    "// automatically generated by the compiler, do not modify",
    "#pragma once",
    "",
    "#include <vdtreflect/runtime.h>",
    "" ] : List Str)

/-- The banner lines at the start of the source buffer (lines 61-64). -/
def sourceBanner (filename : Str) : List Str :=
  ([ "// Copyright (c) Vito Domenico Tagliente",
    "// automatically generated by the compiler, do not modify",
    ("#include \"" : Str) ++ filename ++ "\"",
    "" ] : List Str)

end Encoder

namespace Encoder

/-- The content that `generate` compares the buffer with (lines 123-129): the content of
the file when it exists, the empty text otherwise. -/
def previousContent (fs : FileSystem) (filename : Str) : Str :=
  if fs.exists filename then fs.read filename else ""

/-- The class `ClassA` of the interleaved symbol list. -/
def sampleClassA : TypeClass := ⟨"ClassA", false, "IType", [], []⟩

/-- The enum `EnumB` of the interleaved symbol list. -/
def sampleEnumB : TypeEnum := ⟨"EnumB", ["One"]⟩

/-- The collection of the interleaved symbol list. -/
def sampleMixedCollection : TypeCollection := ⟨[sampleClassA], [sampleEnumB]⟩

/-- The symbol table of the interleaved symbol list. -/
def sampleMixedTable : SymbolTable :=
  [("ClassA", SymbolType.S_class), ("EnumB", SymbolType.S_enum)]

/-- The lines that open the blocks of `ClassA` and `EnumB` in the two buffers. -/
def sampleMixedLandmarks : List Str :=
  ([ "struct reflect::Type<class ClassA> : reflect::RegisteredInTypeFactory<class ClassA>",
    "struct reflect::Enum<enum class EnumB> : reflect::RegisteredInEnumFactory<enum class EnumB>",
    "const reflect::meta_t& reflect::Type<ClassA>::meta()",
    "const char* const reflect::Enum<EnumB>::name() \x7b return \"EnumB\"; \x7d" ] : List Str)

/-- An empty file system on which every path can be written. -/
def emptyFileSystem : FileSystem := ⟨[], []⟩

/-- The class `Derived : Base` whose parent is declared in another file. -/
def sampleDerived : TypeClass := ⟨"Derived", false, "Base", [], [⟨"d", "int", []⟩]⟩

/-- The class `Widget` with an enum field and a vector field. -/
def sampleWidget : TypeClass :=
  ⟨"Widget", false, "IType", [], [⟨"m_color", "Color", []⟩, ⟨"xs", "std::vector<int>", []⟩]⟩

end Encoder

namespace Encoder

/-- The local `outHeaderFilename` of `Encoder::encode` (line 49). -/
def outHeaderFilename (path filename : Str) : Str :=
  joinPath path (StringUtil.replace filename ".h" "_generated.h")

/-- The local `outSourceFilename` of `Encoder::encode` (line 50). -/
def outSourceFilename (path filename : Str) : Str :=
  joinPath path (StringUtil.replace filename ".h" "_generated.cpp")

end Encoder

namespace Encoder

/-- The order in which the encoder emits the blocks of a symbol list: the enum names in
the order of the list, then the class names in the order of the list. -/
def emissionOrder (symbolTable : SymbolTable) (symbolList : List Str) : List Str :=
  symbolList.filter (fun name => symbolTable.lookup name = some SymbolType.S_enum)
    ++ symbolList.filter (fun name => symbolTable.lookup name = some SymbolType.S_class)

end Encoder

/-! ## The string accesses of `extractTypenames` and `sanitizeTemplate`, with their preconditions -/

namespace Encoder

/-- The call `token.back()` of `std::string`: the last character; `none` when the string is
empty, where the call has no defined result. -/
def back (token : Str) : Option Char := token.getLast?

/-- The call `token.substr(pos, count)` of `std::string` with a count that reaches the end
of the string: the characters from `pos` on; `none` when `pos` is beyond the length, where
the call throws `std::out_of_range`. -/
def substr (token : Str) (pos : Nat) : Option Str :=
  if pos ≤ token.length then some (token.drop pos) else none

/-- The call `content.pop_back()` of `std::string`: the string without its last character;
`none` when the string is empty, where the call has no defined result. -/
def pop_back (content : Str) : Option Str :=
  if content.isEmpty then none else some content.dropLast

/-- Source function `Encoder::extractTypenames(token)` (lines 630-646), every string access
with its precondition: `none` when `back`, `substr` or `pop_back` is called outside its
domain. -/
def extractTypenamesChecked (token : Str) : Option (List Str) :=
  let startIndex := token.indexOf '<'
  if startIndex = token.length then some []
  else
    match back token with
    | none => none
    | some last =>
      if last ≠ '>' then some []
      else
        match substr token (startIndex + 1) with
        | none => none
        | some content =>
          match pop_back content with
          | none => none
          | some content => some ((StringUtil.split content ',').map StringUtil.trim)

/-- Source function `Encoder::sanitizeTemplate(token)` (lines 648-659), every string access
with its precondition: `none` when `back`, `substr` or `pop_back` is called outside its
domain. -/
def sanitizeTemplateChecked (token : Str) : Option Str :=
  let startIndex := token.indexOf '<'
  if startIndex = token.length then some token
  else
    match back token with
    | none => none
    | some last =>
      if last ≠ '>' then some token
      else
        match substr token (startIndex + 1) with
        | none => none
        | some content =>
          match pop_back content with
          | none => none
          | some content => some content

end Encoder

/-! ## Reference definitions for the reflection line of a property -/

namespace Encoder

/-- The text of one entry of the meta map of a property, as line 408 writes it. -/
def metaEntryText (entry : Str × Str) : Str :=
  ("\x7b\"" : Str) ++ entry.1 ++ "\", \"" ++ entry.2 ++ "\"\x7d"

end Encoder

/-! ## The descriptor emitter by recursion on the length of the type string -/

namespace Encoder

/-- Source function `Encoder::encodePropertyReflection(offset, symbolTable, type)` (lines
415-438), with the recursive call of line 428 as a recursive call: the recursion is
well-founded on the length of the type string, because every element of
`extractTypenames(type)` is shorter than `type`. -/
def encodePropertyReflectionWF (offset : Str) (symbolTable : SymbolTable) (type : Str) : Str :=
  let decoratorType := parseDecoratorType symbolTable type
  let nativeType := parseNativeType symbolTable type
  let buffer : EncodeBuffer := {}
  let off : Str := offset ++ "    "
  let buffer :=
    if nativeType = NativeType.T_template then
      let typenames := extractTypenames type
      let buffer := typenames.attach.foldl
        (fun buffer tname =>
          buffer.pushAll ["\n" ++ off,
            encodePropertyReflectionWF (offset ++ "    ") symbolTable tname.1, ","])
        buffer
      buffer.push ("\n" ++ offset)
    else
      buffer.push " "
  "reflect::NativeType\x7b \"" ++ type ++ "\", \x7b " ++ buffer.string false ++ "\x7d, "
    ++ toStringDecorator decoratorType ++ ", sizeof(" ++ type ++ "), "
    ++ toStringNative nativeType ++ " \x7d"
termination_by type.length
decreasing_by
  have hsplit : ∀ (s : Str) (d : Char), ∀ piece ∈ StringUtil.split s d,
      piece.length ≤ s.length := by
    intro s d
    induction s with
    | nil => simp [StringUtil.split]
    | cons c cs ih =>
      intro piece hp
      rw [StringUtil.split] at hp
      split at hp
      · rcases List.mem_cons.mp hp with h | h
        · simp [h]
        · exact Nat.le_succ_of_le (ih piece h)
      · split at hp
        · simp at hp
          simp [hp]
        · rename_i p ps heq
          rcases List.mem_cons.mp hp with h | h
          · have := ih p (by simp [heq])
            simp [h, this]
          · have := ih piece (by simp [heq, h])
            exact Nat.le_succ_of_le this
  have htrim : ∀ s : Str, (StringUtil.trim s).length ≤ s.length := by
    intro s
    unfold StringUtil.trim
    exact (List.rdropWhile_prefix _ _).length_le.trans (List.dropWhile_suffix _).length_le
  have h : tname.1 ∈ extractTypenames type := tname.2
  unfold extractTypenames at h
  simp only at h
  split at h
  · simp at h
  · rename_i hidx
    split at h
    · simp at h
    · obtain ⟨piece, hpiece, hpt⟩ := List.mem_map.mp h
      have h1 := hsplit _ _ piece hpiece
      have h2 := htrim piece
      have h3 : 0 < type.length := by
        cases type with
        | nil => simp at hidx
        | cons c cs => simp
      simp only [List.length_dropLast, List.length_drop] at h1
      rw [← hpt]
      omega

end Encoder

/-! ## Reference definitions for the symmetry of the serialisation emitter -/

namespace Encoder

/-- The type strings on which the serialisation emitter takes a branch that pushes code
(lines 451-580): a Raw decorator and a primitive, enum or class kind, or a template with a
vector or list head whose first argument `isValidListType` accepts, or a template with a
map head, at least two arguments and accepted key and value kinds. The direction, the
offset and the name play no part. -/
def emitsSerialization (symbolTable : SymbolTable) (type : Str) : Bool :=
  parseDecoratorType symbolTable type = DecoratorType.D_raw &&
    match parseNativeType symbolTable type with
    | .T_bool | .T_char | .T_double | .T_float | .T_int | .T_string | .T_enum | .T_type => true
    | .T_template =>
      match extractTypenames type with
      | [] => false
      | typenames0 :: typenamesRest =>
        if isListHead type then isValidListType (parseNativeType symbolTable typenames0)
        else if isMapHead type then
          match typenamesRest with
          | [] => false
          | typenames1 :: _ =>
            isValidMapKeyType (parseNativeType symbolTable typenames0)
              && isValidMapValueType (parseNativeType symbolTable typenames1)
        else false
    | .T_void | .T_unknown => false

end Encoder

/-! ## Reference definitions for the sections of an emitted class -/

namespace Encoder

/-- The lines of the `properties()` table of a class whose ancestors are `chain`. -/
def propertiesSection (symbolTable : SymbolTable) (type : TypeClass) (chain : List TypeClass) :
    List Str :=
  ancestorSection "        // Parent class " "        // Properties"
    (reflectionLines symbolTable type.name) chain type

/-- The lines that the parent walk and the write loop add to `operator std::string`. -/
def writeSection (symbolTable : SymbolTable) (type : TypeClass) (chain : List TypeClass) :
    List Str :=
  ancestorSection "    // Parent class " "    // Properties"
    (serializationLines symbolTable true) chain type

/-- The lines that the parent walk and the read loop add to `from_string`. -/
def readSection (symbolTable : SymbolTable) (type : TypeClass) (chain : List TypeClass) :
    List Str :=
  ancestorSection "    // Parent class " "    // Properties"
    (serializationLines symbolTable false) chain type

/-- The lines that the parent walk and the loop over the properties add to `to_json`. -/
def toJsonSection (type : TypeClass) (chain : List TypeClass) : List Str :=
  ancestorSection "    // Parent class " "    // Properties" (fun _ => []) chain type

/-- The lines of a section that start with the marker text of a parent walk. -/
def parentMarkers (marker : Str) (lines : List Str) : List Str :=
  lines.filter (fun line => marker.isPrefixOf line)

end Encoder

namespace Encoder

/-- The lines that a successful class encoder adds to the source buffer, as the fixed
lines of lines 171-369 around the four sections that the parent walks and the loops over
the properties fill: the `properties()` table, `operator std::string`, `from_string` and
`to_json`. -/
def classSourceLinesOf (type : TypeClass)
    (propertiesLines writeLines readLines toJsonLines : List Str) : List Str :=
  ([ ("const reflect::meta_t& reflect::Type<" : Str) ++ type.name ++ ">::meta()",
    "\x7b",
    "    static reflect::meta_t s_meta \x7b" ] : List Str)
  ++ type.meta.map (fun entry =>
      ("        \x7b \"" : Str) ++ entry.1 ++ "\", \"" ++ entry.2 ++ "\" \x7d,")
  ++ ([ "    \x7d;",
    "    return s_meta;",
    "\x7d",
    ("const char* const reflect::Type<" : Str) ++ type.name ++ ">::name() \x7b return \""
      ++ type.name ++ "\"; \x7d",
    "",
    ("const reflect::properties_t& Type<" : Str) ++ type.name ++ ">::properties()",
    "\x7b",
    "    static reflect::properties_t s_properties \x7b" ] : List Str)
  ++ propertiesLines
  ++ ([ "    \x7d;",
    "    return s_properties;",
    "\x7d",
    "",
    ("const reflect::meta_t& " : Str) ++ type.name
      ++ "::type_meta() const \x7b return reflect::Type<" ++ type.name ++ ">::meta(); \x7d",
    ("const char* const " : Str) ++ type.name
      ++ "::type_name() const \x7b return reflect::Type<" ++ type.name ++ ">::name(); \x7d",
    ("const reflect::properties_t& " : Str) ++ type.name
      ++ "::type_properties() const \x7b return reflect::Type<" ++ type.name
      ++ ">::properties(); \x7d",
    "",
    type.name ++ ("::operator std::string() const" : Str),
    "\x7b",
    "    reflect::encoding::ByteBuffer buffer;",
    "    reflect::encoding::OutputByteStream stream(buffer);",
    "    stream << type_name();",
    "    " ] : List Str)
  ++ writeLines
  ++ ([ "    ",
    "    return std::string(reinterpret_cast<const char*>(&stream.getBuffer()[0]), stream.getBuffer().size());",
    "\x7d",
    "",
    ("void " : Str) ++ type.name ++ "::from_string(const std::string& str)",
    "\x7b",
    "    reflect::encoding::ByteBuffer buffer;",
    "    std::transform(",
    "        std::begin(str),",
    "        std::end(str),",
    "        std::back_inserter(buffer),",
    "        [](const char c)",
    "        \x7b",
    "            return std::byte(c);",
    "        \x7d",
    "    );",
    "    ",
    "    reflect::encoding::InputByteStream stream(buffer);",
    "    std::string _name;",
    "    stream >> _name;",
    "    if (_name != type_name()) return;",
    "    " ] : List Str)
  ++ readLines
  ++ ([ "\x7d",
    "",
    ("void " : Str) ++ type.name ++ "::from_json(const std::string& json)",
    "\x7b",
    "\x7d",
    "",
    ("std::string " : Str) ++ type.name ++ "::to_json() const",
    "\x7b" ] : List Str)
  ++ toJsonLines
  ++ ([ "    return \"\";",
    "\x7d",
    "" ] : List Str)

end Encoder

namespace Encoder

/-- The body of the emitted `properties()` of a class without properties and without
ancestors: the lines between the braces of the function. -/
def emptyPropertiesBody : List Str :=
  ([ "    static reflect::properties_t s_properties \x7b",
    "    \x7d;",
    "    return s_properties;" ] : List Str)

/-- The body of the emitted `operator std::string` of a class without properties and
without ancestors: the lines between the braces of the function. -/
def emptyWriteBody : List Str :=
  ([ "    reflect::encoding::ByteBuffer buffer;",
    "    reflect::encoding::OutputByteStream stream(buffer);",
    "    stream << type_name();",
    "    ",
    "    ",
    "    return std::string(reinterpret_cast<const char*>(&stream.getBuffer()[0]), stream.getBuffer().size());" ]
    : List Str)

/-- The body of the emitted `from_string` of a class without properties and without
ancestors: the lines between the braces of the function. -/
def emptyReadBody : List Str :=
  ([ "    reflect::encoding::ByteBuffer buffer;",
    "    std::transform(",
    "        std::begin(str),",
    "        std::end(str),",
    "        std::back_inserter(buffer),",
    "        [](const char c)",
    "        \x7b",
    "            return std::byte(c);",
    "        \x7d",
    "    );",
    "    ",
    "    reflect::encoding::InputByteStream stream(buffer);",
    "    std::string _name;",
    "    stream >> _name;",
    "    if (_name != type_name()) return;",
    "    " ] : List Str)

/-- A class without properties and without ancestors, with a meta entry. -/
def sampleEmpty : TypeClass := ⟨"Empty", true, "IType", [("Category", "Test")], []⟩

end Encoder

/-! ## Lemmas on the string helpers -/

namespace StringUtil

theorem replaceAux_nil (src dst : Str) (skip : Nat) : replaceAux src dst skip [] = [] := by
  cases skip <;> rfl

theorem replaceAux_skip (src dst : Str) (skip : Nat) (l : Str) :
    replaceAux src dst skip l = replaceAux src dst 0 (l.drop skip) := by
  induction skip generalizing l with
  | zero => rfl
  | succ k ih =>
    cases l with
    | nil => rfl
    | cons c cs => simpa [replaceAux] using ih cs

/-- A text without any occurrence of the pattern is left unchanged. -/
theorem replace_eq_self (src dst : Str) (l : Str) (h : ¬ src <:+: l) :
    replace l src dst = l := by
  unfold replace
  induction l with
  | nil => rfl
  | cons c cs ih =>
    have h1 : ¬ src <+: c :: cs := fun hp => h hp.isInfix
    have h2 : ¬ src <:+: cs := fun hi => h (List.infix_cons hi)
    simp [replaceAux, h1, ih h2]

/-- An occurrence of the pattern at the start is replaced, and the scan goes on behind it. -/
theorem replace_append_left (src dst : Str) (l : Str) (hsrc : src ≠ []) :
    replace (src ++ l) src dst = dst ++ replace l src dst := by
  unfold replace
  cases hs : src with
  | nil => exact absurd hs hsrc
  | cons a as =>
    have hp : (a :: as) <+: (a :: as) ++ l := List.prefix_append _ _
    simp only [List.cons_append] at hp ⊢
    rw [replaceAux]
    simp only [hp, ne_eq, reduceCtorEq, not_false_eq_true, List.isPrefixOf_iff_prefix,
      and_self, ↓reduceIte, List.length_cons, Nat.add_sub_cancel]
    rw [replaceAux_skip]
    simp

/-- Removing occurrences of a pattern keeps, and does not add, a character that is not in
the pattern. -/
theorem mem_replaceAux_iff (src : Str) (x : Char) (hx : x ∉ src) (skip : Nat) (l : Str)
    (hskip : ∀ y ∈ l.take skip, y ≠ x) :
    x ∈ replaceAux src [] skip l ↔ x ∈ l := by
  induction l generalizing skip with
  | nil => simp [replaceAux_nil]
  | cons c cs ih =>
    cases skip with
    | succ k =>
      have hc : c ≠ x := hskip c (by simp)
      have hk : ∀ y ∈ cs.take k, y ≠ x := fun y hy => hskip y (by simp [hy])
      simp [replaceAux, ih k hk, Ne.symm hc]
    | zero =>
      by_cases hp : src ≠ [] ∧ src <+: c :: cs
      · obtain ⟨hne, rest, hrest⟩ := hp
        cases hs : src with
        | nil => exact absurd hs hne
        | cons a as =>
          rw [hs] at hrest hx
          simp only [List.cons_append, List.cons.injEq] at hrest
          obtain ⟨hac, hcs⟩ := hrest
          have hxa : x ≠ a := fun h => hx (by simp [h])
          have hxas : x ∉ as := fun h => hx (List.mem_cons_of_mem _ h)
          have hk : ∀ y ∈ cs.take as.length, y ≠ x := by
            intro y hy heq
            rw [← hcs] at hy
            simp at hy
            exact hxas (heq ▸ hy)
          have hpre : (a :: as) <+: c :: cs := ⟨rest, by simp [hac, hcs]⟩
          rw [replaceAux]
          simp only [ne_eq, reduceCtorEq, not_false_eq_true, List.isPrefixOf_iff_prefix, hpre,
            and_self, ↓reduceIte, List.length_cons, Nat.add_sub_cancel, List.nil_append]
          rw [← hs, ih as.length hk, ← hac]
          simp [hxa]
      · have hp2 : ¬ (src ≠ [] ∧ src.isPrefixOf (c :: cs) = true) := by
          simpa using hp
        rw [replaceAux]
        simp only [hp2, ↓reduceIte, List.mem_cons]
        rw [ih 0 (by simp)]


theorem split_ne_nil (s : Str) (d : Char) : split s d ≠ [] := by
  cases s with
  | nil => simp [split]
  | cons c cs =>
    rw [split]
    split
    · simp
    · split <;> simp

/-- Every piece of a split is at most as long as the text. -/
theorem length_le_of_mem_split (s : Str) (d : Char) :
    ∀ piece ∈ split s d, piece.length ≤ s.length := by
  induction s with
  | nil => simp [split]
  | cons c cs ih =>
    intro piece hp
    rw [split] at hp
    split at hp
    · rcases List.mem_cons.mp hp with h | h
      · simp [h]
      · exact Nat.le_succ_of_le (ih piece h)
    · split at hp
      · simp at hp
        simp [hp]
      · rename_i p ps heq
        rcases List.mem_cons.mp hp with h | h
        · have := ih p (by simp [heq])
          simp [h, this]
        · have := ih piece (by simp [heq, h])
          exact Nat.le_succ_of_le this

theorem trim_length_le (s : Str) : (trim s).length ≤ s.length := by
  unfold trim
  exact (List.rdropWhile_prefix _ _).length_le.trans (List.dropWhile_suffix _).length_le

/-- The test `endsWith` with a one-character tail tests the last character. -/
theorem endsWith_singleton (t : Str) (c : Char) :
    endsWith t [c] = true ↔ t.getLast? = some c := by
  unfold endsWith
  rw [ List.isSuffixOf_iff_suffix]
  constructor
  · rintro ⟨l, rfl⟩
    simp
  · intro h
    obtain ⟨l, rfl⟩ : ∃ l, t = l ++ [c] := by
      rcases List.eq_nil_or_concat t with rfl | ⟨l, b, rfl⟩
      · simp at h
      · simp at h
        exact ⟨l, by simp [h]⟩
    exact List.suffix_append _ _

end StringUtil

namespace Encoder

/-- Every type argument extracted from a type string is strictly shorter than it. -/
theorem length_lt_of_mem_extractTypenames (token tname : Str)
    (h : tname ∈ extractTypenames token) : tname.length < token.length := by
  unfold extractTypenames at h
  simp only at h
  split at h
  · simp at h
  · rename_i hidx
    split at h
    · simp at h
    · obtain ⟨piece, hpiece, rfl⟩ := List.mem_map.mp h
      have h1 := StringUtil.length_le_of_mem_split _ _ piece hpiece
      have h2 := StringUtil.trim_length_le piece
      have h3 : 0 < token.length := by
        cases token with
        | nil => simp at hidx
        | cons c cs => simp
      simp only [List.length_dropLast, List.length_drop] at h1
      omega

theorem popDecorators_append (t s : Str) (hs : ∀ c ∈ s, c = '*' ∨ c = '&' ∨ c = ' ') :
    popDecorators (t ++ s) = popDecorators t := by
  induction s using List.reverseRecOn with
  | nil => simp
  | append_singleton s c ih =>
    unfold popDecorators at ih ⊢
    rw [← List.append_assoc, List.rdropWhile_concat_pos]
    · exact ih (fun x hx => hs x (by simp [hx]))
    · have := hs c (by simp)
      simpa [or_assoc] using this

theorem popDecorators_eq_self (t : Str)
    (h : t.getLast? ≠ some '*' ∧ t.getLast? ≠ some '&' ∧ t.getLast? ≠ some ' ') :
    popDecorators t = t := by
  unfold popDecorators
  rw [List.rdropWhile_eq_self_iff]
  intro hl
  have hlast : t.getLast? = some (t.getLast hl) := List.getLast?_eq_getLast _ hl
  rw [hlast] at h
  simpa [and_assoc] using h

theorem mem_popDecorators_iff (t : Str) : '<' ∈ popDecorators t ↔ '<' ∈ t := by
  constructor
  · exact fun h => (List.rdropWhile_prefix _ _).subset h
  · intro h
    unfold popDecorators
    induction t using List.reverseRecOn with
    | nil => simp at h
    | append_singleton l c ih =>
      by_cases hc : c = '*' ∨ c = '&' ∨ c = ' '
      · rw [List.rdropWhile_concat_pos _ _ _ (by simpa [or_assoc] using hc)]
        apply ih
        rcases List.mem_append.mp h with h | h
        · exact h
        · simp at h
          rcases hc with hc | hc | hc <;> simp [← h] at hc
      · rw [List.rdropWhile_concat_neg _ _ _ (by simpa [and_assoc] using hc)]
        exact h


theorem not_infix_append_of_not_mem (src t s : Str) (hsrc : src ≠ []) (ht : ¬ src <:+: t)
    (hs : ∀ c ∈ s, c ∉ src) : ¬ src <:+: t ++ s := by
  induction s using List.reverseRecOn with
  | nil => simpa using ht
  | append_singleton s c ih =>
    rw [← List.append_assoc, List.infix_concat_iff]
    rintro (hsuf | hinf)
    · obtain ⟨l, hl⟩ := hsuf
      have hc : c ∈ src := by
        rcases List.eq_nil_or_concat src with h | ⟨l2, b, h⟩
        · exact absurd h hsrc
        · rw [h, List.concat_eq_append, ← List.append_assoc] at hl
          have := List.append_inj_right' hl (by simp)
          simp at this
          simp [h, this]
      exact hs c (by simp) hc
    · exact ih (fun x hx => hs x (by simp [hx])) hinf

theorem replace_std_normalised (t s : Str) (ht : Normalised t)
    (hs : ∀ c ∈ s, c = '*' ∨ c = '&' ∨ c = ' ') :
    StringUtil.replace (t ++ s) "std::" "" = t ++ s := by
  apply StringUtil.replace_eq_self
  apply not_infix_append_of_not_mem _ _ _ (by decide) ht.2.1
  intro c hc
  rcases hs c hc with h | h | h <;> subst h <;> decide

/-- The classification after the normalisation steps of lines 592-598, collected. -/
theorem parseNativeType_of_normalised (symbolTable : SymbolTable) (t s : Str)
    (ht : Normalised t) (hs : ∀ c ∈ s, c = '*' ∨ c = '&' ∨ c = ' ') :
    parseNativeType symbolTable (t ++ s) = parseNativeTypeRef symbolTable t := by
  have hrep := replace_std_normalised t s ht hs
  have hpop : popDecorators (t ++ s) = t := by
    rw [popDecorators_append t s hs]
    exact popDecorators_eq_self t ht.2.2
  have hne : (t ++ s).isEmpty = false := by
    have := ht.1
    cases t with
    | nil => exact absurd rfl this
    | cons c cs => rfl
  unfold parseNativeType parseNativeTypeRef
  simp only [hrep, hne, hpop]
  by_cases h1 : t = "bool"
  · subst h1; rfl
  by_cases h2 : t = "char"
  · subst h2; rfl
  by_cases h3 : t = "int"
  · subst h3; rfl
  by_cases h4 : t = "float"
  · subst h4; rfl
  by_cases h5 : t = "double"
  · subst h5; rfl
  by_cases h6 : t = "void"
  · subst h6; rfl
  by_cases h7 : t = "string"
  · subst h7; rfl
  by_cases h8 : '<' ∈ t
  · simp only [h1, h2, h3, h4, h5, h6, h7, h8, ↓reduceIte, Bool.false_eq_true]
  simp only [h1, h2, h3, h4, h5, h6, h7, h8, ↓reduceIte, Bool.false_eq_true]
  cases hl : List.lookup t symbolTable with
  | none => simp
  | some k => cases k <;> simp

end Encoder

/-! ## Lemmas on the buffer and on the bounded recursions -/

namespace EncodeBuffer

theorem string_false (buffer : EncodeBuffer) : buffer.string false = buffer.m_lines.flatten := by
  unfold string
  simp only [Bool.false_eq_true, ↓reduceIte]
  have h : ∀ (ls : List Str) (acc : Str),
      ls.foldl (fun content line => content ++ line) acc = acc ++ ls.flatten := by
    intro ls
    induction ls with
    | nil => simp
    | cons l ls ih => intro acc; simp [ih]
  simpa using h buffer.m_lines []

theorem string_false_push (buffer : EncodeBuffer) (token : Str) :
    (buffer.push token).string false = buffer.string false ++ token := by
  rw [string_false, string_false]
  unfold push
  rcases List.eq_nil_or_concat buffer.m_lines with h | ⟨ls, l, h⟩
  · simp [h]
  · simp [h, List.getLastD_concat]

theorem string_false_pushAll (buffer : EncodeBuffer) (tokens : List Str) :
    (buffer.pushAll tokens).string false = buffer.string false ++ tokens.flatten := by
  unfold pushAll
  induction tokens generalizing buffer with
  | nil => simp
  | cons t ts ih => simp [ih, string_false_push]

theorem string_false_empty : ({} : EncodeBuffer).string false = [] := rfl

end EncodeBuffer

namespace Encoder

theorem encodePropertyReflectionBody_congr (r1 r2 : Str → SymbolTable → Str → Str)
    (offset : Str) (symbolTable : SymbolTable) (type : Str)
    (h : ∀ tname ∈ extractTypenames type, ∀ o, r1 o symbolTable tname = r2 o symbolTable tname) :
    encodePropertyReflectionBody r1 offset symbolTable type
      = encodePropertyReflectionBody r2 offset symbolTable type := by
  unfold encodePropertyReflectionBody
  simp only
  have hfold : ∀ buffer : EncodeBuffer,
      (extractTypenames type).foldl (fun buffer tname =>
          buffer.pushAll [("\n" : Str) ++ (offset ++ "    "), r1 (offset ++ "    ") symbolTable tname, ","])
        buffer
      = (extractTypenames type).foldl (fun buffer tname =>
          buffer.pushAll [("\n" : Str) ++ (offset ++ "    "), r2 (offset ++ "    ") symbolTable tname, ","])
        buffer := by
    intro buffer
    apply List.foldl_ext
    intro b tname htn
    rw [h tname htn]
  rw [hfold]

theorem encodePropertyReflectionAux_fuel (symbolTable : SymbolTable) :
    ∀ (fuel1 fuel2 : Nat) (offset type : Str), type.length ≤ fuel1 → type.length ≤ fuel2 →
      encodePropertyReflectionAux fuel1 offset symbolTable type
        = encodePropertyReflectionAux fuel2 offset symbolTable type := by
  intro fuel1
  induction fuel1 with
  | zero =>
    intro fuel2 offset type h1 _
    have ht : type = [] := List.length_eq_zero.mp (Nat.le_zero.mp h1)
    subst ht
    cases fuel2 with
    | zero => rfl
    | succ k =>
      simp only [encodePropertyReflectionAux]
      apply encodePropertyReflectionBody_congr
      intro tname htn
      simp [extractTypenames] at htn
  | succ k ih =>
    intro fuel2 offset type h1 h2
    cases fuel2 with
    | zero =>
      have ht : type = [] := List.length_eq_zero.mp (Nat.le_zero.mp h2)
      subst ht
      simp only [encodePropertyReflectionAux]
      apply encodePropertyReflectionBody_congr
      intro tname htn
      simp [extractTypenames] at htn
    | succ j =>
      simp only [encodePropertyReflectionAux]
      apply encodePropertyReflectionBody_congr
      intro tname htn o
      have hlt := length_lt_of_mem_extractTypenames type tname htn
      exact ih j o tname (by omega) (by omega)

/-- The unfolding equation of the descriptor emitter: the recursive calls are calls of the
emitter itself, so the bound on the recursion is never reached. -/
theorem encodePropertyReflection_unfold (offset : Str) (symbolTable : SymbolTable) (type : Str) :
    encodePropertyReflection offset symbolTable type
      = encodePropertyReflectionBody encodePropertyReflection offset symbolTable type := by
  unfold encodePropertyReflection
  cases hlen : type.length with
  | zero =>
    have ht : type = [] := List.length_eq_zero.mp hlen
    subst ht
    simp only [encodePropertyReflectionAux]
    apply encodePropertyReflectionBody_congr
    intro tname htn
    simp [extractTypenames] at htn
  | succ k =>
    simp only [encodePropertyReflectionAux]
    apply encodePropertyReflectionBody_congr
    intro tname htn o
    have hlt := length_lt_of_mem_extractTypenames type tname htn
    exact encodePropertyReflectionAux_fuel symbolTable k tname.length o tname (by omega)
      (Nat.le_refl _)


theorem encodePropertySerializationBody_congr
    (r1 r2 : Str → SymbolTable → Bool → Str → Str → Str)
    (offset : Str) (symbolTable : SymbolTable) (serialize : Bool) (name type : Str)
    (h : ∀ tname ∈ extractTypenames type, ∀ o s n,
      r1 o symbolTable s n tname = r2 o symbolTable s n tname) :
    encodePropertySerializationBody r1 offset symbolTable serialize name type
      = encodePropertySerializationBody r2 offset symbolTable serialize name type := by
  unfold encodePropertySerializationBody
  cases hx : extractTypenames type with
  | nil => rfl
  | cons t0 rest =>
    have h0 : ∀ o s n, r1 o symbolTable s n t0 = r2 o symbolTable s n t0 :=
      h t0 (by simp [hx])
    cases rest with
    | nil => simp only [h0]
    | cons t1 more =>
      have h1 : ∀ o s n, r1 o symbolTable s n t1 = r2 o symbolTable s n t1 :=
        h t1 (by simp [hx])
      simp only [h0, h1]

theorem encodePropertySerializationAux_fuel (symbolTable : SymbolTable) :
    ∀ (fuel1 fuel2 : Nat) (offset : Str) (serialize : Bool) (name type : Str),
      type.length ≤ fuel1 → type.length ≤ fuel2 →
      encodePropertySerializationAux fuel1 offset symbolTable serialize name type
        = encodePropertySerializationAux fuel2 offset symbolTable serialize name type := by
  intro fuel1
  induction fuel1 with
  | zero =>
    intro fuel2 offset serialize name type h1 _
    have ht : type = [] := List.length_eq_zero.mp (Nat.le_zero.mp h1)
    subst ht
    cases fuel2 with
    | zero => rfl
    | succ k =>
      simp only [encodePropertySerializationAux]
      apply encodePropertySerializationBody_congr
      intro tname htn
      simp [extractTypenames] at htn
  | succ k ih =>
    intro fuel2 offset serialize name type h1 h2
    cases fuel2 with
    | zero =>
      have ht : type = [] := List.length_eq_zero.mp (Nat.le_zero.mp h2)
      subst ht
      simp only [encodePropertySerializationAux]
      apply encodePropertySerializationBody_congr
      intro tname htn
      simp [extractTypenames] at htn
    | succ j =>
      simp only [encodePropertySerializationAux]
      apply encodePropertySerializationBody_congr
      intro tname htn o s n
      have hlt := length_lt_of_mem_extractTypenames type tname htn
      exact ih j o s n tname (by omega) (by omega)

/-- The unfolding equation of the serialisation emitter: the recursive calls are calls of
the emitter itself, so the bound on the recursion is never reached. -/
theorem encodePropertySerialization_unfold (offset : Str) (symbolTable : SymbolTable)
    (serialize : Bool) (name type : Str) :
    encodePropertySerialization offset symbolTable serialize name type
      = encodePropertySerializationBody encodePropertySerialization offset symbolTable serialize
          name type := by
  unfold encodePropertySerialization
  cases hlen : type.length with
  | zero =>
    have ht : type = [] := List.length_eq_zero.mp hlen
    subst ht
    simp only [encodePropertySerializationAux]
    apply encodePropertySerializationBody_congr
    intro tname htn
    simp [extractTypenames] at htn
  | succ k =>
    simp only [encodePropertySerializationAux]
    apply encodePropertySerializationBody_congr
    intro tname htn o s n
    have hlt := length_lt_of_mem_extractTypenames type tname htn
    exact encodePropertySerializationAux_fuel symbolTable k tname.length o s n tname (by omega)
      (Nat.le_refl _)

end Encoder

namespace EncodeBuffer

theorem m_lines_push_line (buffer : EncodeBuffer) (line : Str) :
    (buffer.push_line line).m_lines = buffer.m_lines ++ [line] := rfl

theorem m_lines_pushAll_concat (ls : List Str) (l : Str) (tokens : List Str) :
    (pushAll ⟨ls ++ [l]⟩ tokens).m_lines = ls ++ [l ++ tokens.flatten] := by
  unfold pushAll
  induction tokens generalizing l with
  | nil => simp
  | cons t ts ih =>
    rw [List.foldl_cons]
    have hpush : push ⟨ls ++ [l]⟩ t = ⟨ls ++ [l ++ t]⟩ := by
      unfold push
      simp [List.getLastD_concat]
    rw [hpush, ih]
    simp

theorem m_lines_push_lineAll (buffer : EncodeBuffer) (line : Str) (tokens : List Str) :
    (buffer.push_lineAll (line :: tokens)).m_lines
      = buffer.m_lines ++ [line ++ tokens.flatten] := by
  unfold push_lineAll push_line
  exact m_lines_pushAll_concat _ _ _

end EncodeBuffer

namespace Encoder

theorem findClass_name (collection : TypeCollection) (name : Str) (c : TypeClass)
    (h : collection.findClass name = some c) : c.name = name := by
  unfold TypeCollection.findClass at h
  have := List.find?_some h
  simpa using this

theorem m_lines_foldl_emit (emit : EncodeBuffer → Property → EncodeBuffer)
    (lines : Property → List Str)
    (hemit : ∀ b p, (emit b p).m_lines = b.m_lines ++ lines p)
    (properties : List Property) (buffer : EncodeBuffer) :
    (properties.foldl emit buffer).m_lines = buffer.m_lines ++ properties.flatMap lines := by
  induction properties generalizing buffer with
  | nil => simp
  | cons p ps ih => rw [List.foldl_cons, ih, hemit]; simp

/-- A parent walk along a chain of ancestors that are all found ends normally after as
many iterations as the chain is long, and has pushed the groups in the order of the
chain. -/
theorem walkParents_of_chain (collection : TypeCollection) (marker : Str)
    (emit : EncodeBuffer → Property → EncodeBuffer) (lines : Property → List Str)
    (hemit : ∀ b p, (emit b p).m_lines = b.m_lines ++ lines p) :
    ∀ (chain : List TypeClass) (fuel : Nat) (parent_name : Str) (has_parent : Bool)
      (sourceBuffer : EncodeBuffer),
      isParentChain collection parent_name chain = true → chain.length ≤ fuel →
      walkParents collection marker emit fuel parent_name has_parent sourceBuffer
        = some (ParentWalk.finished (has_parent || !chain.isEmpty)
            ⟨sourceBuffer.m_lines ++ chain.flatMap (fun parentClass =>
              (marker ++ parentClass.name ++ (" properties" : Str))
                :: parentClass.properties.flatMap lines)⟩) := by
  intro chain
  induction chain with
  | nil =>
    intro fuel parent_name has_parent sourceBuffer hchain _
    simp only [isParentChain, decide_eq_true_eq] at hchain
    unfold walkParents
    simp [hchain]
  | cons c rest ih =>
    intro fuel parent_name has_parent sourceBuffer hchain hfuel
    simp only [isParentChain, Bool.and_eq_true, decide_eq_true_eq] at hchain
    obtain ⟨⟨hne, hfind⟩, hrest⟩ := hchain
    have hne2 : ¬ parent_name = ("IType" : Str) := by simpa using hne
    cases fuel with
    | zero => simp at hfuel
    | succ k =>
      unfold walkParents
      simp only [hne2, ↓reduceIte, hfind]
      rw [ih k c.parent true _ hrest (by simpa using hfuel)]
      have hname := findClass_name collection parent_name c hfind
      subst hname
      simp only [m_lines_foldl_emit emit lines hemit, EncodeBuffer.m_lines_push_lineAll]
      simp

theorem m_lines_pushReflection (symbolTable : SymbolTable) (name : Str) (b : EncodeBuffer)
    (p : Property) :
    (pushReflection symbolTable name b p).m_lines = b.m_lines ++ reflectionLines symbolTable name p :=
  rfl

theorem m_lines_pushSerialization (symbolTable : SymbolTable) (serialize : Bool)
    (b : EncodeBuffer) (p : Property) :
    (pushSerialization symbolTable serialize b p).m_lines
      = b.m_lines ++ serializationLines symbolTable serialize p := by
  unfold pushSerialization serializationLines
  simp only
  by_cases h : (encodePropertySerializationProperty "    " symbolTable serialize p).isEmpty = true
  · rw [if_neg (by rw [h]; decide), if_pos h]
    simp
  · rw [if_pos (by rw [Bool.not_eq_true] at h; rw [h]; rfl), if_neg h]
    rfl

theorem m_lines_pushSerializationToJson (symbolTable : SymbolTable) (serialize : Bool)
    (b : EncodeBuffer) (p : Property) :
    (pushSerializationToJson symbolTable serialize b p).m_lines = b.m_lines ++ [] := by
  simp [pushSerializationToJson, encodePropertySerializationToJson]


/-! ## Type classification: claims C3, C4 and C5 -/

/-- A type string is classified Template exactly when it contains `<`. -/
theorem parseNativeType_eq_template_iff (symbolTable : SymbolTable) (t : Str) :
    parseNativeType symbolTable t = NativeType.T_template ↔ '<' ∈ t := by
  have hrep : '<' ∈ StringUtil.replace t "std::" "" ↔ '<' ∈ t :=
    StringUtil.mem_replaceAux_iff "std::" '<' (by decide) 0 t (by simp)
  have hpop := mem_popDecorators_iff (StringUtil.replace t "std::" "")
  unfold parseNativeType
  simp only
  constructor
  · intro h
    split at h
    · cases h
    · rw [← hrep, ← hpop]
      by_contra hlt
      simp only [hlt, ↓reduceIte] at h
      repeat' split at h
      all_goals cases h
  · intro h
    have h2 := hpop.mpr (hrep.mpr h)
    have hne : (StringUtil.replace t "std::" "").isEmpty = false := by
      have := hrep.mpr h
      cases hr : StringUtil.replace t "std::" "" with
      | nil => rw [hr] at this; exact absurd this (List.not_mem_nil _)
      | cons c cs => rfl
    rw [hne]
    simp only [Bool.false_eq_true, ↓reduceIte, h2]
    have hprim : ∀ p : Str, '<' ∉ p → popDecorators (StringUtil.replace t "std::" "") ≠ p :=
      fun p hp heq => hp (heq ▸ h2)
    rw [if_neg (hprim _ (by decide)), if_neg (hprim _ (by decide)), if_neg (hprim _ (by decide)),
      if_neg (hprim _ (by decide)), if_neg (hprim _ (by decide)), if_neg (hprim _ (by decide)),
      if_neg (hprim _ (by decide))]

/-- C3: for a normalised type string (not empty, no `std::`, not ending with `*`, `&` or a
space) `parseNativeType` equals the reference classification: an exact primitive name
gives the primitive whatever the symbol table holds, otherwise a `<` gives Template,
otherwise Class gives UserType and Enum gives Enum, and everything else is Unknown. -/
theorem parseNativeType_normalised (symbolTable : SymbolTable) (t : Str) (h : Normalised t) :
    parseNativeType symbolTable t = parseNativeTypeRef symbolTable t := by
  simpa using parseNativeType_of_normalised symbolTable t [] h (by simp)

/-- The statement of C3 at the type `int`, with a symbol table that has an entry named `int`. -/
theorem parseNativeType_normalised_witness :
    Normalised "int" ∧
      parseNativeType [("int", SymbolType.S_class)] "int"
        = parseNativeTypeRef [("int", SymbolType.S_class)] "int" :=
  ⟨by decide, parseNativeType_normalised _ _ (by decide)⟩

/-- C4: native classification is invariant under normalisation: for a normalised type
string `t` and a suffix `s` of `*`, `&` and spaces, `std::` ++ t ++ s, t ++ s and t are
classified alike. -/
theorem parseNativeType_normalisation_invariant (symbolTable : SymbolTable) (t s : Str)
    (ht : Normalised t) (hs : ∀ c ∈ s, c = '*' ∨ c = '&' ∨ c = ' ') :
    parseNativeType symbolTable (("std::" : Str) ++ t ++ s) = parseNativeType symbolTable (t ++ s)
      ∧ parseNativeType symbolTable (t ++ s) = parseNativeType symbolTable t := by
  constructor
  · have hrep : StringUtil.replace (("std::" : Str) ++ t ++ s) "std::" ""
        = StringUtil.replace (t ++ s) "std::" "" := by
      rw [List.append_assoc, StringUtil.replace_append_left _ _ _ (by decide)]
      rfl
    unfold parseNativeType
    rw [hrep]
  · rw [parseNativeType_of_normalised symbolTable t s ht hs]
    simpa using (parseNativeType_of_normalised symbolTable t [] ht (by simp)).symm

/-- The statement of C4 at the type `string` with the suffix `* &`. -/
theorem parseNativeType_normalisation_invariant_witness :
    Normalised "string" ∧ (∀ c ∈ ("* &" : Str), c = '*' ∨ c = '&' ∨ c = ' ') ∧
      parseNativeType [] (("std::" : Str) ++ "string" ++ "* &") = parseNativeType [] ("string" ++ "* &")
      ∧ parseNativeType [] (("string" : Str) ++ "* &") = parseNativeType [] "string" :=
  ⟨by decide, by decide,
    parseNativeType_normalisation_invariant [] "string" "* &" (by decide) (by decide)⟩

/-- C5 (as stated, refuted): the type `Foo* ` has `*` as its last character that is not
whitespace, so the claim classifies it Pointer, but `parseDecoratorType` returns Raw. -/
theorem parseDecoratorType_trailing_space :
    parseDecoratorTypeSpec "Foo* " = DecoratorType.D_pointer
      ∧ parseDecoratorType [] "Foo* " = DecoratorType.D_raw := by
  decide

/-- C5 (amended): `parseDecoratorType` looks at the last character of the string, whitespace
included: Pointer when it is `*`, Reference when it is `&`, Raw otherwise; the symbol table
plays no part. -/
theorem parseDecoratorType_last_char (symbolTable : SymbolTable) (t : Str) :
    parseDecoratorType symbolTable t =
        (if t.getLast? = some '*' then DecoratorType.D_pointer
         else if t.getLast? = some '&' then DecoratorType.D_reference
         else DecoratorType.D_raw)
      ∧ parseDecoratorType symbolTable t = parseDecoratorType [] t := by
  have h1 : StringUtil.endsWith t "*" = true ↔ t.getLast? = some '*' :=
    StringUtil.endsWith_singleton t '*'
  have h2 : StringUtil.endsWith t "&" = true ↔ t.getLast? = some '&' :=
    StringUtil.endsWith_singleton t '&'
  refine ⟨?_, rfl⟩
  unfold parseDecoratorType
  by_cases hp : t.getLast? = some '*'
  · rw [if_pos (h1.mpr hp), if_pos hp]
  · have hp2 : ¬ StringUtil.endsWith t "*" = true := fun h => hp (h1.mp h)
    rw [if_neg hp2, if_neg hp]
    by_cases hr : t.getLast? = some '&'
    · rw [if_pos (h2.mpr hr), if_pos hr]
    · have hr2 : ¬ StringUtil.endsWith t "&" = true := fun h => hr (h2.mp h)
      rw [if_neg hr2, if_neg hr]


/-! ## Template arguments: claims C2 and C6 -/

theorem splitTopLevelAux_eq_split (content : Str) :
    ∀ depth, noNestedCommaAux depth content = true →
      splitTopLevelAux depth content = StringUtil.split content ',' := by
  induction content with
  | nil => intro _ _; rfl
  | cons c cs ih =>
    intro depth h
    rw [noNestedCommaAux] at h
    rw [splitTopLevelAux, StringUtil.split]
    by_cases hc : c = ','
    · simp only [hc, ↓reduceIte, Bool.and_eq_true, decide_eq_true_eq] at h
      simp only [hc, h.1, and_self, ↓reduceIte]
      rw [ih 0 h.2]
    · simp only [hc, ↓reduceIte] at h
      simp only [hc, false_and, ↓reduceIte]
      rw [ih _ h]

theorem extractTypenames_of_template (token : Str) (h1 : '<' ∈ token)
    (h2 : token.getLast? = some '>') :
    extractTypenames token = (StringUtil.split (templateContent token) ',').map StringUtil.trim := by
  unfold extractTypenames templateContent
  have hidx : ¬ token.indexOf '<' = token.length := by
    rw [List.indexOf_eq_length]
    exact fun h => h h1
  simp only [hidx, ↓reduceIte, h2, ne_eq, not_true_eq_false]

theorem extractTypenames_eq_nil_of_not_template (token : Str)
    (h : ¬ ('<' ∈ token ∧ token.getLast? = some '>')) : extractTypenames token = [] := by
  unfold extractTypenames
  simp only
  split
  · rfl
  · rename_i hidx
    have h1 : '<' ∈ token := by
      by_contra hn
      exact hidx (List.indexOf_eq_length.mpr hn)
    have h2 : token.getLast? ≠ some '>' := fun h2 => h ⟨h1, h2⟩
    simp [h2]

/-- The closed form of the descriptor text: the recursion is on the type arguments. -/
theorem encodePropertyReflection_eq (offset : Str) (symbolTable : SymbolTable) (type : Str) :
    encodePropertyReflection offset symbolTable type
      = ("reflect::NativeType\x7b \"" : Str) ++ type ++ "\", \x7b "
        ++ (if parseNativeType symbolTable type = NativeType.T_template then
              ((reflectionTypenames symbolTable type).map (fun tname =>
                  ("\n" : Str) ++ (offset ++ "    ")
                    ++ encodePropertyReflection (offset ++ "    ") symbolTable tname ++ ",")).flatten
                ++ ("\n" ++ offset)
            else " ")
        ++ "\x7d, " ++ toStringDecorator (parseDecoratorType symbolTable type)
        ++ ", sizeof(" ++ type ++ "), " ++ toStringNative (parseNativeType symbolTable type)
        ++ " \x7d" := by
  rw [encodePropertyReflection_unfold]
  unfold encodePropertyReflectionBody reflectionTypenames
  simp only
  have hfold : ∀ (ts : List Str) (buffer : EncodeBuffer),
      (ts.foldl (fun buffer tname =>
          buffer.pushAll [("\n" : Str) ++ (offset ++ "    "),
            encodePropertyReflection (offset ++ "    ") symbolTable tname, ","]) buffer).string false
      = buffer.string false ++ (ts.map (fun tname =>
          ("\n" : Str) ++ (offset ++ "    ")
            ++ encodePropertyReflection (offset ++ "    ") symbolTable tname ++ ",")).flatten := by
    intro ts
    induction ts with
    | nil => intro buffer; simp
    | cons t ts ih =>
      intro buffer
      rw [List.foldl_cons, ih, EncodeBuffer.string_false_pushAll]
      simp
  by_cases ht : parseNativeType symbolTable type = NativeType.T_template
  · simp only [ht, ↓reduceIte]
    rw [EncodeBuffer.string_false_push, hfold, EncodeBuffer.string_false_empty]
    simp
  · simp only [ht, ↓reduceIte]
    rw [EncodeBuffer.string_false_push, EncodeBuffer.string_false_empty]
    simp

/-- C2 (the code at the failing input): for `std::tuple<int, std::map<int,int>>` the
extraction cuts at the comma inside the nested `<...>` and returns three pieces, two of
which are no type names, where the split at top-level commas gives the two arguments. -/
theorem extractTypenames_nested_comma :
    extractTypenames "std::tuple<int, std::map<int,int>>" = ["int", "std::map<int", "int>"]
      ∧ extractTypenamesSpec "std::tuple<int, std::map<int,int>>" = ["int", "std::map<int,int>"] := by
  decide

/-- C6 (as stated, refuted): `std::vector<int>*` contains `<`, but its descriptor has an
empty arguments list (between the braces there is only the line break). -/
theorem encodePropertyReflection_pointer_template :
    '<' ∈ ("std::vector<int>*" : Str)
      ∧ reflectionTypenames [] "std::vector<int>*" = []
      ∧ encodePropertyReflection "" [] "std::vector<int>*"
        = ("reflect::NativeType\x7b \"std::vector<int>*\", \x7b \n\x7d, reflect::NativeType::DecoratorType::D_pointer, sizeof(std::vector<int>*), reflect::NativeType::Type::T_template \x7d" : Str) := by
  decide

/-- C6 (amended): the descriptor of a type string `T` lists the descriptors of the type
arguments `reflectionTypenames T`, one after the other. This list is not empty exactly when
`T` contains `<` and ends with `>`; and when moreover no comma of `T` is enclosed by a
nested `<...>`, its length is the number of top-level comma-separated arguments inside the
outermost `<...>`. -/
theorem encodePropertyReflection_arguments (offset : Str) (symbolTable : SymbolTable) (T : Str) :
    encodePropertyReflection offset symbolTable T
        = ("reflect::NativeType\x7b \"" : Str) ++ T ++ "\", \x7b "
          ++ (if parseNativeType symbolTable T = NativeType.T_template then
                ((reflectionTypenames symbolTable T).map (fun tname =>
                    ("\n" : Str) ++ (offset ++ "    ")
                      ++ encodePropertyReflection (offset ++ "    ") symbolTable tname ++ ",")).flatten
                  ++ ("\n" ++ offset)
              else " ")
          ++ "\x7d, " ++ toStringDecorator (parseDecoratorType symbolTable T)
          ++ ", sizeof(" ++ T ++ "), " ++ toStringNative (parseNativeType symbolTable T)
          ++ " \x7d"
      ∧ (reflectionTypenames symbolTable T ≠ [] ↔ ('<' ∈ T ∧ T.getLast? = some '>'))
      ∧ ('<' ∈ T → T.getLast? = some '>' → noNestedComma (templateContent T) = true →
          (reflectionTypenames symbolTable T).length = (splitTopLevel (templateContent T)).length) := by
  refine ⟨encodePropertyReflection_eq offset symbolTable T, ?_, ?_⟩
  · unfold reflectionTypenames
    constructor
    · intro h
      by_contra hn
      apply h
      split
      · exact extractTypenames_eq_nil_of_not_template T hn
      · rfl
    · rintro ⟨h1, h2⟩
      rw [if_pos ((parseNativeType_eq_template_iff symbolTable T).mpr h1),
        extractTypenames_of_template T h1 h2]
      simpa using StringUtil.split_ne_nil _ _
  · intro h1 h2 h3
    unfold reflectionTypenames
    rw [if_pos ((parseNativeType_eq_template_iff symbolTable T).mpr h1),
      extractTypenames_of_template T h1 h2]
    unfold splitTopLevel
    rw [splitTopLevelAux_eq_split _ 0 h3]
    simp

/-- The count of the amended C6 at `std::map<std::string, std::vector<int>>`. -/
theorem encodePropertyReflection_arguments_witness :
    '<' ∈ ("std::map<std::string, std::vector<int>>" : Str)
      ∧ ("std::map<std::string, std::vector<int>>" : Str).getLast? = some '>'
      ∧ noNestedComma (templateContent "std::map<std::string, std::vector<int>>") = true
      ∧ (reflectionTypenames [] "std::map<std::string, std::vector<int>>").length
          = (splitTopLevel (templateContent "std::map<std::string, std::vector<int>>")).length :=
  ⟨by decide, by decide, by decide,
    (encodePropertyReflection_arguments "" [] "std::map<std::string, std::vector<int>>").2.2
      (by decide) (by decide) (by decide)⟩


/-! ## Serialisation of a property: claims C7 to C10 -/

/-- C7: when the decorator classification of the type string is Pointer or Reference,
`encodePropertySerialization` returns the empty string, in the write and in the read
direction, and the loop body of the class encoder pushes no line for the property. -/
theorem encodePropertySerialization_decorated (offset : Str) (symbolTable : SymbolTable)
    (serialize : Bool) (name type : Str) (meta : List (Str × Str)) (sourceBuffer : EncodeBuffer)
    (h : parseDecoratorType symbolTable type = DecoratorType.D_pointer
      ∨ parseDecoratorType symbolTable type = DecoratorType.D_reference) :
    encodePropertySerialization offset symbolTable serialize name type = []
      ∧ pushSerialization symbolTable serialize sourceBuffer ⟨name, type, meta⟩ = sourceBuffer := by
  have hne : parseDecoratorType symbolTable type ≠ DecoratorType.D_raw := by
    rcases h with h | h <;> rw [h] <;> decide
  have hempty : ∀ o, encodePropertySerialization o symbolTable serialize name type = [] := by
    intro o
    rw [encodePropertySerialization_unfold]
    unfold encodePropertySerializationBody
    simp only [hne, ne_eq, not_false_eq_true, ↓reduceIte]
    rfl
  refine ⟨hempty offset, ?_⟩
  unfold pushSerialization encodePropertySerializationProperty
  simp only [hempty]
  rfl

/-- The statement of C7 at the pointer property `Foo* m_foo`. -/
theorem encodePropertySerialization_decorated_witness :
    (parseDecoratorType [("Foo", SymbolType.S_class)] "Foo*" = DecoratorType.D_pointer
      ∨ parseDecoratorType [("Foo", SymbolType.S_class)] "Foo*" = DecoratorType.D_reference)
    ∧ encodePropertySerialization "    " [("Foo", SymbolType.S_class)] true "m_foo" "Foo*" = []
    ∧ pushSerialization [("Foo", SymbolType.S_class)] true ⟨["void f();"]⟩ ⟨"m_foo", "Foo*", []⟩
        = ⟨["void f();"]⟩ :=
  ⟨by decide,
    encodePropertySerialization_decorated "    " [("Foo", SymbolType.S_class)] true "m_foo" "Foo*"
      [] ⟨["void f();"]⟩ (by decide)⟩

/-- C8: for a Raw type classified bool, char, int, float, double or string the serialisation
code is the single statement `stream << name;` behind the offset in the write direction and
`stream >> name;` in the read direction. -/
theorem encodePropertySerialization_primitive (offset : Str) (symbolTable : SymbolTable)
    (name type : Str)
    (hraw : parseDecoratorType symbolTable type = DecoratorType.D_raw)
    (hnative : parseNativeType symbolTable type ∈ [NativeType.T_bool, NativeType.T_char,
      NativeType.T_int, NativeType.T_float, NativeType.T_double, NativeType.T_string]) :
    encodePropertySerialization offset symbolTable true name type
        = offset ++ ("stream << " : Str) ++ name ++ (";" : Str)
      ∧ encodePropertySerialization offset symbolTable false name type
        = offset ++ ("stream >> " : Str) ++ name ++ (";" : Str) := by
  rw [encodePropertySerialization_unfold, encodePropertySerialization_unfold]
  unfold encodePropertySerializationBody
  simp only [hraw, ne_eq, not_true_eq_false, ↓reduceIte]
  simp only [List.mem_cons, List.mem_singleton, List.not_mem_nil, or_false] at hnative
  rcases hnative with h | h | h | h | h | h <;>
    simp only [h, EncodeBuffer.string_false_pushAll, EncodeBuffer.string_false_empty] <;>
    constructor <;> simp

/-- The statement of C8 at the property `float x`. -/
theorem encodePropertySerialization_primitive_witness :
    parseDecoratorType [] "float" = DecoratorType.D_raw
    ∧ parseNativeType [] "float" ∈ [NativeType.T_bool, NativeType.T_char,
      NativeType.T_int, NativeType.T_float, NativeType.T_double, NativeType.T_string]
    ∧ encodePropertySerialization "    " [] true "x" "float" = ("    stream << x;" : Str)
    ∧ encodePropertySerialization "    " [] false "x" "float" = ("    stream >> x;" : Str) :=
  ⟨by decide, by decide, encodePropertySerialization_primitive "    " [] "x" "float" (by decide)
    (by decide)⟩

/-- C9 (the code at the failing input): for the enum property `m_color` of type `Color` the
read code reads an integer into the local `pack` and then assigns to the field the cast of
the field itself; `pack` is not used. -/
theorem encodePropertySerialization_enum_read :
    encodePropertySerialization "    " [("Color", SymbolType.S_enum)] false "m_color" "Color"
      = ("    \x7b\n        int pack;\n        stream >> pack;\n        m_color = static_cast<Color>(m_color);\n    \x7d" : Str) := by
  decide

/-- C10: for a Raw type that the symbol table makes an Enum, the write code is the single
statement `stream << static_cast<int>(name);` behind the offset. -/
theorem encodePropertySerialization_enum_write (offset : Str) (symbolTable : SymbolTable)
    (name type : Str)
    (hraw : parseDecoratorType symbolTable type = DecoratorType.D_raw)
    (henum : parseNativeType symbolTable type = NativeType.T_enum) :
    encodePropertySerialization offset symbolTable true name type
      = offset ++ ("stream << static_cast<int>(" : Str) ++ name ++ (");" : Str) := by
  rw [encodePropertySerialization_unfold]
  unfold encodePropertySerializationBody
  simp only [hraw, ne_eq, not_true_eq_false, ↓reduceIte, henum,
    EncodeBuffer.string_false_pushAll, EncodeBuffer.string_false_empty]
  simp

/-- The statement of C10 at the enum property `Color m_color`. -/
theorem encodePropertySerialization_enum_write_witness :
    parseDecoratorType [("Color", SymbolType.S_enum)] "Color" = DecoratorType.D_raw
    ∧ parseNativeType [("Color", SymbolType.S_enum)] "Color" = NativeType.T_enum
    ∧ encodePropertySerialization "    " [("Color", SymbolType.S_enum)] true "m_color" "Color"
      = ("    stream << static_cast<int>(m_color);" : Str) :=
  ⟨by decide, by decide,
    encodePropertySerialization_enum_write "    " [("Color", SymbolType.S_enum)] "m_color" "Color"
      (by decide) (by decide)⟩


/-! ## The class encoder: claim C1 -/

theorem m_lines_foldl_meta (entries : List (Str × Str)) (buffer : EncodeBuffer) :
    (entries.foldl (fun sourceBuffer entry =>
        EncodeBuffer.push_lineAll sourceBuffer
          [("        \x7b \"" : Str), entry.1, "\", \"", entry.2, "\" \x7d,"]) buffer).m_lines
      = buffer.m_lines ++ entries.map (fun entry =>
          ("        \x7b \"" : Str) ++ entry.1 ++ "\", \"" ++ entry.2 ++ "\" \x7d,") := by
  induction entries generalizing buffer with
  | nil => simp
  | cons e es ih =>
    rw [List.foldl_cons, ih, EncodeBuffer.m_lines_push_lineAll]
    simp

theorem m_lines_ite_push_line (c : Bool) (buffer : EncodeBuffer) (line : Str) :
    (if c = true then buffer.push_line line else buffer).m_lines
      = buffer.m_lines ++ (if c = true then [line] else []) := by
  cases c <;> simp [EncodeBuffer.m_lines_push_line]

theorem encodeBuffer_eq (b : EncodeBuffer) (ls : List Str) (h : b.m_lines = ls) : b = ⟨ls⟩ := by
  cases b
  simp at h
  simp [h]

/-- The class encoder on a class whose ancestors are all found: it returns `true` once the
bound covers the length of the chain, and adds the lines of `classHeaderLines` and
`classSourceLines` to the two buffers. -/
theorem encodeClass_of_chain (fuel : Nat) (headerBuffer sourceBuffer : EncodeBuffer)
    (symbolTable : SymbolTable) (collection : TypeCollection) (type : TypeClass)
    (chain : List TypeClass)
    (hchain : isParentChain collection type.parent chain = true) (hfuel : chain.length ≤ fuel) :
    encodeClass fuel headerBuffer sourceBuffer symbolTable collection type
      = some (true, ⟨headerBuffer.m_lines ++ classHeaderLines type⟩,
          ⟨sourceBuffer.m_lines ++ classSourceLines symbolTable type chain⟩) := by
  have hw1 := fun sb => walkParents_of_chain collection "        // Parent class "
    (pushReflection symbolTable type.name) (reflectionLines symbolTable type.name)
    (m_lines_pushReflection symbolTable type.name) chain fuel type.parent false sb hchain hfuel
  have hw2 := fun s sb => walkParents_of_chain collection "    // Parent class "
    (pushSerialization symbolTable s) (serializationLines symbolTable s)
    (m_lines_pushSerialization symbolTable s) chain fuel type.parent false sb hchain hfuel
  have hw3 := fun sb => walkParents_of_chain collection "    // Parent class "
    (pushSerializationToJson symbolTable true) (fun _ => [])
    (m_lines_pushSerializationToJson symbolTable true) chain fuel type.parent false sb hchain hfuel
  unfold encodeClass
  simp only [hw1, hw2, hw3]
  congr 2
  congr 1
  · apply encodeBuffer_eq
    simp only [EncodeBuffer.m_lines_push_line, EncodeBuffer.m_lines_push_lineAll, classHeaderLines]
    simp
  · apply encodeBuffer_eq
    simp only [EncodeBuffer.m_lines_push_line, EncodeBuffer.m_lines_push_lineAll,
      m_lines_ite_push_line, m_lines_foldl_meta,
      m_lines_foldl_emit _ _ (m_lines_pushReflection symbolTable type.name),
      m_lines_foldl_emit _ _ (m_lines_pushSerialization symbolTable true),
      m_lines_foldl_emit _ _ (m_lines_pushSerialization symbolTable false),
      m_lines_foldl_emit _ _ (m_lines_pushSerializationToJson symbolTable true),
      classSourceLines, ancestorSection]
    cases chain <;> simp


/-- C1 (as stated, refuted): for `Leaf : Mid`, `Mid : Base`, `Base : IType` with `Base{a}`,
`Mid{b}`, `Leaf{c}` the class encoder returns `true`, and the marker lines and stream
statements of the emitted source come in this order: in every section the group of `Mid`
(with `b`) stands before the group of `Base` (with `a`), so the order is b, a, c and not
a, b, c. -/
theorem encodeClass_sample_order :
    (encodeClass 2 {} {} sampleSymbolTable sampleCollection sampleLeaf).map
        (fun result => (result.1, result.2.2.m_lines.filter (fun line => line ∈ sampleLandmarks)))
      = some (true,
          ([ "        // Parent class Mid properties", "        // Parent class Base properties",
            "        // Properties",
            "    // Parent class Mid properties", "    stream << b;",
            "    // Parent class Base properties", "    stream << a;",
            "    // Properties", "    stream << c;",
            "    // Parent class Mid properties", "    stream >> b;",
            "    // Parent class Base properties", "    stream >> a;",
            "    // Properties", "    stream >> c;",
            "    // Parent class Mid properties", "    // Parent class Base properties",
            "    // Properties" ] : List Str)) := by
  decide

/-- C1 (amended): for every class whose ancestors `chain` (met by following the parent
field up to `IType`, the direct parent first) are all present in the TypeCollection, the
class encoder returns `true` as soon as the bound on the walk covers the chain, and it
emits the ancestor groups in order of increasing distance from the class itself: in the
`properties()` table, in `operator std::string` and in `from_string` the marker and the
lines of the direct parent come first and those of the ancestor next to `IType` last, then
`// Properties` and the own lines (for Leaf : Mid : Base the order is b, a, c). -/
theorem encodeClass_ancestor_order (fuel : Nat) (headerBuffer sourceBuffer : EncodeBuffer)
    (symbolTable : SymbolTable) (collection : TypeCollection) (type : TypeClass)
    (chain : List TypeClass)
    (hchain : isParentChain collection type.parent chain = true) (hfuel : chain.length ≤ fuel) :
    encodeClass fuel headerBuffer sourceBuffer symbolTable collection type
      = some (true, ⟨headerBuffer.m_lines ++ classHeaderLines type⟩,
          ⟨sourceBuffer.m_lines ++ classSourceLines symbolTable type chain⟩) :=
  encodeClass_of_chain fuel headerBuffer sourceBuffer symbolTable collection type chain hchain
    hfuel

/-- The amended C1 at the inheritance scenario: the chain of `Leaf` is Mid, Base. -/
theorem encodeClass_ancestor_order_witness :
    isParentChain sampleCollection sampleLeaf.parent [sampleMid, sampleBase] = true
      ∧ [sampleMid, sampleBase].length ≤ 2
      ∧ encodeClass 2 {} {} sampleSymbolTable sampleCollection sampleLeaf
        = some (true, ⟨[] ++ classHeaderLines sampleLeaf⟩,
            ⟨[] ++ classSourceLines sampleSymbolTable sampleLeaf [sampleMid, sampleBase]⟩) :=
  ⟨by decide, by decide,
    encodeClass_ancestor_order 2 {} {} sampleSymbolTable sampleCollection sampleLeaf
      [sampleMid, sampleBase] (by decide) (by decide)⟩

end Encoder

/-! ## Lemmas on template-shaped type strings -/

namespace StringUtil

theorem split_of_not_mem (s : Str) (d : Char) (h : d ∉ s) : split s d = [s] := by
  induction s with
  | nil => rfl
  | cons c cs ih =>
    have hc : ¬ c = d := fun hcd => h (by simp [hcd])
    have hcs : d ∉ cs := fun hm => h (List.mem_cons_of_mem _ hm)
    rw [split, if_neg hc, ih hcs]

theorem split_append_delimiter (a b : Str) (d : Char) (h : d ∉ a) :
    split (a ++ d :: b) d = a :: split b d := by
  induction a with
  | nil => simp [split]
  | cons c cs ih =>
    have hc : ¬ c = d := fun hcd => h (by simp [hcd])
    have hcs : d ∉ cs := fun hm => h (List.mem_cons_of_mem _ hm)
    rw [List.cons_append, split, if_neg hc, ih hcs]

theorem trim_cons_space (s : Str) : trim (' ' :: s) = trim s := by
  unfold trim
  rw [List.dropWhile_cons_of_pos (by decide)]

end StringUtil

namespace Encoder

/-- The extraction on a type string made of a head without `<`, a `<`, a content and the
final `>`: the content is split at its commas. -/
theorem extractTypenames_head (head content : Str) (hhead : '<' ∉ head) :
    extractTypenames (head ++ ("<" : Str) ++ content ++ (">" : Str))
      = (StringUtil.split content ',').map StringUtil.trim := by
  have hshape : head ++ ("<" : Str) ++ content ++ (">" : Str)
      = head ++ '<' :: (content ++ ['>']) := by
    simp
  rw [hshape]
  have hmem : '<' ∈ head ++ '<' :: (content ++ ['>']) := by simp
  have hlast : (head ++ '<' :: (content ++ ['>'])).getLast? = some '>' := by
    rw [← List.cons_append, ← List.append_assoc]
    exact List.getLast?_concat _
  rw [extractTypenames_of_template _ hmem hlast]
  unfold templateContent
  rw [List.indexOf_append_of_not_mem hhead, List.indexOf_cons_self, Nat.add_zero,
    List.drop_append 1]
  simp

theorem parseDecoratorType_template (symbolTable : SymbolTable) (head content : Str) :
    parseDecoratorType symbolTable (head ++ ("<" : Str) ++ content ++ (">" : Str))
      = DecoratorType.D_raw := by
  have hlast : (head ++ ("<" : Str) ++ content ++ (">" : Str)).getLast? = some '>' :=
    List.getLast?_concat _
  have h1 : ¬ StringUtil.endsWith (head ++ ("<" : Str) ++ content ++ (">" : Str)) "*" = true := by
    intro h
    have := (StringUtil.endsWith_singleton _ '*').mp h
    rw [hlast] at this
    cases this
  have h2 : ¬ StringUtil.endsWith (head ++ ("<" : Str) ++ content ++ (">" : Str)) "&" = true := by
    intro h
    have := (StringUtil.endsWith_singleton _ '&').mp h
    rw [hlast] at this
    cases this
  unfold parseDecoratorType
  rw [if_neg h1, if_neg h2]

theorem mem_popDecorators_of_mem (x : Char) (t : Str)
    (hx : x ≠ '*' ∧ x ≠ '&' ∧ x ≠ ' ') (h : x ∈ t) : x ∈ popDecorators t := by
  unfold popDecorators
  induction t using List.reverseRecOn with
  | nil => simp at h
  | append_singleton l c ih =>
    by_cases hc : c = '*' ∨ c = '&' ∨ c = ' '
    · rw [List.rdropWhile_concat_pos _ _ _ (by simpa [or_assoc] using hc)]
      apply ih
      rcases List.mem_append.mp h with h | h
      · exact h
      · simp only [List.mem_singleton] at h
        subst h
        rcases hc with hc | hc | hc
        · exact absurd hc hx.1
        · exact absurd hc hx.2.1
        · exact absurd hc hx.2.2
    · rw [List.rdropWhile_concat_neg _ _ _ (by simpa [and_assoc] using hc)]
      exact h

theorem popDecorators_of_primitive (symbolTable : SymbolTable) (t : Str)
    (h : parseNativeType symbolTable t ∈ [NativeType.T_bool, NativeType.T_char,
      NativeType.T_int, NativeType.T_float, NativeType.T_double, NativeType.T_string]) :
    popDecorators (StringUtil.replace t "std::" "")
      ∈ [("bool" : Str), "char", "double", "float", "int", "string"] := by
  unfold parseNativeType at h
  simp only at h
  split at h
  · simp at h
  · split at h
    · rename_i heq; rw [heq]; decide
    · split at h
      · rename_i heq; rw [heq]; decide
      · split at h
        · rename_i heq; rw [heq]; decide
        · split at h
          · rename_i heq; rw [heq]; decide
          · split at h
            · rename_i heq; rw [heq]; decide
            · split at h
              · simp at h
              · split at h
                · rename_i heq; rw [heq]; decide
                · split at h
                  · simp at h
                  · split at h <;> simp at h

/-- A type string classified as a primitive contains no comma. -/
theorem comma_not_mem_of_primitive (symbolTable : SymbolTable) (t : Str)
    (h : parseNativeType symbolTable t ∈ [NativeType.T_bool, NativeType.T_char,
      NativeType.T_int, NativeType.T_float, NativeType.T_double, NativeType.T_string]) :
    ',' ∉ t := by
  intro hmem
  have hrep : ',' ∈ StringUtil.replace t "std::" "" :=
    (StringUtil.mem_replaceAux_iff "std::" ',' (by decide) 0 t (by simp)).mpr hmem
  have hpop := mem_popDecorators_of_mem ',' _ (by decide) hrep
  have hname := popDecorators_of_primitive symbolTable t h
  simp only [List.mem_cons, List.mem_singleton, List.not_mem_nil, or_false] at hname
  rcases hname with hn | hn | hn | hn | hn | hn <;> rw [hn] at hpop <;> revert hpop <;> decide

/-- The serialisation code of a Raw primitive, in either direction (line 462). -/
theorem encodePropertySerialization_of_primitive (offset : Str) (symbolTable : SymbolTable)
    (serialize : Bool) (name type : Str)
    (hraw : parseDecoratorType symbolTable type = DecoratorType.D_raw)
    (hnative : parseNativeType symbolTable type ∈ [NativeType.T_bool, NativeType.T_char,
      NativeType.T_int, NativeType.T_float, NativeType.T_double, NativeType.T_string]) :
    encodePropertySerialization offset symbolTable serialize name type
      = offset ++ ("stream " : Str) ++ (if serialize then ("<<" : Str) else (">>" : Str))
        ++ (" " : Str) ++ name ++ (";" : Str) := by
  rw [encodePropertySerialization_unfold]
  unfold encodePropertySerializationBody
  simp only [hraw, ne_eq, not_true_eq_false, ↓reduceIte]
  simp only [List.mem_cons, List.mem_singleton, List.not_mem_nil, or_false] at hnative
  rcases hnative with h | h | h | h | h | h <;>
    simp only [h, EncodeBuffer.string_false_pushAll, EncodeBuffer.string_false_empty] <;>
    simp

theorem isValidListType_of_primitive (kind : NativeType)
    (h : kind ∈ [NativeType.T_bool, NativeType.T_char,
      NativeType.T_int, NativeType.T_float, NativeType.T_double, NativeType.T_string]) :
    isValidListType kind = true ∧ isValidMapKeyType kind = true
      ∧ isValidMapValueType kind = true := by
  simp only [List.mem_cons, List.mem_singleton, List.not_mem_nil, or_false] at h
  rcases h with h | h | h | h | h | h <;> subst h <;> decide

theorem isListHead_eq_false_of_isMapHead (type : Str) (h : isMapHead type = true) :
    isListHead type = false := by
  have key : ∀ p q : Str, p <+: type → q <+: type → (p <+: q ∨ q <+: p) := by
    intro p q hp hq
    rcases Nat.le_total p.length q.length with hle | hle
    · exact Or.inl (List.prefix_of_prefix_length_le hp hq hle)
    · exact Or.inr (List.prefix_of_prefix_length_le hq hp hle)
  unfold isMapHead at h
  unfold isListHead
  simp only [StringUtil.startsWith, Bool.or_eq_true, List.isPrefixOf_iff_prefix] at h
  simp only [StringUtil.startsWith, Bool.or_eq_false_iff]
  have hnot : ∀ q : Str, q <+: type →
      ¬ (("map" : Str) <+: q ∨ q <+: ("map" : Str)) →
      ¬ (("std::map" : Str) <+: q ∨ q <+: ("std::map" : Str)) →
      ¬ (("unordered_map" : Str) <+: q ∨ q <+: ("unordered_map" : Str)) →
      ¬ (("std::unordered_map" : Str) <+: q ∨ q <+: ("std::unordered_map" : Str)) → False := by
    intro q hq h1 h2 h3 h4
    rcases h with ((hm | hm) | hm) | hm
    · exact h1 (key _ _ hm hq)
    · exact h2 (key _ _ hm hq)
    · exact h3 (key _ _ hm hq)
    · exact h4 (key _ _ hm hq)
  have hfalse : ∀ q : Str,
      ¬ (("map" : Str) <+: q ∨ q <+: ("map" : Str)) →
      ¬ (("std::map" : Str) <+: q ∨ q <+: ("std::map" : Str)) →
      ¬ (("unordered_map" : Str) <+: q ∨ q <+: ("unordered_map" : Str)) →
      ¬ (("std::unordered_map" : Str) <+: q ∨ q <+: ("std::unordered_map" : Str)) →
      q.isPrefixOf type = false := by
    intro q h1 h2 h3 h4
    cases hq : q.isPrefixOf type with
    | false => rfl
    | true => exact absurd (hnot q ( List.isPrefixOf_iff_prefix.mp hq) h1 h2 h3 h4) id
  exact ⟨⟨⟨hfalse _ (by decide) (by decide) (by decide) (by decide),
    hfalse _ (by decide) (by decide) (by decide) (by decide)⟩,
    hfalse _ (by decide) (by decide) (by decide) (by decide)⟩,
    hfalse _ (by decide) (by decide) (by decide) (by decide)⟩

end Encoder

/-! ## Serialisation of user types and containers: claims C11 to C18 -/

namespace Encoder

theorem mem_of_extractTypenames_ne_nil (type : Str) (h : extractTypenames type ≠ []) :
    '<' ∈ type := by
  by_contra hn
  exact h (extractTypenames_eq_nil_of_not_template type (fun hc => hn hc.1))

/-- The vector/list branch when the element type is rejected (line 491): nothing is
emitted. -/
theorem encodePropertySerialization_list_reject (offset : Str) (symbolTable : SymbolTable)
    (serialize : Bool) (name type typenames0 : Str) (typenamesRest : List Str)
    (hhead : isListHead type = true)
    (hx : extractTypenames type = typenames0 :: typenamesRest)
    (hvalid : isValidListType (parseNativeType symbolTable typenames0) = false) :
    encodePropertySerialization offset symbolTable serialize name type = [] := by
  have hlt : '<' ∈ type := mem_of_extractTypenames_ne_nil type (by simp [hx])
  have hnative := (parseNativeType_eq_template_iff symbolTable type).mpr hlt
  unfold isListHead at hhead
  rw [encodePropertySerialization_unfold]
  unfold encodePropertySerializationBody
  by_cases hraw : parseDecoratorType symbolTable type = DecoratorType.D_raw
  · simp only [hraw, ne_eq, not_true_eq_false, ↓reduceIte, hnative, hx, hhead, hvalid,
      Bool.not_false]
    rfl
  · simp only [hraw, ne_eq, not_false_eq_true, ↓reduceIte]
    rfl

/-- The vector/list branch with an accepted element type (lines 493-520), in both
directions; the code of the element is that of the emitter applied to the first type
argument. -/
theorem encodePropertySerialization_list_accept (offset : Str) (symbolTable : SymbolTable)
    (name type typenames0 : Str) (typenamesRest : List Str)
    (hraw : parseDecoratorType symbolTable type = DecoratorType.D_raw)
    (hhead : isListHead type = true)
    (hx : extractTypenames type = typenames0 :: typenamesRest)
    (hvalid : isValidListType (parseNativeType symbolTable typenames0) = true) :
    encodePropertySerialization offset symbolTable true name type
        = offset ++ ("\x7b" : Str)
          ++ ("\n" : Str) ++ offset ++ ("    stream << " : Str) ++ name ++ (".size();" : Str)
          ++ ("\n" : Str) ++ offset ++ ("    for (const auto& element : " : Str) ++ name
            ++ (")" : Str)
          ++ ("\n" : Str) ++ offset ++ ("    \x7b" : Str)
          ++ ("\n" : Str) ++ offset ++ ("    " : Str)
            ++ encodePropertySerialization "    " symbolTable true "element" typenames0
          ++ ("\n" : Str) ++ offset ++ ("    \x7d" : Str)
          ++ ("\n" : Str) ++ offset ++ ("\x7d" : Str)
      ∧ encodePropertySerialization offset symbolTable false name type
        = offset ++ ("\x7b" : Str)
          ++ ("\n" : Str) ++ offset ++ ("    std::size_t size;" : Str)
          ++ ("\n" : Str) ++ offset ++ ("    stream >> size;" : Str)
          ++ ("\n" : Str) ++ offset ++ ("    " : Str) ++ name ++ (".resize(size);" : Str)
          ++ ("\n" : Str) ++ offset ++ ("    for (int i = 0; i < " : Str) ++ name
            ++ (".size(); ++i)" : Str)
          ++ ("\n" : Str) ++ offset ++ ("    \x7b" : Str)
          ++ ("\n" : Str) ++ offset ++ ("        " : Str) ++ typenames0 ++ (" element;" : Str)
          ++ ("\n" : Str) ++ offset ++ ("        " : Str)
            ++ encodePropertySerialization "" symbolTable false "element" typenames0
          ++ ("\n" : Str) ++ offset ++ ("        " : Str) ++ name ++ (".push_back(element);" : Str)
          ++ ("\n" : Str) ++ offset ++ ("    \x7d" : Str)
          ++ ("\n" : Str) ++ offset ++ ("\x7d" : Str) := by
  have hlt : '<' ∈ type := mem_of_extractTypenames_ne_nil type (by simp [hx])
  have hnative := (parseNativeType_eq_template_iff symbolTable type).mpr hlt
  unfold isListHead at hhead
  rw [encodePropertySerialization_unfold offset symbolTable true name type,
    encodePropertySerialization_unfold offset symbolTable false name type]
  unfold encodePropertySerializationBody
  simp only [hraw, ne_eq, not_true_eq_false, ↓reduceIte, hnative, hx, hhead, hvalid,
    Bool.not_true, Bool.false_eq_true,
    EncodeBuffer.string_false_pushAll, EncodeBuffer.string_false_empty]
  constructor <;> simp

/-- The map branch when an argument is missing or rejected (lines 525-527): nothing is
emitted. -/
theorem encodePropertySerialization_map_reject (offset : Str) (symbolTable : SymbolTable)
    (serialize : Bool) (name type : Str)
    (hlt : '<' ∈ type) (hhead : isMapHead type = true)
    (hx : (extractTypenames type).length < 2
      ∨ (∃ key rest, extractTypenames type = key :: rest
          ∧ isValidMapKeyType (parseNativeType symbolTable key) = false)
      ∨ (∃ key value rest, extractTypenames type = key :: value :: rest
          ∧ isValidMapValueType (parseNativeType symbolTable value) = false)) :
    encodePropertySerialization offset symbolTable serialize name type = [] := by
  have hnative := (parseNativeType_eq_template_iff symbolTable type).mpr hlt
  have hlist := isListHead_eq_false_of_isMapHead type hhead
  unfold isMapHead at hhead
  unfold isListHead at hlist
  rw [encodePropertySerialization_unfold]
  unfold encodePropertySerializationBody
  by_cases hraw : parseDecoratorType symbolTable type = DecoratorType.D_raw
  · simp only [hraw, ne_eq, not_true_eq_false, ↓reduceIte, hnative, hlist, hhead,
      Bool.false_eq_true]
    cases hts : extractTypenames type with
    | nil => rfl
    | cons t0 rest =>
      cases rest with
      | nil => rfl
      | cons t1 more =>
        rw [hts] at hx
        have hbad : isValidMapKeyType (parseNativeType symbolTable t0) = false
            ∨ isValidMapValueType (parseNativeType symbolTable t1) = false := by
          rcases hx with h | ⟨key, r, heq, hk⟩ | ⟨key, value, r, heq, hv⟩
          · simp only [List.length_cons] at h
            omega
          · simp only [List.cons.injEq] at heq
            rw [heq.1]
            exact Or.inl hk
          · simp only [List.cons.injEq] at heq
            rw [heq.2.1]
            exact Or.inr hv
        have hcond : (!isValidMapKeyType (parseNativeType symbolTable t0)
            || !isValidMapValueType (parseNativeType symbolTable t1)) = true := by
          rcases hbad with h | h <;> simp [h]
        simp only [hcond, ↓reduceIte]
        rfl
  · simp only [hraw, ne_eq, not_false_eq_true, ↓reduceIte]
    rfl

/-- The map branch with accepted key and value types (lines 529-556), in the write
direction. -/
theorem encodePropertySerialization_map_accept_write (offset : Str) (symbolTable : SymbolTable)
    (name type key value : Str) (rest : List Str)
    (hraw : parseDecoratorType symbolTable type = DecoratorType.D_raw)
    (hhead : isMapHead type = true)
    (hx : extractTypenames type = key :: value :: rest)
    (hkey : isValidMapKeyType (parseNativeType symbolTable key) = true)
    (hvalue : isValidMapValueType (parseNativeType symbolTable value) = true) :
    encodePropertySerialization offset symbolTable true name type
        = offset ++ ("\x7b" : Str)
          ++ ("\n" : Str) ++ offset ++ ("    stream << " : Str) ++ name ++ (".size();" : Str)
          ++ ("\n" : Str) ++ offset ++ ("    for (const auto& pair : " : Str) ++ name
            ++ (")" : Str)
          ++ ("\n" : Str) ++ offset ++ ("    \x7b" : Str)
          ++ ("\n" : Str) ++ offset ++ ("    " : Str)
            ++ encodePropertySerialization "    " symbolTable true "pair.first" key
          ++ ("\n" : Str) ++ offset ++ ("    " : Str)
            ++ encodePropertySerialization "    " symbolTable true "pair.second" value
          ++ ("\n" : Str) ++ offset ++ ("    \x7d" : Str)
          ++ ("\n" : Str) ++ offset ++ ("\x7d" : Str) := by
  have hlt : '<' ∈ type := mem_of_extractTypenames_ne_nil type (by simp [hx])
  have hnative := (parseNativeType_eq_template_iff symbolTable type).mpr hlt
  have hlist := isListHead_eq_false_of_isMapHead type hhead
  unfold isMapHead at hhead
  unfold isListHead at hlist
  rw [encodePropertySerialization_unfold offset symbolTable true name type]
  unfold encodePropertySerializationBody
  simp only [hraw, ne_eq, not_true_eq_false, ↓reduceIte, hnative, hx, hlist, hhead, hkey,
    hvalue, Bool.not_true, Bool.false_eq_true, Bool.or_self,
    EncodeBuffer.string_false_pushAll, EncodeBuffer.string_false_empty]
  simp

/-- C11: for a Raw type that the symbol table makes a Class, the write code is the single
statement `stream << static_cast<std::string>(name);` behind the offset, and the read code
is the block that declares the local `std::string pack`, reads it from the stream and calls
`name.from_string(pack)`. -/
theorem encodePropertySerialization_user_type (offset : Str) (symbolTable : SymbolTable)
    (name type : Str)
    (hraw : parseDecoratorType symbolTable type = DecoratorType.D_raw)
    (hclass : parseNativeType symbolTable type = NativeType.T_type) :
    encodePropertySerialization offset symbolTable true name type
        = offset ++ ("stream << static_cast<std::string>(" : Str) ++ name ++ (");" : Str)
      ∧ encodePropertySerialization offset symbolTable false name type
        = offset ++ ("\x7b" : Str) ++ ("\n" : Str)
          ++ offset ++ ("    std::string pack;" : Str) ++ ("\n" : Str)
          ++ offset ++ ("    stream >> pack;" : Str) ++ ("\n" : Str)
          ++ offset ++ ("    " : Str) ++ name ++ (".from_string(pack);" : Str) ++ ("\n" : Str)
          ++ offset ++ ("\x7d" : Str) := by
  rw [encodePropertySerialization_unfold, encodePropertySerialization_unfold]
  unfold encodePropertySerializationBody
  simp only [hraw, ne_eq, not_true_eq_false, ↓reduceIte, hclass, Bool.false_eq_true,
    EncodeBuffer.string_false_pushAll, EncodeBuffer.string_false_empty]
  constructor <;> simp

/-- The statement of C11 at the property `Foo type` of the sample. -/
theorem encodePropertySerialization_user_type_witness :
    parseDecoratorType [("Foo", SymbolType.S_class)] "Foo" = DecoratorType.D_raw
    ∧ parseNativeType [("Foo", SymbolType.S_class)] "Foo" = NativeType.T_type
    ∧ encodePropertySerialization "    " [("Foo", SymbolType.S_class)] true "type" "Foo"
      = ("    stream << static_cast<std::string>(type);" : Str)
    ∧ encodePropertySerialization "    " [("Foo", SymbolType.S_class)] false "type" "Foo"
      = ("    \x7b\n        std::string pack;\n        stream >> pack;\n        type.from_string(pack);\n    \x7d" : Str) :=
  ⟨by decide, by decide,
    encodePropertySerialization_user_type "    " [("Foo", SymbolType.S_class)] "type" "Foo"
      (by decide) (by decide)⟩

/-- C13: for a vector- or list-headed type whose first type argument is classified
Template, Void or Unknown, `encodePropertySerialization` returns the empty string in the
write and in the read direction. -/
theorem encodePropertySerialization_list_invalid (offset : Str) (symbolTable : SymbolTable)
    (serialize : Bool) (name type typenames0 : Str) (typenamesRest : List Str)
    (hhead : isListHead type = true)
    (hx : extractTypenames type = typenames0 :: typenamesRest)
    (hkind : parseNativeType symbolTable typenames0 = NativeType.T_template
      ∨ parseNativeType symbolTable typenames0 = NativeType.T_void
      ∨ parseNativeType symbolTable typenames0 = NativeType.T_unknown) :
    encodePropertySerialization offset symbolTable serialize name type = [] := by
  apply encodePropertySerialization_list_reject offset symbolTable serialize name type
    typenames0 typenamesRest hhead hx
  rcases hkind with h | h | h <;> rw [h] <;> rfl

/-- The statement of C13 at the vector of vectors `std::vector<std::vector<int>>`. -/
theorem encodePropertySerialization_list_invalid_witness :
    isListHead "std::vector<std::vector<int>>" = true
    ∧ extractTypenames "std::vector<std::vector<int>>" = ["std::vector<int>"]
    ∧ parseNativeType [] "std::vector<int>" = NativeType.T_template
    ∧ encodePropertySerialization "    " [] true "grid" "std::vector<std::vector<int>>" = []
    ∧ encodePropertySerialization "    " [] false "grid" "std::vector<std::vector<int>>" = [] :=
  ⟨by decide, by decide, by decide,
    encodePropertySerialization_list_invalid "    " [] true "grid" "std::vector<std::vector<int>>"
      "std::vector<int>" [] (by decide) (by decide) (Or.inl (by decide)),
    encodePropertySerialization_list_invalid "    " [] false "grid" "std::vector<std::vector<int>>"
      "std::vector<int>" [] (by decide) (by decide) (Or.inl (by decide))⟩

/-- C12: for a head among vector, std::vector, list and std::list and an element type that
is Raw, free of commas, without surrounding whitespace and classified as a primitive, the
write code of `head<element>` is the block that writes the length and then, in a loop over
the container, each element with `stream << element;`. -/
theorem encodePropertySerialization_list_write (offset : Str) (symbolTable : SymbolTable)
    (name head element : Str)
    (hhead : head ∈ [("vector" : Str), "std::vector", "list", "std::list"])
    (hraw : parseDecoratorType symbolTable element = DecoratorType.D_raw)
    (hcomma : ',' ∉ element)
    (htrim : StringUtil.trim element = element)
    (hprim : parseNativeType symbolTable element ∈ [NativeType.T_bool, NativeType.T_char,
      NativeType.T_int, NativeType.T_float, NativeType.T_double, NativeType.T_string]) :
    encodePropertySerialization offset symbolTable true name
        (head ++ ("<" : Str) ++ element ++ (">" : Str))
      = offset ++ ("\x7b" : Str) ++ ("\n" : Str)
        ++ offset ++ ("    stream << " : Str) ++ name ++ (".size();" : Str) ++ ("\n" : Str)
        ++ offset ++ ("    for (const auto& element : " : Str) ++ name ++ (")" : Str)
        ++ ("\n" : Str)
        ++ offset ++ ("    \x7b" : Str) ++ ("\n" : Str)
        ++ offset ++ ("        stream << element;" : Str) ++ ("\n" : Str)
        ++ offset ++ ("    \x7d" : Str) ++ ("\n" : Str)
        ++ offset ++ ("\x7d" : Str) := by
  have hlt : '<' ∉ head := by
    simp only [List.mem_cons, List.mem_singleton, List.not_mem_nil, or_false] at hhead
    rcases hhead with h | h | h | h <;> subst h <;> decide
  have hx : extractTypenames (head ++ ("<" : Str) ++ element ++ (">" : Str)) = [element] := by
    rw [extractTypenames_head head element hlt, StringUtil.split_of_not_mem element ',' hcomma]
    simp [htrim]
  have hlist : isListHead (head ++ ("<" : Str) ++ element ++ (">" : Str)) = true := by
    simp only [List.mem_cons, List.mem_singleton, List.not_mem_nil, or_false] at hhead
    rcases hhead with h | h | h | h <;> subst h <;> rfl
  rw [(encodePropertySerialization_list_accept offset symbolTable name _ element []
    (parseDecoratorType_template symbolTable head element) hlist hx
    (isValidListType_of_primitive _ hprim).1).1,
    encodePropertySerialization_of_primitive "    " symbolTable true "element" element hraw hprim]
  simp

/-- The statement of C12 at the property `std::list<int> list` of the sample. -/
theorem encodePropertySerialization_list_write_witness :
    ("std::list" : Str) ∈ [("vector" : Str), "std::vector", "list", "std::list"]
    ∧ parseDecoratorType [] "int" = DecoratorType.D_raw
    ∧ ',' ∉ ("int" : Str)
    ∧ StringUtil.trim "int" = ("int" : Str)
    ∧ parseNativeType [] "int" ∈ [NativeType.T_bool, NativeType.T_char,
      NativeType.T_int, NativeType.T_float, NativeType.T_double, NativeType.T_string]
    ∧ encodePropertySerialization "    " [] true "list"
        (("std::list" : Str) ++ ("<" : Str) ++ ("int" : Str) ++ (">" : Str))
      = ("    " : Str) ++ ("\x7b" : Str) ++ ("\n" : Str)
        ++ ("    " : Str) ++ ("    stream << " : Str) ++ ("list" : Str) ++ (".size();" : Str)
        ++ ("\n" : Str)
        ++ ("    " : Str) ++ ("    for (const auto& element : " : Str) ++ ("list" : Str)
        ++ (")" : Str) ++ ("\n" : Str)
        ++ ("    " : Str) ++ ("    \x7b" : Str) ++ ("\n" : Str)
        ++ ("    " : Str) ++ ("        stream << element;" : Str) ++ ("\n" : Str)
        ++ ("    " : Str) ++ ("    \x7d" : Str) ++ ("\n" : Str)
        ++ ("    " : Str) ++ ("\x7d" : Str) :=
  ⟨by decide, by decide, by decide, by decide, by decide,
    encodePropertySerialization_list_write "    " [] "list" "std::list" "int" (by decide)
      (by decide) (by decide) (by decide) (by decide)⟩

/-- C14: for a head among map, std::map, unordered_map and std::unordered_map and Raw
primitive key and value types (type names without surrounding whitespace), the write code
of `head<key, value>` is the block that writes the size and then, in one loop over the
pairs, the key before the value. -/
theorem encodePropertySerialization_map_write (offset : Str) (symbolTable : SymbolTable)
    (name head key value : Str)
    (hhead : head ∈ [("map" : Str), "std::map", "unordered_map", "std::unordered_map"])
    (hkeyRaw : parseDecoratorType symbolTable key = DecoratorType.D_raw)
    (hkeyTrim : StringUtil.trim key = key)
    (hkey : parseNativeType symbolTable key ∈ [NativeType.T_bool, NativeType.T_char,
      NativeType.T_int, NativeType.T_float, NativeType.T_double, NativeType.T_string])
    (hvalueRaw : parseDecoratorType symbolTable value = DecoratorType.D_raw)
    (hvalueTrim : StringUtil.trim value = value)
    (hvalue : parseNativeType symbolTable value ∈ [NativeType.T_bool, NativeType.T_char,
      NativeType.T_int, NativeType.T_float, NativeType.T_double, NativeType.T_string]) :
    encodePropertySerialization offset symbolTable true name
        (head ++ ("<" : Str) ++ (key ++ (", " : Str) ++ value) ++ (">" : Str))
      = offset ++ ("\x7b" : Str) ++ ("\n" : Str)
        ++ offset ++ ("    stream << " : Str) ++ name ++ (".size();" : Str) ++ ("\n" : Str)
        ++ offset ++ ("    for (const auto& pair : " : Str) ++ name ++ (")" : Str)
        ++ ("\n" : Str)
        ++ offset ++ ("    \x7b" : Str) ++ ("\n" : Str)
        ++ offset ++ ("        stream << pair.first;" : Str) ++ ("\n" : Str)
        ++ offset ++ ("        stream << pair.second;" : Str) ++ ("\n" : Str)
        ++ offset ++ ("    \x7d" : Str) ++ ("\n" : Str)
        ++ offset ++ ("\x7d" : Str) := by
  have hlt : '<' ∉ head := by
    simp only [List.mem_cons, List.mem_singleton, List.not_mem_nil, or_false] at hhead
    rcases hhead with h | h | h | h <;> subst h <;> decide
  have hkc := comma_not_mem_of_primitive symbolTable key hkey
  have hvc := comma_not_mem_of_primitive symbolTable value hvalue
  have hcontent : key ++ (", " : Str) ++ value = key ++ ',' :: (' ' :: value) := by simp
  have hx : extractTypenames (head ++ ("<" : Str) ++ (key ++ (", " : Str) ++ value) ++ (">" : Str))
      = [key, value] := by
    rw [extractTypenames_head head _ hlt, hcontent,
      StringUtil.split_append_delimiter key _ ',' hkc,
      StringUtil.split_of_not_mem (' ' :: value) ',' (by simp [hvc])]
    simp [StringUtil.trim_cons_space, hkeyTrim, hvalueTrim]
  have hmap : isMapHead (head ++ ("<" : Str) ++ (key ++ (", " : Str) ++ value) ++ (">" : Str))
      = true := by
    simp only [List.mem_cons, List.mem_singleton, List.not_mem_nil, or_false] at hhead
    rcases hhead with h | h | h | h <;> subst h <;> rfl
  rw [encodePropertySerialization_map_accept_write offset symbolTable name _ key value []
    (parseDecoratorType_template symbolTable head _) hmap hx
    (isValidListType_of_primitive _ hkey).2.1 (isValidListType_of_primitive _ hvalue).2.2,
    encodePropertySerialization_of_primitive "    " symbolTable true "pair.first" key hkeyRaw hkey,
    encodePropertySerialization_of_primitive "    " symbolTable true "pair.second" value
      hvalueRaw hvalue]
  simp

/-- The statement of C14 at the property `std::map<std::string, int> dictionary` of the
sample. -/
theorem encodePropertySerialization_map_write_witness :
    ("std::map" : Str) ∈ [("map" : Str), "std::map", "unordered_map", "std::unordered_map"]
    ∧ parseDecoratorType [] "std::string" = DecoratorType.D_raw
    ∧ StringUtil.trim "std::string" = ("std::string" : Str)
    ∧ parseNativeType [] "std::string" ∈ [NativeType.T_bool, NativeType.T_char,
      NativeType.T_int, NativeType.T_float, NativeType.T_double, NativeType.T_string]
    ∧ parseDecoratorType [] "int" = DecoratorType.D_raw
    ∧ StringUtil.trim "int" = ("int" : Str)
    ∧ parseNativeType [] "int" ∈ [NativeType.T_bool, NativeType.T_char,
      NativeType.T_int, NativeType.T_float, NativeType.T_double, NativeType.T_string]
    ∧ encodePropertySerialization "    " [] true "dictionary"
        (("std::map" : Str) ++ ("<" : Str) ++ (("std::string" : Str) ++ (", " : Str)
          ++ ("int" : Str)) ++ (">" : Str))
      = ("    " : Str) ++ ("\x7b" : Str) ++ ("\n" : Str)
        ++ ("    " : Str) ++ ("    stream << " : Str) ++ ("dictionary" : Str)
        ++ (".size();" : Str) ++ ("\n" : Str)
        ++ ("    " : Str) ++ ("    for (const auto& pair : " : Str) ++ ("dictionary" : Str)
        ++ (")" : Str) ++ ("\n" : Str)
        ++ ("    " : Str) ++ ("    \x7b" : Str) ++ ("\n" : Str)
        ++ ("    " : Str) ++ ("        stream << pair.first;" : Str) ++ ("\n" : Str)
        ++ ("    " : Str) ++ ("        stream << pair.second;" : Str) ++ ("\n" : Str)
        ++ ("    " : Str) ++ ("    \x7d" : Str) ++ ("\n" : Str)
        ++ ("    " : Str) ++ ("\x7d" : Str) :=
  ⟨by decide, by decide, by decide, by decide, by decide, by decide, by decide,
    encodePropertySerialization_map_write "    " [] "dictionary" "std::map" "std::string" "int"
      (by decide) (by decide) (by decide) (by decide) (by decide) (by decide) (by decide)⟩

/-- C15: for a map- or unordered_map-headed template type, `encodePropertySerialization`
returns the empty string in the write and in the read direction whenever fewer than two
type arguments are extracted, or the key is classified Template, Void or Unknown, or the
value is classified Template, Void or Unknown. -/
theorem encodePropertySerialization_map_invalid (offset : Str) (symbolTable : SymbolTable)
    (serialize : Bool) (name type : Str)
    (hlt : '<' ∈ type) (hhead : isMapHead type = true)
    (hx : (extractTypenames type).length < 2
      ∨ (∃ key rest, extractTypenames type = key :: rest
          ∧ parseNativeType symbolTable key
            ∈ [NativeType.T_template, NativeType.T_void, NativeType.T_unknown])
      ∨ (∃ key value rest, extractTypenames type = key :: value :: rest
          ∧ parseNativeType symbolTable value
            ∈ [NativeType.T_template, NativeType.T_void, NativeType.T_unknown])) :
    encodePropertySerialization offset symbolTable serialize name type = [] := by
  have hinvalid : ∀ kind : NativeType,
      kind ∈ [NativeType.T_template, NativeType.T_void, NativeType.T_unknown] →
      isValidMapKeyType kind = false ∧ isValidMapValueType kind = false := by
    intro kind hk
    simp only [List.mem_cons, List.mem_singleton, List.not_mem_nil, or_false] at hk
    rcases hk with h | h | h <;> subst h <;> decide
  apply encodePropertySerialization_map_reject offset symbolTable serialize name type hlt hhead
  rcases hx with h | ⟨key, rest, heq, hk⟩ | ⟨key, value, rest, heq, hv⟩
  · exact Or.inl h
  · exact Or.inr (Or.inl ⟨key, rest, heq, (hinvalid _ hk).1⟩)
  · exact Or.inr (Or.inr ⟨key, value, rest, heq, (hinvalid _ hv).2⟩)

/-- The statement of C15 at `std::map<std::vector<int>, int>` (template key, write
direction) and at `std::map<std::string, std::vector<int>>` (template value, read
direction). -/
theorem encodePropertySerialization_map_invalid_witness :
    '<' ∈ ("std::map<std::vector<int>, int>" : Str)
    ∧ isMapHead "std::map<std::vector<int>, int>" = true
    ∧ extractTypenames "std::map<std::vector<int>, int>" = ["std::vector<int>", "int"]
    ∧ parseNativeType [] "std::vector<int>"
        ∈ [NativeType.T_template, NativeType.T_void, NativeType.T_unknown]
    ∧ encodePropertySerialization "    " [] true "m" "std::map<std::vector<int>, int>" = []
    ∧ encodePropertySerialization "    " [] false "power_dictionary"
        "std::map<std::string, std::vector<int>>" = [] :=
  ⟨by decide, by decide, by decide, by decide,
    encodePropertySerialization_map_invalid "    " [] true "m" "std::map<std::vector<int>, int>"
      (by decide) (by decide)
      (Or.inr (Or.inl ⟨"std::vector<int>", ["int"], by decide, by decide⟩)),
    encodePropertySerialization_map_invalid "    " [] false "power_dictionary"
      "std::map<std::string, std::vector<int>>" (by decide) (by decide)
      (Or.inr (Or.inr ⟨"std::string", "std::vector<int>", [], by decide, by decide⟩))⟩

/-- C16 (the code at the failing input): for the vector property `std::vector<int> xs` the
read code resizes the container to the length read, loops up to the size of the container
and appends each element read with `push_back`; there is no assignment by index. -/
theorem encodePropertySerialization_vector_read :
    encodePropertySerialization "    " [] false "xs" "std::vector<int>"
      = ("    \x7b\n        std::size_t size;\n        stream >> size;\n        xs.resize(size);\n        for (int i = 0; i < xs.size(); ++i)\n        \x7b\n            int element;\n            stream >> element;\n            xs.push_back(element);\n        \x7d\n    \x7d" : Str) := by
  decide

/-- C17 (as stated, refuted): for `std::vector<std::unique_ptr<Foo>>` with `Foo` a Class of
the symbol table, the write code and the read code are both empty. -/
theorem encodePropertySerialization_unique_ptr_sample :
    parseNativeType [("Foo", SymbolType.S_class)] "Foo" = NativeType.T_type
    ∧ encodePropertySerialization "    " [("Foo", SymbolType.S_class)] true "unique_foos"
        "std::vector<std::unique_ptr<Foo>>" = []
    ∧ encodePropertySerialization "    " [("Foo", SymbolType.S_class)] false "unique_foos"
        "std::vector<std::unique_ptr<Foo>>" = [] := by
  decide

/-- C17 (amended): for a property of type `std::vector<std::unique_ptr<Foo>>`, whatever
the symbol table holds, `encodePropertySerialization` returns the empty string in the write
and in the read direction: the element type `std::unique_ptr<Foo>` is classified Template
and rejected by `isValidListType`. -/
theorem encodePropertySerialization_unique_ptr (offset : Str) (symbolTable : SymbolTable)
    (serialize : Bool) (name : Str) :
    parseNativeType symbolTable "std::unique_ptr<Foo>" = NativeType.T_template
      ∧ isValidListType NativeType.T_template = false
      ∧ encodePropertySerialization offset symbolTable serialize name
          "std::vector<std::unique_ptr<Foo>>" = [] := by
  have hkind : parseNativeType symbolTable "std::unique_ptr<Foo>" = NativeType.T_template :=
    (parseNativeType_eq_template_iff symbolTable _).mpr (by decide)
  refine ⟨hkind, rfl, ?_⟩
  apply encodePropertySerialization_list_reject offset symbolTable serialize name
    "std::vector<std::unique_ptr<Foo>>" "std::unique_ptr<Foo>" [] (by decide) (by decide)
  rw [hkind]
  rfl

/-- C18: for a Raw type classified Void or Unknown, as is every normalised name that is no
primitive, has no `<` and is absent from the symbol table (such as `TestEnum` in the
sample), `encodePropertySerialization` returns the empty string in the write and in the
read direction, and the loop body of the class encoder pushes no line for the property. -/
theorem encodePropertySerialization_void_unknown (offset : Str) (symbolTable : SymbolTable)
    (serialize : Bool) (name type : Str) (meta : List (Str × Str)) (sourceBuffer : EncodeBuffer)
    (hraw : parseDecoratorType symbolTable type = DecoratorType.D_raw)
    (hkind : parseNativeType symbolTable type = NativeType.T_void
      ∨ parseNativeType symbolTable type = NativeType.T_unknown
      ∨ (Normalised type
          ∧ type ∉ [("bool" : Str), "char", "int", "float", "double", "string"]
          ∧ '<' ∉ type ∧ symbolTable.lookup type = none)) :
    encodePropertySerialization offset symbolTable serialize name type = []
      ∧ pushSerialization symbolTable serialize sourceBuffer ⟨name, type, meta⟩ = sourceBuffer := by
  have hkind2 : parseNativeType symbolTable type = NativeType.T_void
      ∨ parseNativeType symbolTable type = NativeType.T_unknown := by
    rcases hkind with h | h | ⟨hnorm, hprim, hlt, hlookup⟩
    · exact Or.inl h
    · exact Or.inr h
    · have href := parseNativeType_of_normalised symbolTable type [] hnorm (by simp)
      rw [List.append_nil] at href
      rw [href]
      simp only [List.mem_cons, List.mem_singleton, List.not_mem_nil, or_false, not_or] at hprim
      unfold parseNativeTypeRef
      simp only [hprim.1, hprim.2.1, hprim.2.2.1, hprim.2.2.2.1, hprim.2.2.2.2.1,
        hprim.2.2.2.2.2, hlt, hlookup, ↓reduceIte, reduceCtorEq]
      by_cases hv : type = ("void" : Str)
      · exact Or.inl (if_pos hv)
      · exact Or.inr (if_neg hv)
  have hempty : ∀ o, encodePropertySerialization o symbolTable serialize name type = [] := by
    intro o
    rw [encodePropertySerialization_unfold]
    unfold encodePropertySerializationBody
    rcases hkind2 with h | h <;>
      simp only [hraw, ne_eq, not_true_eq_false, ↓reduceIte, h] <;> rfl
  refine ⟨hempty offset, ?_⟩
  unfold pushSerialization encodePropertySerializationProperty
  simp only [hempty]
  rfl

/-- The statement of C18 at the property `TestEnum m_enum` of the sample, whose type is
absent from the symbol table. -/
theorem encodePropertySerialization_void_unknown_witness :
    parseDecoratorType [("Foo", SymbolType.S_class)] "TestEnum" = DecoratorType.D_raw
    ∧ (Normalised "TestEnum"
        ∧ ("TestEnum" : Str) ∉ [("bool" : Str), "char", "int", "float", "double", "string"]
        ∧ '<' ∉ ("TestEnum" : Str)
        ∧ List.lookup ("TestEnum" : Str) [(("Foo" : Str), SymbolType.S_class)] = none)
    ∧ encodePropertySerialization "    " [("Foo", SymbolType.S_class)] false "m_enum" "TestEnum" = []
    ∧ pushSerialization [("Foo", SymbolType.S_class)] false ⟨["    stream >> m_int;"]⟩
        ⟨"m_enum", "TestEnum", []⟩ = ⟨["    stream >> m_int;"]⟩ :=
  ⟨by decide, by decide,
    encodePropertySerialization_void_unknown "    " [("Foo", SymbolType.S_class)] false "m_enum"
      "TestEnum" [] ⟨["    stream >> m_int;"]⟩ (by decide) (Or.inr (Or.inr (by decide)))⟩

end Encoder

/-! ## The JSON functions of the class encoder: claims C19 and C20 -/

namespace Encoder

theorem ancestorSection_of_no_lines (marker propertiesMarker : Str) (chain : List TypeClass)
    (type : TypeClass) :
    ancestorSection marker propertiesMarker (fun _ => []) chain type
      = chain.map (fun parentClass => marker ++ parentClass.name ++ (" properties" : Str))
        ++ (if chain.isEmpty then [] else [propertiesMarker]) := by
  have hnone : ∀ properties : List Property,
      properties.flatMap (fun _ => ([] : List Str)) = [] := by
    intro properties
    induction properties with
    | nil => rfl
    | cons p ps ih => simp
  unfold ancestorSection
  simp only [hnone, List.append_nil]
  congr 1
  induction chain with
  | nil => rfl
  | cons c rest ih =>
    rw [List.flatMap_cons, ih]
    rfl

/-- The end of the source lines of a class: the empty `from_json` function and the
`to_json` function, which holds the marker lines and `return "";` only. -/
theorem classSourceLines_json_suffix (symbolTable : SymbolTable) (type : TypeClass)
    (chain : List TypeClass) (before : List Str) :
    (([ ("void " : Str) ++ type.name ++ "::from_json(const std::string& json)",
        "\x7b",
        "\x7d",
        "",
        ("std::string " : Str) ++ type.name ++ "::to_json() const",
        "\x7b" ] : List Str)
      ++ chain.map (fun parentClass =>
          ("    // Parent class " : Str) ++ parentClass.name ++ (" properties" : Str))
      ++ (if chain.isEmpty then [] else [("    // Properties" : Str)])
      ++ ([ "    return \"\";", "\x7d", "" ] : List Str))
      <:+ before ++ classSourceLines symbolTable type chain := by
  have hcons : ∀ (S l : List Str) (a : Str), S <:+ l → S <:+ a :: l :=
    fun S l a h => h.trans (List.suffix_cons a l)
  have happ : ∀ (S l l' : List Str), S <:+ l → S <:+ l' ++ l :=
    fun S l l' h => h.trans (List.suffix_append l' l)
  simp only [classSourceLines, ancestorSection_of_no_lines, List.append_assoc, List.cons_append,
    List.nil_append]
  repeat (first | exact List.suffix_refl _ | apply hcons | apply happ)

/-- C19 (as stated, refuted): for `Leaf : Mid : Base` with the properties a, b and c the
emitted `to_json` function holds the three marker lines and `return "";`, and no line for
any property. -/
theorem encodeClass_sample_to_json :
    (encodeClass 2 {} {} sampleSymbolTable sampleCollection sampleLeaf).map
        (fun result => (result.1, result.2.2.m_lines.dropWhile
          (fun line => line ≠ ("std::string Leaf::to_json() const" : Str))))
      = some (true,
          ([ "std::string Leaf::to_json() const",
            "\x7b",
            "    // Parent class Mid properties",
            "    // Parent class Base properties",
            "    // Properties",
            "    return \"\";",
            "\x7d",
            "" ] : List Str)) := by
  decide

/-- C19 (amended): for every class whose ancestors `chain` are all found, the class
encoder returns `true` and the emitted source ends with the `to_json` function, whose body
holds one marker line `// Parent class X properties` for each ancestor, the line
`// Properties` when there is an ancestor, and `return "";`: no line is emitted for any
property, because `encodePropertySerializationToJson` returns the empty string. -/
theorem encodeClass_to_json (fuel : Nat) (headerBuffer sourceBuffer : EncodeBuffer)
    (symbolTable : SymbolTable) (collection : TypeCollection) (type : TypeClass)
    (chain : List TypeClass)
    (hchain : isParentChain collection type.parent chain = true) (hfuel : chain.length ≤ fuel) :
    encodeClass fuel headerBuffer sourceBuffer symbolTable collection type
        = some (true, ⟨headerBuffer.m_lines ++ classHeaderLines type⟩,
            ⟨sourceBuffer.m_lines ++ classSourceLines symbolTable type chain⟩)
      ∧ (([ ("std::string " : Str) ++ type.name ++ "::to_json() const", "\x7b" ] : List Str)
          ++ chain.map (fun parentClass =>
              ("    // Parent class " : Str) ++ parentClass.name ++ (" properties" : Str))
          ++ (if chain.isEmpty then [] else [("    // Properties" : Str)])
          ++ ([ "    return \"\";", "\x7d", "" ] : List Str))
        <:+ sourceBuffer.m_lines ++ classSourceLines symbolTable type chain
      ∧ ∀ (offset : Str) (serialize : Bool) (property : Property),
          encodePropertySerializationToJson offset symbolTable serialize property = [] := by
  refine ⟨encodeClass_of_chain fuel headerBuffer sourceBuffer symbolTable collection type chain
    hchain hfuel, ?_, fun _ _ _ => rfl⟩
  refine List.IsSuffix.trans ?_
    (classSourceLines_json_suffix symbolTable type chain sourceBuffer.m_lines)
  simp only [List.append_assoc, List.cons_append, List.nil_append]
  exact (((List.suffix_cons _ _).trans (List.suffix_cons _ _)).trans
    (List.suffix_cons _ _)).trans (List.suffix_cons _ _)

/-- The amended C19 at the inheritance scenario. -/
theorem encodeClass_to_json_witness :
    isParentChain sampleCollection sampleLeaf.parent [sampleMid, sampleBase] = true
      ∧ [sampleMid, sampleBase].length ≤ 2
      ∧ (([ ("std::string " : Str) ++ sampleLeaf.name ++ "::to_json() const", "\x7b" ] : List Str)
          ++ [sampleMid, sampleBase].map (fun parentClass =>
              ("    // Parent class " : Str) ++ parentClass.name ++ (" properties" : Str))
          ++ (if [sampleMid, sampleBase].isEmpty then [] else [("    // Properties" : Str)])
          ++ ([ "    return \"\";", "\x7d", "" ] : List Str))
        <:+ ({} : EncodeBuffer).m_lines
          ++ classSourceLines sampleSymbolTable sampleLeaf [sampleMid, sampleBase] :=
  ⟨by decide, by decide,
    (encodeClass_to_json 2 {} {} sampleSymbolTable sampleCollection sampleLeaf
      [sampleMid, sampleBase] (by decide) (by decide)).2.1⟩

/-- C20 (as stated, refuted): for `Leaf : Mid : Base` with the properties a, b and c the
emitted `from_json` function has an empty body: its signature is followed by the opening
and the closing brace, and then `to_json` begins. -/
theorem encodeClass_sample_from_json :
    (encodeClass 2 {} {} sampleSymbolTable sampleCollection sampleLeaf).map
        (fun result => (result.1, (result.2.2.m_lines.dropWhile
          (fun line => line ≠ ("void Leaf::from_json(const std::string& json)" : Str))).take 5))
      = some (true,
          ([ "void Leaf::from_json(const std::string& json)",
            "\x7b",
            "\x7d",
            "",
            "std::string Leaf::to_json() const" ] : List Str)) := by
  decide

/-- C20 (amended): for every class whose ancestors `chain` are all found, the class
encoder returns `true` and the `from_json` function it emits has an empty body: the
signature `void X::from_json(const std::string& json)` is followed by the opening brace,
the closing brace and an empty line, after which the `to_json` function ends the source;
no statement splits the JSON text or parses a property. -/
theorem encodeClass_from_json (fuel : Nat) (headerBuffer sourceBuffer : EncodeBuffer)
    (symbolTable : SymbolTable) (collection : TypeCollection) (type : TypeClass)
    (chain : List TypeClass)
    (hchain : isParentChain collection type.parent chain = true) (hfuel : chain.length ≤ fuel) :
    encodeClass fuel headerBuffer sourceBuffer symbolTable collection type
        = some (true, ⟨headerBuffer.m_lines ++ classHeaderLines type⟩,
            ⟨sourceBuffer.m_lines ++ classSourceLines symbolTable type chain⟩)
      ∧ (([ ("void " : Str) ++ type.name ++ "::from_json(const std::string& json)",
            "\x7b",
            "\x7d",
            "",
            ("std::string " : Str) ++ type.name ++ "::to_json() const",
            "\x7b" ] : List Str)
          ++ chain.map (fun parentClass =>
              ("    // Parent class " : Str) ++ parentClass.name ++ (" properties" : Str))
          ++ (if chain.isEmpty then [] else [("    // Properties" : Str)])
          ++ ([ "    return \"\";", "\x7d", "" ] : List Str))
        <:+ sourceBuffer.m_lines ++ classSourceLines symbolTable type chain :=
  ⟨encodeClass_of_chain fuel headerBuffer sourceBuffer symbolTable collection type chain
    hchain hfuel, classSourceLines_json_suffix symbolTable type chain sourceBuffer.m_lines⟩

/-- The amended C20 at the inheritance scenario. -/
theorem encodeClass_from_json_witness :
    isParentChain sampleCollection sampleLeaf.parent [sampleMid, sampleBase] = true
      ∧ [sampleMid, sampleBase].length ≤ 2
      ∧ encodeClass 2 {} {} sampleSymbolTable sampleCollection sampleLeaf
        = some (true, ⟨[] ++ classHeaderLines sampleLeaf⟩,
            ⟨[] ++ classSourceLines sampleSymbolTable sampleLeaf [sampleMid, sampleBase]⟩) :=
  ⟨by decide, by decide,
    (encodeClass_from_json 2 {} {} sampleSymbolTable sampleCollection sampleLeaf
      [sampleMid, sampleBase] (by decide) (by decide)).1⟩

end Encoder

/-! ## The enum encoder: claim C21 -/

namespace Encoder

theorem m_lines_foldl_options (name : Str) (options : List Str) (buffer : EncodeBuffer) :
    (options.foldl (fun sourceBuffer option =>
        EncodeBuffer.push_lineAll sourceBuffer
          [("        \x7b \"" : Str), option, "\", static_cast<int>(", name, "::", option,
            ") \x7d, "]) buffer).m_lines
      = buffer.m_lines ++ options.map (fun option =>
          ("        \x7b \"" : Str) ++ option ++ "\", static_cast<int>(" ++ name ++ "::"
            ++ option ++ ") \x7d, ") := by
  induction options generalizing buffer with
  | nil => simp
  | cons o os ih =>
    rw [List.foldl_cons, ih, EncodeBuffer.m_lines_push_lineAll]
    simp

/-- The enum encoder returns `true` and adds the lines of `enumHeaderLines` and
`enumSourceLines` to the two buffers. -/
theorem encodeEnum_eq (headerBuffer sourceBuffer : EncodeBuffer) (symbolTable : SymbolTable)
    (type : TypeEnum) :
    encodeEnum headerBuffer sourceBuffer symbolTable type
      = (true, ⟨headerBuffer.m_lines ++ enumHeaderLines type⟩,
          ⟨sourceBuffer.m_lines ++ enumSourceLines type⟩) := by
  unfold encodeEnum
  dsimp only
  congr 2
  · apply encodeBuffer_eq
    simp only [EncodeBuffer.m_lines_push_line, EncodeBuffer.m_lines_push_lineAll, enumHeaderLines]
    simp
  · apply encodeBuffer_eq
    simp only [EncodeBuffer.m_lines_push_line, EncodeBuffer.m_lines_push_lineAll,
      m_lines_foldl_options, enumSourceLines]
    simp

/-- C21: for every enum the enum encoder returns `true` and appends to the source buffer
exactly the `name()` body, the `values()` signature, the opening brace, the line that opens
the table, one line for each option in declaration order, and the four closing lines; for
`ApplicationMode` with Editor, Server and Standalone these are the lines of the checked-in
sample. -/
theorem encodeEnum_source_lines (headerBuffer sourceBuffer : EncodeBuffer)
    (symbolTable : SymbolTable) (type : TypeEnum) :
    (encodeEnum headerBuffer sourceBuffer symbolTable type).1 = true
      ∧ (encodeEnum headerBuffer sourceBuffer symbolTable type).2.2.m_lines
        = sourceBuffer.m_lines
          ++ ([ ("const char* const reflect::Enum<" : Str) ++ type.name
                ++ ">::name() \x7b return \"" ++ type.name ++ "\"; \x7d",
              ("const reflect::enum_values_t& reflect::Enum<" : Str) ++ type.name
                ++ ">::values()",
              "\x7b",
              "    static reflect::enum_values_t s_values\x7b" ] : List Str)
          ++ type.options.map (fun option =>
              ("        \x7b \"" : Str) ++ option ++ "\", static_cast<int>(" ++ type.name
                ++ "::" ++ option ++ ") \x7d, ")
          ++ ([ "    \x7d;", "    return s_values;", "\x7d", "" ] : List Str)
      ∧ (encodeEnum {} {} [] sampleEnum).2.2.m_lines
        = ([ "const char* const reflect::Enum<ApplicationMode>::name() \x7b return \"ApplicationMode\"; \x7d",
            "const reflect::enum_values_t& reflect::Enum<ApplicationMode>::values()",
            "\x7b",
            "    static reflect::enum_values_t s_values\x7b",
            "        \x7b \"Editor\", static_cast<int>(ApplicationMode::Editor) \x7d, ",
            "        \x7b \"Server\", static_cast<int>(ApplicationMode::Server) \x7d, ",
            "        \x7b \"Standalone\", static_cast<int>(ApplicationMode::Standalone) \x7d, ",
            "    \x7d;",
            "    return s_values;",
            "\x7d",
            "" ] : List Str) := by
  refine ⟨?_, ?_, by decide⟩
  · rw [encodeEnum_eq]
  · rw [encodeEnum_eq]
    simp only [enumSourceLines, List.append_assoc]

end Encoder

/-! ## Parent walks that fail or do not end: lemmas for claims C25 and C29 -/

namespace Encoder

/-- A parent walk along a chain that breaks off at a name that is not found returns
`false`, in the iteration after the last ancestor found. -/
theorem walkParents_of_broken_chain (collection : TypeCollection) (marker : Str)
    (emit : EncodeBuffer → Property → EncodeBuffer) :
    ∀ (chain : List TypeClass) (fuel : Nat) (parent_name : Str) (has_parent : Bool)
      (sourceBuffer : EncodeBuffer),
      isBrokenChain collection parent_name chain = true → chain.length + 1 ≤ fuel →
      ∃ sourceBuffer', walkParents collection marker emit fuel parent_name has_parent sourceBuffer
        = some (ParentWalk.missing sourceBuffer') := by
  intro chain
  induction chain with
  | nil =>
    intro fuel parent_name has_parent sourceBuffer hchain hfuel
    simp only [isBrokenChain, Bool.and_eq_true, decide_eq_true_eq] at hchain
    have hne2 : ¬ parent_name = ("IType" : Str) := by simpa using hchain.1
    cases fuel with
    | zero => simp at hfuel
    | succ k =>
      unfold walkParents
      simp only [hne2, ↓reduceIte, hchain.2]
      exact ⟨_, rfl⟩
  | cons c rest ih =>
    intro fuel parent_name has_parent sourceBuffer hchain hfuel
    simp only [isBrokenChain, Bool.and_eq_true, decide_eq_true_eq] at hchain
    obtain ⟨⟨hne, hfind⟩, hrest⟩ := hchain
    have hne2 : ¬ parent_name = ("IType" : Str) := by simpa using hne
    cases fuel with
    | zero => simp at hfuel
    | succ k =>
      unfold walkParents
      simp only [hne2, ↓reduceIte, hfind]
      exact ih k c.parent true _ hrest (by simpa using hfuel)

/-- A parent walk that is still running when the bound is reached gives no result. -/
theorem walkParents_of_exhausts (collection : TypeCollection) (marker : Str)
    (emit : EncodeBuffer → Property → EncodeBuffer) :
    ∀ (fuel : Nat) (parent_name : Str) (has_parent : Bool) (sourceBuffer : EncodeBuffer),
      walkExhausts collection fuel parent_name = true →
      walkParents collection marker emit fuel parent_name has_parent sourceBuffer = none := by
  intro fuel
  induction fuel with
  | zero =>
    intro parent_name has_parent sourceBuffer h
    simp only [walkExhausts, decide_eq_true_eq] at h
    have hne2 : ¬ parent_name = ("IType" : Str) := by simpa using h
    unfold walkParents
    simp only [hne2, ↓reduceIte]
  | succ k ih =>
    intro parent_name has_parent sourceBuffer h
    simp only [walkExhausts, Bool.and_eq_true, decide_eq_true_eq] at h
    have hne2 : ¬ parent_name = ("IType" : Str) := by simpa using h.1
    unfold walkParents
    simp only [hne2, ↓reduceIte]
    cases hfind : collection.findClass parent_name with
    | none => simp [hfind] at h
    | some c =>
      simp only [hfind] at h
      simp only
      exact ih c.parent true _ h.2

/-- Every walk is of one of three kinds: it ends at the sentinel, it breaks off at a name
that is not found, or it is still running when the bound is reached. -/
theorem walk_trichotomy (collection : TypeCollection) :
    ∀ (fuel : Nat) (parent_name : Str),
      isParentChain collection parent_name (ancestorsOf collection fuel parent_name) = true
      ∨ (isBrokenChain collection parent_name (ancestorsOf collection fuel parent_name) = true
          ∧ (ancestorsOf collection fuel parent_name).length + 1 ≤ fuel)
      ∨ walkExhausts collection fuel parent_name = true := by
  intro fuel
  induction fuel with
  | zero =>
    intro parent_name
    by_cases hne : parent_name = ("IType" : Str)
    · left
      simp only [ancestorsOf, isParentChain, decide_eq_true_eq]
      exact hne
    · right; right
      simp only [walkExhausts, decide_eq_true_eq]
      exact hne
  | succ k ih =>
    intro parent_name
    by_cases hne : parent_name = ("IType" : Str)
    · left
      simp only [ancestorsOf, hne, ↓reduceIte, isParentChain, decide_eq_true_eq]
    · cases hfind : collection.findClass parent_name with
      | none =>
        right; left
        simp only [ancestorsOf, hne, ↓reduceIte, hfind, isBrokenChain, Bool.and_eq_true,
          decide_eq_true_eq, List.length_nil]
        exact ⟨⟨hne, trivial⟩, by omega⟩
      | some c =>
        rcases ih c.parent with h | ⟨h, hlen⟩ | h
        · left
          simp only [ancestorsOf, hne, ↓reduceIte, hfind, isParentChain, Bool.and_eq_true,
            decide_eq_true_eq, h]
          exact ⟨⟨hne, trivial⟩, trivial⟩
        · right; left
          simp only [ancestorsOf, hne, ↓reduceIte, hfind, isBrokenChain, Bool.and_eq_true,
            decide_eq_true_eq, h, List.length_cons]
          exact ⟨⟨⟨hne, trivial⟩, trivial⟩, by omega⟩
        · right; right
          simp only [walkExhausts, hfind, Bool.and_eq_true, decide_eq_true_eq, h]
          exact ⟨hne, trivial⟩

theorem length_ancestorsOf_le (collection : TypeCollection) :
    ∀ (fuel : Nat) (parent_name : Str), (ancestorsOf collection fuel parent_name).length ≤ fuel := by
  intro fuel
  induction fuel with
  | zero => intro _; simp [ancestorsOf]
  | succ k ih =>
    intro parent_name
    unfold ancestorsOf
    split
    · simp
    · split
      · simp
      · simpa using ih _

/-- The class encoder on a class whose parent chain breaks off at a name that is not
found: it returns `false` once the bound covers the names of the chain. -/
theorem encodeClass_of_broken_chain (fuel : Nat) (headerBuffer sourceBuffer : EncodeBuffer)
    (symbolTable : SymbolTable) (collection : TypeCollection) (type : TypeClass)
    (chain : List TypeClass)
    (hchain : isBrokenChain collection type.parent chain = true)
    (hfuel : chain.length + 1 ≤ fuel) :
    ∃ headerBuffer' sourceBuffer',
      encodeClass fuel headerBuffer sourceBuffer symbolTable collection type
        = some (false, headerBuffer', sourceBuffer') := by
  unfold encodeClass
  dsimp only
  obtain ⟨sb', hw⟩ := walkParents_of_broken_chain collection "        // Parent class "
    (pushReflection symbolTable type.name) chain fuel type.parent false _ hchain hfuel
  rw [hw]
  exact ⟨_, _, rfl⟩

/-- The class encoder gives no result when the parent walk is still running at the
bound. -/
theorem encodeClass_of_exhausts (fuel : Nat) (headerBuffer sourceBuffer : EncodeBuffer)
    (symbolTable : SymbolTable) (collection : TypeCollection) (type : TypeClass)
    (h : walkExhausts collection fuel type.parent = true) :
    encodeClass fuel headerBuffer sourceBuffer symbolTable collection type = none := by
  unfold encodeClass
  dsimp only
  rw [walkParents_of_exhausts collection _ _ fuel type.parent false _ h]

/-- A class encoder that returns `true` has walked a chain that ends at the sentinel, and
has added the lines of the class for that chain. -/
theorem encodeClass_eq_true (fuel : Nat) (headerBuffer sourceBuffer : EncodeBuffer)
    (symbolTable : SymbolTable) (collection : TypeCollection) (type : TypeClass)
    (headerBuffer' sourceBuffer' : EncodeBuffer)
    (h : encodeClass fuel headerBuffer sourceBuffer symbolTable collection type
      = some (true, headerBuffer', sourceBuffer')) :
    isParentChain collection type.parent (ancestorsOf collection fuel type.parent) = true
      ∧ headerBuffer' = ⟨headerBuffer.m_lines ++ classHeaderLines type⟩
      ∧ sourceBuffer' = ⟨sourceBuffer.m_lines
          ++ classSourceLines symbolTable type (ancestorsOf collection fuel type.parent)⟩ := by
  rcases walk_trichotomy collection fuel type.parent with hc | ⟨hb, hlen⟩ | he
  · rw [encodeClass_of_chain fuel headerBuffer sourceBuffer symbolTable collection type _ hc
      (length_ancestorsOf_le collection fuel type.parent)] at h
    simp only [Option.some.injEq, Prod.mk.injEq, true_and] at h
    exact ⟨hc, h.1.symm, h.2.symm⟩
  · obtain ⟨hb', sb', heq⟩ := encodeClass_of_broken_chain fuel headerBuffer sourceBuffer
      symbolTable collection type _ hb hlen
    rw [heq] at h
    simp at h
  · rw [encodeClass_of_exhausts fuel headerBuffer sourceBuffer symbolTable collection type he] at h
    cases h

end Encoder

/-! ## The buffers of the top-level encoder: claims C22 and C23 -/

namespace Encoder

theorem findEnum_name (collection : TypeCollection) (name : Str) (e : TypeEnum)
    (h : collection.findEnum name = some e) : e.name = name := by
  unfold TypeCollection.findEnum at h
  have := List.find?_some h
  simpa using this

/-- The loop over the symbol list, when it does not return `false`, adds to the two lists
the enums and the classes that the list names, each kind in the order of the list. -/
theorem collectSymbols_eq_some (collection : TypeCollection) (symbolTable : SymbolTable) :
    ∀ (symbolList : List Str) (enums : List TypeEnum) (classes : List TypeClass)
      (enums' : List TypeEnum) (classes' : List TypeClass),
      collectSymbols collection symbolTable symbolList enums classes = some (enums', classes') →
      enums' = enums ++ listedEnums collection symbolTable symbolList
        ∧ classes' = classes ++ listedClasses collection symbolTable symbolList
        ∧ (listedEnums collection symbolTable symbolList).map (fun e => e.name)
          = symbolList.filter (fun name => symbolTable.lookup name = some SymbolType.S_enum)
        ∧ (listedClasses collection symbolTable symbolList).map (fun c => c.name)
          = symbolList.filter (fun name => symbolTable.lookup name = some SymbolType.S_class)
        ∧ (listedEnums collection symbolTable symbolList).length
            + (listedClasses collection symbolTable symbolList).length = symbolList.length := by
  intro symbolList
  induction symbolList with
  | nil =>
    intro enums classes enums' classes' h
    simp only [collectSymbols, Option.some.injEq, Prod.mk.injEq] at h
    simp [listedEnums, listedClasses, h.1, h.2]
  | cons name rest ih =>
    intro enums classes enums' classes' h
    unfold collectSymbols at h
    cases hl : symbolTable.lookup name with
    | none => simp [hl] at h
    | some type =>
      simp only [hl] at h
      cases type with
      | S_class =>
        simp only [↓reduceIte] at h
        cases hf : collection.findClass name with
        | none => simp [hf] at h
        | some c =>
          simp only [hf] at h
          obtain ⟨h1, h2, h3, h4, h5⟩ := ih _ _ _ _ h
          have hname := findClass_name collection name c hf
          refine ⟨?_, ?_, ?_, ?_, ?_⟩
          · simpa [listedEnums, hl] using h1
          · simpa [listedClasses, hl, hf] using h2
          · simpa [listedEnums, hl] using h3
          · simp only [listedClasses, List.filterMap_cons, hl, ↓reduceIte, hf, List.map_cons,
              hname, decide_True, List.filter_cons_of_pos, List.cons.injEq, true_and]
            exact h4
          · simp only [listedEnums, listedClasses, List.filterMap_cons, hl, reduceCtorEq,
              ↓reduceIte, hf, List.length_cons, Option.some.injEq]
            simp only [listedEnums, listedClasses] at h5
            omega
      | S_enum =>
        simp only [reduceCtorEq, ↓reduceIte] at h
        cases hf : collection.findEnum name with
        | none => simp [hf] at h
        | some e =>
          simp only [hf] at h
          obtain ⟨h1, h2, h3, h4, h5⟩ := ih _ _ _ _ h
          have hname := findEnum_name collection name e hf
          refine ⟨?_, ?_, ?_, ?_, ?_⟩
          · simpa [listedEnums, hl, hf] using h1
          · simpa [listedClasses, hl] using h2
          · simp only [listedEnums, List.filterMap_cons, hl, ↓reduceIte, hf, List.map_cons,
              hname, decide_True, List.filter_cons_of_pos, List.cons.injEq, true_and]
            exact h3
          · simpa [listedClasses, hl] using h4
          · simp only [listedEnums, listedClasses, List.filterMap_cons, hl, reduceCtorEq,
              ↓reduceIte, hf, List.length_cons, Option.some.injEq]
            simp only [listedEnums, listedClasses] at h5
            omega

theorem encodeEnums_eq (symbolTable : SymbolTable) :
    ∀ (enums : List TypeEnum) (header_buffer source_buffer : EncodeBuffer),
      encodeEnums symbolTable enums header_buffer source_buffer
        = some (⟨header_buffer.m_lines ++ enums.flatMap enumHeaderLines⟩,
            ⟨source_buffer.m_lines ++ enums.flatMap enumSourceLines⟩) := by
  intro enums
  induction enums with
  | nil => intro hb sb; simp [encodeEnums]
  | cons e es ih =>
    intro hb sb
    unfold encodeEnums
    rw [encodeEnum_eq]
    simp only [ih]
    simp

theorem encodeClasses_eq_some (fuel : Nat) (symbolTable : SymbolTable)
    (collection : TypeCollection) :
    ∀ (classes : List TypeClass) (header_buffer source_buffer header_buffer' source_buffer' :
        EncodeBuffer),
      encodeClasses fuel symbolTable collection classes header_buffer source_buffer
        = some (some (header_buffer', source_buffer')) →
      header_buffer'.m_lines = header_buffer.m_lines ++ classes.flatMap classHeaderLines
        ∧ source_buffer'.m_lines = source_buffer.m_lines
          ++ classes.flatMap (fun eClass =>
              classSourceLines symbolTable eClass (ancestorsOf collection fuel eClass.parent))
        ∧ ∀ eClass ∈ classes,
            isParentChain collection eClass.parent (ancestorsOf collection fuel eClass.parent)
              = true := by
  intro classes
  induction classes with
  | nil =>
    intro hb sb hb' sb' h
    simp only [encodeClasses, Option.some.injEq, Prod.mk.injEq] at h
    simp [← h.1, ← h.2]
  | cons c cs ih =>
    intro hb sb hb' sb' h
    unfold encodeClasses at h
    cases hc : encodeClass fuel hb sb symbolTable collection c with
    | none => simp [hc] at h
    | some r =>
      obtain ⟨flag, hb1, sb1⟩ := r
      cases flag with
      | false => simp [hc] at h
      | true =>
        simp only [hc] at h
        obtain ⟨hchain, h1, h2⟩ := encodeClass_eq_true fuel hb sb symbolTable collection c hb1 sb1 hc
        obtain ⟨i1, i2, i3⟩ := ih hb1 sb1 hb' sb' h
        refine ⟨?_, ?_, ?_⟩
        · rw [i1, h1]; simp
        · rw [i2, h2]; simp
        · intro eClass hmem
          rcases List.mem_cons.mp hmem with rfl | hmem
          · exact hchain
          · exact i3 eClass hmem

/-- The two buffers of a top-level encoder that does not return `false`: the banner, one
block for each enum that the symbol list names and then one block for each class that it
names, each kind in the order of the list. -/
theorem encodeBuffers_eq_some (fuel : Nat) (symbolList : List Str) (collection : TypeCollection)
    (symbolTable : SymbolTable) (filename : Str) (header_buffer source_buffer : EncodeBuffer)
    (h : encodeBuffers fuel symbolList collection symbolTable filename
      = some (some (header_buffer, source_buffer))) :
    header_buffer.m_lines = headerBanner
        ++ (listedEnums collection symbolTable symbolList).flatMap enumHeaderLines
        ++ (listedClasses collection symbolTable symbolList).flatMap classHeaderLines
      ∧ source_buffer.m_lines = sourceBanner filename
        ++ (listedEnums collection symbolTable symbolList).flatMap enumSourceLines
        ++ (listedClasses collection symbolTable symbolList).flatMap (fun eClass =>
            classSourceLines symbolTable eClass (ancestorsOf collection fuel eClass.parent))
      ∧ (listedEnums collection symbolTable symbolList).map (fun e => e.name)
          = symbolList.filter (fun name => symbolTable.lookup name = some SymbolType.S_enum)
      ∧ (listedClasses collection symbolTable symbolList).map (fun c => c.name)
          = symbolList.filter (fun name => symbolTable.lookup name = some SymbolType.S_class)
      ∧ (listedEnums collection symbolTable symbolList).length
          + (listedClasses collection symbolTable symbolList).length = symbolList.length := by
  unfold encodeBuffers at h
  dsimp only at h
  cases hcol : collectSymbols collection symbolTable symbolList [] [] with
  | none => simp [hcol] at h
  | some r =>
    obtain ⟨enums, classes⟩ := r
    obtain ⟨he, hc, h3, h4, h5⟩ := collectSymbols_eq_some collection symbolTable symbolList
      [] [] enums classes hcol
    simp only [List.nil_append] at he hc
    simp only [hcol, encodeEnums_eq] at h
    obtain ⟨i1, i2, _⟩ := encodeClasses_eq_some fuel symbolTable collection classes _ _ _ _ h
    refine ⟨?_, ?_, h3, h4, h5⟩
    · rw [i1, hc, he]
      simp only [EncodeBuffer.m_lines_push_line, headerBanner]
      simp
    · rw [i2, hc, he]
      simp only [EncodeBuffer.m_lines_push_line, EncodeBuffer.m_lines_push_lineAll, sourceBanner]
      simp

end Encoder

/-! ## Lemmas on the file system and on `generate` -/

namespace FileSystem

theorem lookup_write_same (fs : FileSystem) (filename content : Str) :
    (fs.write filename content).files.lookup filename = some content := by
  simp [write, List.lookup]

theorem lookup_filter_ne (files : List (Str × Str)) (filename other : Str)
    (h : other ≠ filename) :
    (files.filter (fun file => file.1 ≠ filename)).lookup other = files.lookup other := by
  induction files with
  | nil => rfl
  | cons f fs ih =>
    obtain ⟨p, c⟩ := f
    by_cases hp : p = filename
    · subst hp
      have hop : (other == p) = false := beq_false_of_ne h
      simp only [List.filter, ne_eq, not_true_eq_false, decide_False, List.lookup, hop]
      exact ih
    · have hdec : decide (p ≠ filename) = true := by simpa using hp
      simp only [List.filter, hdec, List.lookup]
      rw [ih]

theorem lookup_write_other (fs : FileSystem) (filename content other : Str)
    (h : other ≠ filename) :
    (fs.write filename content).files.lookup other = fs.files.lookup other := by
  have hne : (other == filename) = false := beq_false_of_ne h
  simp only [write, List.lookup, hne]
  exact lookup_filter_ne fs.files filename other h

theorem is_open_write (fs : FileSystem) (filename content other : Str) :
    (fs.write filename content).is_open other = fs.is_open other := rfl

end FileSystem

namespace Encoder

theorem previousContent_congr (fs fs' : FileSystem) (filename : Str)
    (h : fs'.files.lookup filename = fs.files.lookup filename) :
    previousContent fs' filename = previousContent fs filename := by
  simp only [previousContent, FileSystem.exists, FileSystem.read, h]

theorem previousContent_write_same (fs : FileSystem) (filename content : Str) :
    previousContent (fs.write filename content) filename = content := by
  simp only [previousContent, FileSystem.exists, FileSystem.read,
    FileSystem.lookup_write_same, Option.isSome_some, ↓reduceIte, Option.getD_some]

theorem previousContent_write_other (fs : FileSystem) (filename content other : Str)
    (h : other ≠ filename) :
    previousContent (fs.write filename content) other = previousContent fs other :=
  previousContent_congr _ _ _ (FileSystem.lookup_write_other fs filename content other h)

/-- The three ways of `generate`: nothing to write, a stream that cannot be opened, a
write. -/
theorem generate_eq (fs : FileSystem) (buffer : EncodeBuffer) (filename : Str) :
    generate fs buffer filename
      = if previousContent fs filename = buffer.string true then (true, fs, [])
        else if fs.is_open filename = false then (false, fs, [])
        else (true, fs.write filename (buffer.string true), [filename]) := by
  unfold generate previousContent
  dsimp only
  by_cases h : (if fs.exists filename = true then fs.read filename else ("" : Str))
      = buffer.string true
  · simp only [h, ne_eq, not_true_eq_false, ↓reduceIte]
  · simp only [h, ne_eq, not_false_eq_true, ↓reduceIte]
    cases ho : fs.is_open filename <;> simp

end Encoder

/-! ## Lemmas on the top-level encoder and the file system -/

namespace Encoder

theorem encode_of_fuel_out (fuel : Nat) (fs : FileSystem) (symbolList : List Str)
    (collection : TypeCollection) (symbolTable : SymbolTable) (path filename : Str)
    (h : encodeBuffers fuel symbolList collection symbolTable filename = none) :
    encode fuel fs symbolList collection symbolTable path filename = none := by
  unfold encode
  simp only [h]

theorem encode_of_no_buffers (fuel : Nat) (fs : FileSystem) (symbolList : List Str)
    (collection : TypeCollection) (symbolTable : SymbolTable) (path filename : Str)
    (h : encodeBuffers fuel symbolList collection symbolTable filename = some none) :
    encode fuel fs symbolList collection symbolTable path filename = some (false, fs, []) := by
  unfold encode
  simp only [h]

/-- With the two buffers at hand, `encode` is the two calls of `generate` (lines 148-150),
spelled out by cases. -/
theorem encode_of_buffers (fuel : Nat) (fs : FileSystem) (symbolList : List Str)
    (collection : TypeCollection) (symbolTable : SymbolTable) (path filename : Str)
    (header_buffer source_buffer : EncodeBuffer)
    (h : encodeBuffers fuel symbolList collection symbolTable filename
      = some (some (header_buffer, source_buffer))) :
    encode fuel fs symbolList collection symbolTable path filename
      = if previousContent fs (outHeaderFilename path filename) = header_buffer.string true then
          if previousContent fs (outSourceFilename path filename) = source_buffer.string true then
            some (true, fs, [])
          else if fs.is_open (outSourceFilename path filename) = false then some (false, fs, [])
          else some (true, fs.write (outSourceFilename path filename) (source_buffer.string true),
            [outSourceFilename path filename])
        else if fs.is_open (outHeaderFilename path filename) = false then some (false, fs, [])
        else if previousContent
            (fs.write (outHeaderFilename path filename) (header_buffer.string true))
            (outSourceFilename path filename) = source_buffer.string true then
          some (true, fs.write (outHeaderFilename path filename) (header_buffer.string true),
            [outHeaderFilename path filename])
        else if fs.is_open (outSourceFilename path filename) = false then
          some (false, fs.write (outHeaderFilename path filename) (header_buffer.string true),
            [outHeaderFilename path filename])
        else
          some (true, (fs.write (outHeaderFilename path filename)
              (header_buffer.string true)).write (outSourceFilename path filename)
              (source_buffer.string true),
            [outHeaderFilename path filename, outSourceFilename path filename]) := by
  unfold encode
  simp only [h, generate_eq, FileSystem.is_open_write]
  rw [show joinPath path (StringUtil.replace filename ".h" "_generated.h")
    = outHeaderFilename path filename from rfl,
    show joinPath path (StringUtil.replace filename ".h" "_generated.cpp")
    = outSourceFilename path filename from rfl]
  by_cases h1 : previousContent fs (outHeaderFilename path filename) = header_buffer.string true
  · by_cases h2 : previousContent fs (outSourceFilename path filename)
        = source_buffer.string true
    · simp only [h1, h2, ↓reduceIte, List.nil_append]
    · cases h3 : fs.is_open (outSourceFilename path filename) <;>
        simp only [h1, h2, h3, ↓reduceIte, List.nil_append, Bool.true_eq_false]
  · cases h4 : fs.is_open (outHeaderFilename path filename)
    · simp only [h1, h4, ↓reduceIte]
    · by_cases h2 : previousContent
          (fs.write (outHeaderFilename path filename) (header_buffer.string true))
          (outSourceFilename path filename) = source_buffer.string true
      · simp only [h1, h2, h4, ↓reduceIte, Bool.true_eq_false, List.append_nil]
      · cases h3 : fs.is_open (outSourceFilename path filename) <;>
          simp only [h1, h2, h3, h4, ↓reduceIte, Bool.true_eq_false, List.singleton_append,
            List.append_nil, FileSystem.is_open_write]

end Encoder

namespace Encoder

theorem collectSymbols_of_missing (collection : TypeCollection) (symbolTable : SymbolTable)
    (symbolList : List Str) (h : ∃ name ∈ symbolList, symbolTable.lookup name = none) :
    ∀ (enums : List TypeEnum) (classes : List TypeClass),
      collectSymbols collection symbolTable symbolList enums classes = none := by
  induction symbolList with
  | nil =>
    obtain ⟨name, hmem, _⟩ := h
    cases hmem
  | cons first rest ih =>
    intro enums classes
    unfold collectSymbols
    cases hfirst : symbolTable.lookup first with
    | none => rfl
    | some type =>
      have hrest : ∃ name ∈ rest, symbolTable.lookup name = none := by
        obtain ⟨name, hmem, hname⟩ := h
        rcases List.mem_cons.mp hmem with heq | hin
        · rw [heq, hfirst] at hname
          cases hname
        · exact ⟨name, hin, hname⟩
      dsimp only
      split_ifs
      · cases collection.findClass first with
        | none => rfl
        | some eClass => exact ih hrest _ _
      · cases collection.findEnum first with
        | none => rfl
        | some eEnum => exact ih hrest _ _

theorem encodeBuffers_of_missing (fuel : Nat) (symbolList : List Str)
    (collection : TypeCollection) (symbolTable : SymbolTable) (filename : Str)
    (h : ∃ name ∈ symbolList, symbolTable.lookup name = none) :
    encodeBuffers fuel symbolList collection symbolTable filename = some none := by
  unfold encodeBuffers
  simp only [collectSymbols_of_missing collection symbolTable symbolList h]

end Encoder

namespace Encoder

/-- A call of `encode` that returns `true` had both buffers at hand, and leaves the source
buffer's content at the source path. -/
theorem encode_succeeds (fuel : Nat) (fs : FileSystem) (symbolList : List Str)
    (collection : TypeCollection) (symbolTable : SymbolTable) (path filename : Str)
    (hsuccess : (encode fuel fs symbolList collection symbolTable path filename).map
      (fun result => result.1) = some true) :
    ∃ header_buffer source_buffer fs' written,
      encodeBuffers fuel symbolList collection symbolTable filename
        = some (some (header_buffer, source_buffer))
      ∧ encode fuel fs symbolList collection symbolTable path filename
        = some (true, fs', written)
      ∧ previousContent fs' (outSourceFilename path filename) = source_buffer.string true := by
  cases hbuf : encodeBuffers fuel symbolList collection symbolTable filename with
  | none =>
    rw [encode_of_fuel_out _ _ _ _ _ _ _ hbuf] at hsuccess
    cases hsuccess
  | some buffers =>
    cases buffers with
    | none =>
      rw [encode_of_no_buffers _ _ _ _ _ _ _ hbuf] at hsuccess
      simp at hsuccess
    | some pair =>
      obtain ⟨header_buffer, source_buffer⟩ := pair
      refine ⟨header_buffer, source_buffer, ?_⟩
      rw [encode_of_buffers _ _ _ _ _ _ _ _ _ hbuf] at hsuccess ⊢
      by_cases h1 : previousContent fs (outHeaderFilename path filename)
          = header_buffer.string true
      · by_cases h2 : previousContent fs (outSourceFilename path filename)
            = source_buffer.string true
        · exact ⟨fs, [], rfl, by simp only [h1, h2, ↓reduceIte], h2⟩
        · cases h3 : fs.is_open (outSourceFilename path filename)
          · simp [h1, h2, h3] at hsuccess
          · exact ⟨fs.write (outSourceFilename path filename) (source_buffer.string true),
              [outSourceFilename path filename], rfl,
              by simp only [h1, h2, h3, ↓reduceIte, Bool.true_eq_false],
              previousContent_write_same _ _ _⟩
      · cases h4 : fs.is_open (outHeaderFilename path filename)
        · simp [h1, h4] at hsuccess
        · by_cases h2 : previousContent
              (fs.write (outHeaderFilename path filename) (header_buffer.string true))
              (outSourceFilename path filename) = source_buffer.string true
          · exact ⟨fs.write (outHeaderFilename path filename) (header_buffer.string true),
              [outHeaderFilename path filename], rfl,
              by simp only [h1, h2, h4, ↓reduceIte, Bool.true_eq_false], h2⟩
          · cases h3 : fs.is_open (outSourceFilename path filename)
            · simp [h1, h2, h3, h4] at hsuccess
            · exact ⟨(fs.write (outHeaderFilename path filename)
                  (header_buffer.string true)).write (outSourceFilename path filename)
                  (source_buffer.string true),
                [outHeaderFilename path filename, outSourceFilename path filename], rfl,
                by simp only [h1, h2, h3, h4, ↓reduceIte, Bool.true_eq_false],
                previousContent_write_same _ _ _⟩

end Encoder

/-! ## The order and the layout of the blocks: claims C22 and C23 -/

namespace Encoder

/-- Claim C22, counterexample: for the symbol list `[ClassA, EnumB]` the call of `encode`
succeeds, and in the header buffer as in the source buffer the block of `EnumB` comes
before the block of `ClassA`: the blocks are not in the order of the list. -/
theorem encode_interleaved_order :
    (encode 0 emptyFileSystem ["ClassA", "EnumB"] sampleMixedCollection sampleMixedTable
        "out" "test.h").map (fun result => result.1) = some true
      ∧ (encodeBuffers 0 ["ClassA", "EnumB"] sampleMixedCollection sampleMixedTable
          "test.h").map (Option.map (fun buffers =>
            (buffers.1.m_lines.filter (fun line => line ∈ sampleMixedLandmarks),
              buffers.2.m_lines.filter (fun line => line ∈ sampleMixedLandmarks))))
        = some (some
          (([ "struct reflect::Enum<enum class EnumB> : reflect::RegisteredInEnumFactory<enum class EnumB>",
              "struct reflect::Type<class ClassA> : reflect::RegisteredInTypeFactory<class ClassA>" ]
              : List Str),
            ([ "const char* const reflect::Enum<EnumB>::name() \x7b return \"EnumB\"; \x7d",
              "const reflect::meta_t& reflect::Type<ClassA>::meta()" ] : List Str))) := by
  decide

/-- Claim C22, amended: when `encode` succeeds, the blocks of both buffers follow the
banner in the emission order of the symbol list, which is the enum names in the order of
the list followed by the class names in the order of the list; the order of the list is
kept within each kind only. -/
theorem encode_block_order (fuel : Nat) (fs : FileSystem) (symbolList : List Str)
    (collection : TypeCollection) (symbolTable : SymbolTable) (path filename : Str)
    (hsuccess : (encode fuel fs symbolList collection symbolTable path filename).map
      (fun result => result.1) = some true) :
    ∃ header_buffer source_buffer,
      encodeBuffers fuel symbolList collection symbolTable filename
        = some (some (header_buffer, source_buffer))
      ∧ (listedEnums collection symbolTable symbolList).map (fun e => e.name)
          ++ (listedClasses collection symbolTable symbolList).map (fun c => c.name)
        = emissionOrder symbolTable symbolList
      ∧ header_buffer.m_lines = headerBanner
        ++ ((listedEnums collection symbolTable symbolList).flatMap enumHeaderLines
          ++ (listedClasses collection symbolTable symbolList).flatMap classHeaderLines)
      ∧ source_buffer.m_lines = sourceBanner filename
        ++ ((listedEnums collection symbolTable symbolList).flatMap enumSourceLines
          ++ (listedClasses collection symbolTable symbolList).flatMap (fun eClass =>
            classSourceLines symbolTable eClass
              (ancestorsOf collection fuel eClass.parent))) := by
  obtain ⟨header_buffer, source_buffer, _, _, hbuf, _, _⟩ :=
    encode_succeeds fuel fs symbolList collection symbolTable path filename hsuccess
  obtain ⟨hh, hs, he, hc, _⟩ := encodeBuffers_eq_some fuel symbolList collection symbolTable
    filename header_buffer source_buffer hbuf
  refine ⟨header_buffer, source_buffer, hbuf, ?_, ?_, ?_⟩
  · rw [he, hc]
    rfl
  · rw [hh, List.append_assoc]
  · rw [hs, List.append_assoc]

/-- Witness of `encode_block_order` on the symbol list `[ClassA, EnumB]`. -/
theorem encode_block_order_witness :
    ∃ header_buffer source_buffer,
      encodeBuffers 0 ["ClassA", "EnumB"] sampleMixedCollection sampleMixedTable "test.h"
        = some (some (header_buffer, source_buffer))
      ∧ (listedEnums sampleMixedCollection sampleMixedTable ["ClassA", "EnumB"]).map
            (fun e => e.name)
          ++ (listedClasses sampleMixedCollection sampleMixedTable ["ClassA", "EnumB"]).map
            (fun c => c.name)
        = emissionOrder sampleMixedTable ["ClassA", "EnumB"]
      ∧ header_buffer.m_lines = headerBanner
        ++ ((listedEnums sampleMixedCollection sampleMixedTable
            ["ClassA", "EnumB"]).flatMap enumHeaderLines
          ++ (listedClasses sampleMixedCollection sampleMixedTable
            ["ClassA", "EnumB"]).flatMap classHeaderLines)
      ∧ source_buffer.m_lines = sourceBanner "test.h"
        ++ ((listedEnums sampleMixedCollection sampleMixedTable
            ["ClassA", "EnumB"]).flatMap enumSourceLines
          ++ (listedClasses sampleMixedCollection sampleMixedTable
            ["ClassA", "EnumB"]).flatMap (fun eClass =>
            classSourceLines sampleMixedTable eClass
              (ancestorsOf sampleMixedCollection 0 eClass.parent))) :=
  encode_block_order 0 emptyFileSystem ["ClassA", "EnumB"] sampleMixedCollection
    sampleMixedTable "out" "test.h" (by decide)

/-- Claim C23: when `encode` succeeds, the header buffer is the header banner and the
source buffer is the source banner, whose third line is `#include "<filename>"`, each
followed by one block for every listed enum and then one block for every listed class;
the enums are the enum names of the symbol list in the order of the list, the classes are
its class names in the order of the list, the two together are as many as the names of
the list, and the source file holds the content of the source buffer. -/
theorem encode_buffer_layout (fuel : Nat) (fs : FileSystem) (symbolList : List Str)
    (collection : TypeCollection) (symbolTable : SymbolTable) (path filename : Str)
    (hsuccess : (encode fuel fs symbolList collection symbolTable path filename).map
      (fun result => result.1) = some true) :
    ∃ header_buffer source_buffer fs' written,
      encodeBuffers fuel symbolList collection symbolTable filename
        = some (some (header_buffer, source_buffer))
      ∧ encode fuel fs symbolList collection symbolTable path filename
        = some (true, fs', written)
      ∧ previousContent fs' (outSourceFilename path filename) = source_buffer.string true
      ∧ header_buffer.m_lines = headerBanner
        ++ (listedEnums collection symbolTable symbolList).flatMap enumHeaderLines
        ++ (listedClasses collection symbolTable symbolList).flatMap classHeaderLines
      ∧ source_buffer.m_lines = sourceBanner filename
        ++ (listedEnums collection symbolTable symbolList).flatMap enumSourceLines
        ++ (listedClasses collection symbolTable symbolList).flatMap (fun eClass =>
            classSourceLines symbolTable eClass (ancestorsOf collection fuel eClass.parent))
      ∧ source_buffer.m_lines.get? 2 = some (("#include \"" : Str) ++ filename ++ ("\"" : Str))
      ∧ (listedEnums collection symbolTable symbolList).map (fun e => e.name)
          = symbolList.filter (fun name => symbolTable.lookup name = some SymbolType.S_enum)
      ∧ (listedClasses collection symbolTable symbolList).map (fun c => c.name)
          = symbolList.filter (fun name => symbolTable.lookup name = some SymbolType.S_class)
      ∧ (listedEnums collection symbolTable symbolList).length
          + (listedClasses collection symbolTable symbolList).length = symbolList.length := by
  obtain ⟨header_buffer, source_buffer, fs', written, hbuf, henc, hfile⟩ :=
    encode_succeeds fuel fs symbolList collection symbolTable path filename hsuccess
  obtain ⟨hh, hs, he, hc, hlen⟩ := encodeBuffers_eq_some fuel symbolList collection
    symbolTable filename header_buffer source_buffer hbuf
  refine ⟨header_buffer, source_buffer, fs', written, hbuf, henc, hfile, hh, hs, ?_, he, hc,
    hlen⟩
  rw [hs]
  simp [sourceBanner]

/-- Witness of `encode_buffer_layout` on the sample collection. -/
theorem encode_buffer_layout_witness :
    ∃ header_buffer source_buffer fs' written,
      encodeBuffers 3 ["Leaf", "Mid", "Base"] sampleCollection sampleSymbolTable "sample.h"
        = some (some (header_buffer, source_buffer))
      ∧ encode 3 emptyFileSystem ["Leaf", "Mid", "Base"] sampleCollection sampleSymbolTable
          "out" "sample.h" = some (true, fs', written)
      ∧ previousContent fs' (outSourceFilename "out" "sample.h") = source_buffer.string true
      ∧ header_buffer.m_lines = headerBanner
        ++ (listedEnums sampleCollection sampleSymbolTable
            ["Leaf", "Mid", "Base"]).flatMap enumHeaderLines
        ++ (listedClasses sampleCollection sampleSymbolTable
            ["Leaf", "Mid", "Base"]).flatMap classHeaderLines
      ∧ source_buffer.m_lines = sourceBanner "sample.h"
        ++ (listedEnums sampleCollection sampleSymbolTable
            ["Leaf", "Mid", "Base"]).flatMap enumSourceLines
        ++ (listedClasses sampleCollection sampleSymbolTable
            ["Leaf", "Mid", "Base"]).flatMap (fun eClass =>
            classSourceLines sampleSymbolTable eClass
              (ancestorsOf sampleCollection 3 eClass.parent))
      ∧ source_buffer.m_lines.get? 2
        = some (("#include \"" : Str) ++ ("sample.h" : Str) ++ ("\"" : Str))
      ∧ (listedEnums sampleCollection sampleSymbolTable ["Leaf", "Mid", "Base"]).map
          (fun e => e.name)
          = (["Leaf", "Mid", "Base"] : List Str).filter
            (fun name => sampleSymbolTable.lookup name = some SymbolType.S_enum)
      ∧ (listedClasses sampleCollection sampleSymbolTable ["Leaf", "Mid", "Base"]).map
          (fun c => c.name)
          = (["Leaf", "Mid", "Base"] : List Str).filter
            (fun name => sampleSymbolTable.lookup name = some SymbolType.S_class)
      ∧ (listedEnums sampleCollection sampleSymbolTable ["Leaf", "Mid", "Base"]).length
          + (listedClasses sampleCollection sampleSymbolTable ["Leaf", "Mid", "Base"]).length
          = (["Leaf", "Mid", "Base"] : List Str).length :=
  encode_buffer_layout 3 emptyFileSystem ["Leaf", "Mid", "Base"] sampleCollection
    sampleSymbolTable "out" "sample.h" (by decide)

end Encoder

/-! ## Failure, repetition and the output paths: claims C24, C26, C27 and C28 -/

namespace Encoder

/-- Claim C24: when some name of the symbol list has no entry in the symbol table,
`encode` returns `false`, the file system is left as it was and no path is written. -/
theorem encode_missing_symbol (fuel : Nat) (fs : FileSystem) (symbolList : List Str)
    (collection : TypeCollection) (symbolTable : SymbolTable) (path filename : Str)
    (hmissing : ∃ name ∈ symbolList, symbolTable.lookup name = none) :
    encode fuel fs symbolList collection symbolTable path filename = some (false, fs, []) :=
  encode_of_no_buffers fuel fs symbolList collection symbolTable path filename
    (encodeBuffers_of_missing fuel symbolList collection symbolTable filename hmissing)

/-- Witness of `encode_missing_symbol`: the symbol list names `Ghost` after `Base`, and
the symbol table of the sample has no `Ghost`. -/
theorem encode_missing_symbol_witness :
    (∃ name ∈ (["Base", "Ghost"] : List Str), sampleSymbolTable.lookup name = none)
      ∧ encode 3 emptyFileSystem ["Base", "Ghost"] sampleCollection sampleSymbolTable
          "out" "sample.h" = some (false, emptyFileSystem, []) :=
  ⟨⟨"Ghost", by decide, by decide⟩,
    encode_missing_symbol 3 emptyFileSystem ["Base", "Ghost"] sampleCollection
      sampleSymbolTable "out" "sample.h" ⟨"Ghost", by decide, by decide⟩⟩

/-- Claim C26, counterexample: the stream of `out/test_generated.cpp` cannot be opened,
`encode` returns `false`, and `out/test_generated.h`, which did not exist before the
call, has been written with the content of the header buffer. -/
theorem encode_header_left_behind :
    encode 0 ⟨[], ["out/test_generated.cpp"]⟩ [] ⟨[], []⟩ [] "out" "test.h"
        = some (false,
          (⟨[("out/test_generated.h", (⟨headerBanner⟩ : EncodeBuffer).string true)],
            ["out/test_generated.cpp"]⟩ : FileSystem),
          ([ "out/test_generated.h" ] : List Str))
      ∧ FileSystem.exists ⟨[], ["out/test_generated.cpp"]⟩ "out/test_generated.h" = false := by
  decide

/-- Claim C26, amended: when `encode` returns `false`, the file system is left exactly as
the failing step found it. A `false` before the files are generated, or from the
generation of a header that is up to date or whose stream cannot be opened, leaves the
file system as it was, with nothing written. When the content of the header file differs
from the header buffer and its stream can be opened, the header file has been written with
the content of the header buffer, it is the stream of the source file that could not be
opened, and the header is not rolled back. The source file is as it was in every case. -/
theorem encode_false_effect (fuel : Nat) (fs : FileSystem) (symbolList : List Str)
    (collection : TypeCollection) (symbolTable : SymbolTable) (path filename : Str)
    (hfail : (encode fuel fs symbolList collection symbolTable path filename).map
      (fun result => result.1) = some false) :
    encode fuel fs symbolList collection symbolTable path filename
        = (match encodeBuffers fuel symbolList collection symbolTable filename with
          | none => none
          | some none => some (false, fs, [])
          | some (some (header_buffer, _)) =>
            if previousContent fs (outHeaderFilename path filename)
                = header_buffer.string true then some (false, fs, [])
            else if fs.is_open (outHeaderFilename path filename) = false then
              some (false, fs, [])
            else
              some (false,
                fs.write (outHeaderFilename path filename) (header_buffer.string true),
                [outHeaderFilename path filename]))
      ∧ (encode fuel fs symbolList collection symbolTable path filename).map
          (fun result => result.2.1.files.lookup (outSourceFilename path filename))
        = some (fs.files.lookup (outSourceFilename path filename))
      ∧ (∀ header_buffer source_buffer,
          encodeBuffers fuel symbolList collection symbolTable filename
            = some (some (header_buffer, source_buffer)) →
          previousContent fs (outHeaderFilename path filename) ≠ header_buffer.string true →
          fs.is_open (outHeaderFilename path filename) = true →
            encode fuel fs symbolList collection symbolTable path filename
                = some (false,
                  fs.write (outHeaderFilename path filename) (header_buffer.string true),
                  [outHeaderFilename path filename])
              ∧ fs.is_open (outSourceFilename path filename) = false
              ∧ previousContent fs (outSourceFilename path filename)
                ≠ source_buffer.string true) := by
  cases hbuf : encodeBuffers fuel symbolList collection symbolTable filename with
  | none =>
    rw [encode_of_fuel_out _ _ _ _ _ _ _ hbuf] at hfail
    cases hfail
  | some buffers =>
    cases buffers with
    | none =>
      rw [encode_of_no_buffers _ _ _ _ _ _ _ hbuf]
      refine ⟨rfl, rfl, ?_⟩
      intro header_buffer source_buffer h
      cases h
    | some pair =>
      obtain ⟨header_buffer, source_buffer⟩ := pair
      rw [encode_of_buffers _ _ _ _ _ _ _ _ _ hbuf] at hfail ⊢
      by_cases h1 : previousContent fs (outHeaderFilename path filename)
          = header_buffer.string true
      · by_cases h2 : previousContent fs (outSourceFilename path filename)
            = source_buffer.string true
        · simp [h1, h2] at hfail
        · cases h3 : fs.is_open (outSourceFilename path filename)
          · simp only [h1, h2, h3, ↓reduceIte, Option.map_some']
            refine ⟨trivial, trivial, ?_⟩
            intro hb sb heq hne _
            simp only [Option.some.injEq, Prod.mk.injEq] at heq
            rw [← heq.1] at hne
            exact absurd rfl hne
          · simp [h1, h2, h3] at hfail
      · cases h4 : fs.is_open (outHeaderFilename path filename)
        · simp only [h1, h4, ↓reduceIte, Option.map_some']
          refine ⟨trivial, trivial, ?_⟩
          intro hb sb _ _ hopen
          cases hopen
        · by_cases h2 : previousContent
              (fs.write (outHeaderFilename path filename) (header_buffer.string true))
              (outSourceFilename path filename) = source_buffer.string true
          · simp [h1, h2, h4] at hfail
          · cases h3 : fs.is_open (outSourceFilename path filename)
            · have hne : outSourceFilename path filename ≠ outHeaderFilename path filename := by
                intro heq
                rw [heq, h4] at h3
                cases h3
              have hprev := previousContent_write_other fs (outHeaderFilename path filename)
                (header_buffer.string true) (outSourceFilename path filename) hne
              refine ⟨?_, ?_, ?_⟩
              · simp only [h1, h2, h3, h4, ↓reduceIte, Bool.true_eq_false]
              · simp only [h1, h2, h3, h4, ↓reduceIte, Bool.true_eq_false, Option.map_some',
                  FileSystem.lookup_write_other _ _ _ _ hne]
              · intro hb sb heq _ _
                simp only [Option.some.injEq, Prod.mk.injEq] at heq
                obtain ⟨hhb, hsb⟩ := heq
                subst hhb
                subst hsb
                refine ⟨?_, rfl, ?_⟩
                · simp only [h1, h2, h3, h4, ↓reduceIte, Bool.true_eq_false]
                · rw [← hprev]
                  exact h2
            · simp [h1, h2, h3, h4] at hfail

/-- Witness of `encode_false_effect`: the header file does not exist and can be written,
the stream of the source file cannot be opened. -/
theorem encode_false_effect_witness :
    (encode 0 ⟨[], ["gen/sample_generated.cpp"]⟩ [] ⟨[], []⟩ [] "gen" "sample.h").map
        (fun result => result.1) = some false
      ∧ encodeBuffers 0 [] ⟨[], []⟩ [] "sample.h"
        = some (some (⟨headerBanner⟩, ⟨sourceBanner "sample.h"⟩))
      ∧ previousContent ⟨[], ["gen/sample_generated.cpp"]⟩ (outHeaderFilename "gen" "sample.h")
        ≠ (⟨headerBanner⟩ : EncodeBuffer).string true
      ∧ FileSystem.is_open ⟨[], ["gen/sample_generated.cpp"]⟩
          (outHeaderFilename "gen" "sample.h") = true
      ∧ encode 0 ⟨[], ["gen/sample_generated.cpp"]⟩ [] ⟨[], []⟩ [] "gen" "sample.h"
        = some (false,
          FileSystem.write ⟨[], ["gen/sample_generated.cpp"]⟩
            (outHeaderFilename "gen" "sample.h") ((⟨headerBanner⟩ : EncodeBuffer).string true),
          [outHeaderFilename "gen" "sample.h"])
      ∧ FileSystem.is_open ⟨[], ["gen/sample_generated.cpp"]⟩
          (outSourceFilename "gen" "sample.h") = false
      ∧ previousContent ⟨[], ["gen/sample_generated.cpp"]⟩ (outSourceFilename "gen" "sample.h")
        ≠ (⟨sourceBanner "sample.h"⟩ : EncodeBuffer).string true :=
  ⟨by decide, by decide, by decide, by decide,
    (encode_false_effect 0 ⟨[], ["gen/sample_generated.cpp"]⟩ [] ⟨[], []⟩ [] "gen" "sample.h"
      (by decide)).2.2 ⟨headerBanner⟩ ⟨sourceBanner "sample.h"⟩ (by decide) (by decide)
      (by decide)⟩

end Encoder

namespace Encoder

/-- Claim C28, failing input: for the filename `my.hash.h` the call of `encode` writes the
header buffer to `out/my_generated.hash_generated.h` and the source buffer to
`out/my_generated.cppash_generated.cpp`; the paths `out/my.hash_generated.h` and
`out/my.hash_generated.cpp` do not exist after the call. -/
theorem encode_paths_inner_pattern :
    (encode 0 emptyFileSystem [] ⟨[], []⟩ [] "out" "my.hash.h").map
        (fun result => (result.1, result.2.2,
          result.2.1.exists "out/my.hash_generated.h",
          result.2.1.exists "out/my.hash_generated.cpp"))
      = some (true,
        ([ "out/my_generated.hash_generated.h", "out/my_generated.cppash_generated.cpp" ]
          : List Str), false, false) := by
  decide

end Encoder

/-! ## Unresolved parents and the end of the parent walks: claims C25 and C29 -/

namespace Encoder

/-- A parent walk over a chain that ends at the sentinel leaves the loop, whatever the body
of the loop over the properties is. -/
theorem walkParents_finished_of_chain (collection : TypeCollection) (marker : Str)
    (emit : EncodeBuffer → Property → EncodeBuffer) :
    ∀ (chain : List TypeClass) (fuel : Nat) (parent_name : Str) (has_parent : Bool)
      (sourceBuffer : EncodeBuffer),
      isParentChain collection parent_name chain = true → chain.length ≤ fuel →
      ∃ sourceBuffer', walkParents collection marker emit fuel parent_name has_parent sourceBuffer
        = some (ParentWalk.finished (has_parent || !chain.isEmpty) sourceBuffer') := by
  intro chain
  induction chain with
  | nil =>
    intro fuel parent_name has_parent sourceBuffer hchain _
    simp only [isParentChain, decide_eq_true_eq] at hchain
    unfold walkParents
    simp only [hchain, ↓reduceIte, List.isEmpty_nil, Bool.not_true, Bool.or_false]
    exact ⟨sourceBuffer, rfl⟩
  | cons parentClass rest ih =>
    intro fuel parent_name has_parent sourceBuffer hchain hfuel
    simp only [isParentChain, Bool.and_eq_true, decide_eq_true_eq] at hchain
    obtain ⟨⟨hne, hfind⟩, hrest⟩ := hchain
    have hne2 : ¬ parent_name = ("IType" : Str) := by simpa using hne
    cases fuel with
    | zero => simp at hfuel
    | succ k =>
      unfold walkParents
      simp only [hne2, ↓reduceIte, hfind]
      obtain ⟨sb', hw⟩ := ih k parentClass.parent true
        ((sourceBuffer.push_lineAll [marker, parent_name, " properties"]) |>
          parentClass.properties.foldl emit) hrest (by simpa using hfuel)
      refine ⟨sb', ?_⟩
      rw [hw]
      simp

/-- Claim C25, counterexample: `Base`, the parent of `Derived`, is in the symbol table as
a class and is not in the collection of the file of `Derived`; the class encoder returns
`false` for `Derived`, and so does the top-level encoder, which writes nothing. -/
theorem encodeClass_parent_in_other_file :
    List.lookup ("Base" : Str)
        ([("Base", SymbolType.S_class), ("Derived", SymbolType.S_class)] : SymbolTable)
        = some SymbolType.S_class
      ∧ TypeCollection.findClass ⟨[sampleDerived], []⟩ "Base" = none
      ∧ (encodeClass 5 ⟨[]⟩ ⟨[]⟩ [("Base", SymbolType.S_class), ("Derived", SymbolType.S_class)]
          ⟨[sampleDerived], []⟩ sampleDerived).map (fun result => result.1) = some false
      ∧ encode 5 emptyFileSystem ["Derived"] ⟨[sampleDerived], []⟩
          [("Base", SymbolType.S_class), ("Derived", SymbolType.S_class)] "out" "derived.h"
        = some (false, emptyFileSystem, []) := by
  decide

/-- Claim C25, amended: the class encoder returns `false` exactly when the ancestors found
in the collection by following the parent field break off at a name that is not the
sentinel `IType` and is not in the collection; the symbol table is not consulted for it:
the flag is the same under every symbol table. -/
theorem encodeClass_unresolved_parent (fuel : Nat) (headerBuffer sourceBuffer : EncodeBuffer)
    (symbolTable : SymbolTable) (collection : TypeCollection) (type : TypeClass) :
    ((encodeClass fuel headerBuffer sourceBuffer symbolTable collection type).map
        (fun result => result.1) = some false
      ↔ (isBrokenChain collection type.parent (ancestorsOf collection fuel type.parent) = true
        ∧ (ancestorsOf collection fuel type.parent).length + 1 ≤ fuel))
      ∧ ∀ otherTable : SymbolTable,
        (encodeClass fuel headerBuffer sourceBuffer otherTable collection type).map
            (fun result => result.1)
          = (encodeClass fuel headerBuffer sourceBuffer symbolTable collection type).map
            (fun result => result.1) := by
  rcases walk_trichotomy collection fuel type.parent with hc | ⟨hb, hlen⟩ | he
  · have hflag : ∀ table : SymbolTable,
        (encodeClass fuel headerBuffer sourceBuffer table collection type).map
          (fun result => result.1) = some true := by
      intro table
      rw [encodeClass_of_chain fuel headerBuffer sourceBuffer table collection type _ hc
        (length_ancestorsOf_le collection fuel type.parent)]
      rfl
    refine ⟨⟨fun h => ?_, fun h => ?_⟩, fun otherTable => ?_⟩
    · rw [hflag symbolTable] at h
      cases h
    · exfalso
      obtain ⟨hb', sb', heq⟩ := encodeClass_of_broken_chain fuel headerBuffer sourceBuffer
        symbolTable collection type _ h.1 h.2
      have := hflag symbolTable
      rw [heq] at this
      cases this
    · rw [hflag otherTable, hflag symbolTable]
  · have hflag : ∀ table : SymbolTable,
        (encodeClass fuel headerBuffer sourceBuffer table collection type).map
          (fun result => result.1) = some false := by
      intro table
      obtain ⟨hb', sb', heq⟩ := encodeClass_of_broken_chain fuel headerBuffer sourceBuffer
        table collection type _ hb hlen
      rw [heq]
      rfl
    exact ⟨⟨fun _ => ⟨hb, hlen⟩, fun _ => hflag symbolTable⟩,
      fun otherTable => by rw [hflag otherTable, hflag symbolTable]⟩
  · have hflag : ∀ table : SymbolTable,
        (encodeClass fuel headerBuffer sourceBuffer table collection type).map
          (fun result => result.1) = none := by
      intro table
      rw [encodeClass_of_exhausts fuel headerBuffer sourceBuffer table collection type he]
      rfl
    refine ⟨⟨fun h => ?_, fun h => ?_⟩, fun otherTable => ?_⟩
    · rw [hflag symbolTable] at h
      cases h
    · exfalso
      obtain ⟨hb', sb', heq⟩ := encodeClass_of_broken_chain fuel headerBuffer sourceBuffer
        symbolTable collection type _ h.1 h.2
      have := hflag symbolTable
      rw [heq] at this
      cases this
    · rw [hflag otherTable, hflag symbolTable]

/-- Claim C29: when following the parent field from the class reaches the sentinel `IType`
after the ancestors of `chain`, or a name missing from the collection after them, every
parent walk returns within as many iterations as the chain has names (the ancestors found,
and the missing name when there is one), whatever the loop body is, and the class encoder
returns. -/
theorem encodeClass_terminates (fuel : Nat) (headerBuffer sourceBuffer : EncodeBuffer)
    (symbolTable : SymbolTable) (collection : TypeCollection) (type : TypeClass)
    (chain : List TypeClass)
    (hacyclic : (isParentChain collection type.parent chain = true ∧ chain.length ≤ fuel)
      ∨ (isBrokenChain collection type.parent chain = true ∧ chain.length + 1 ≤ fuel)) :
    (∀ (marker : Str) (emit : EncodeBuffer → Property → EncodeBuffer) (has_parent : Bool)
        (buffer : EncodeBuffer),
        (walkParents collection marker emit fuel type.parent has_parent buffer).isSome = true)
      ∧ (encodeClass fuel headerBuffer sourceBuffer symbolTable collection type).isSome
        = true := by
  rcases hacyclic with ⟨hc, hlen⟩ | ⟨hb, hlen⟩
  · refine ⟨fun marker emit has_parent buffer => ?_, ?_⟩
    · obtain ⟨sb', hw⟩ := walkParents_finished_of_chain collection marker emit chain fuel
        type.parent has_parent buffer hc hlen
      rw [hw]
      rfl
    · rw [encodeClass_of_chain fuel headerBuffer sourceBuffer symbolTable collection type
        chain hc hlen]
      rfl
  · refine ⟨fun marker emit has_parent buffer => ?_, ?_⟩
    · obtain ⟨sb', hw⟩ := walkParents_of_broken_chain collection marker emit chain fuel
        type.parent has_parent buffer hb hlen
      rw [hw]
      rfl
    · obtain ⟨hb', sb', heq⟩ := encodeClass_of_broken_chain fuel headerBuffer sourceBuffer
        symbolTable collection type chain hb hlen
      rw [heq]
      rfl

/-- Witness of `encodeClass_terminates`: the chain of `Leaf` is `Mid`, `Base`, and two
iterations are enough. -/
theorem encodeClass_terminates_witness :
    ((isParentChain sampleCollection sampleLeaf.parent [sampleMid, sampleBase] = true
        ∧ [sampleMid, sampleBase].length ≤ 2)
      ∨ (isBrokenChain sampleCollection sampleLeaf.parent [sampleMid, sampleBase] = true
        ∧ [sampleMid, sampleBase].length + 1 ≤ 2))
      ∧ (∀ (marker : Str) (emit : EncodeBuffer → Property → EncodeBuffer) (has_parent : Bool)
        (buffer : EncodeBuffer),
        (walkParents sampleCollection marker emit 2 sampleLeaf.parent has_parent
          buffer).isSome = true)
      ∧ (encodeClass 2 ⟨[]⟩ ⟨[]⟩ sampleSymbolTable sampleCollection sampleLeaf).isSome = true :=
  ⟨Or.inl ⟨by decide, by decide⟩,
    encodeClass_terminates 2 ⟨[]⟩ ⟨[]⟩ sampleSymbolTable sampleCollection sampleLeaf
      [sampleMid, sampleBase] (Or.inl ⟨by decide, by decide⟩)⟩

end Encoder

/-! ## The emitted reader of a class with an enum field and a vector field: claim C30 -/

namespace Encoder

/-- Claim C30, failing input: for the class `Widget` with the enum field `m_color` and the
vector field `xs`, the emitted `operator std::string` writes the enum as an integer and
the vector as its size followed by its elements, and the emitted `from_string` reads the
integer into `pack` and then assigns to `m_color` the cast of `m_color` itself, and
resizes `xs` to the size read and then appends every element read with `push_back`. -/
theorem encodeClass_widget_round_trip :
    (encodeClass 0 ⟨[]⟩ ⟨[]⟩ [("Color", SymbolType.S_enum), ("Widget", SymbolType.S_class)]
        ⟨[sampleWidget], [⟨"Color", ["Red", "Green"]⟩]⟩ sampleWidget).map
        (fun result => (result.1,
          ((result.2.2.m_lines.dropWhile
            (fun line => line ≠ ("    stream << type_name();" : Str))).take 4),
          ((result.2.2.m_lines.dropWhile
            (fun line => line ≠ ("    if (_name != type_name()) return;" : Str))).take 5)))
      = some (true,
        ([ "    stream << type_name();",
          "    ",
          "    stream << static_cast<int>(m_color);",
          "    \x7b\n        stream << xs.size();\n        for (const auto& element : xs)\n        \x7b\n            stream << element;\n        \x7d\n    \x7d" ]
          : List Str),
        ([ "    if (_name != type_name()) return;",
          "    ",
          "    \x7b\n        int pack;\n        stream >> pack;\n        m_color = static_cast<Color>(m_color);\n    \x7d",
          "    \x7b\n        std::size_t size;\n        stream >> size;\n        xs.resize(size);\n        for (int i = 0; i < xs.size(); ++i)\n        \x7b\n            int element;\n            stream >> element;\n            xs.push_back(element);\n        \x7d\n    \x7d",
          "\x7d" ] : List Str)) := by
  decide

end Encoder

/-! ## The line buffer: claim C39 -/

namespace EncodeBuffer

theorem string_true (buffer : EncodeBuffer) :
    buffer.string true = (buffer.m_lines.map (fun line => line ++ ("\n" : Str))).flatten := by
  unfold string
  simp only [↓reduceIte]
  have h : ∀ (ls : List Str) (acc : Str),
      ls.foldl (fun content line => content ++ line ++ ("\n" : Str)) acc
        = acc ++ (ls.map (fun line => line ++ ("\n" : Str))).flatten := by
    intro ls
    induction ls with
    | nil => intro acc; simp
    | cons l ls ih =>
      intro acc
      simp only [List.foldl_cons, List.map_cons, List.flatten_cons]
      rw [ih]
      simp only [List.append_assoc]
  exact (h buffer.m_lines []).trans (List.nil_append _)

theorem length_le_count_flatten_endline (ls : List Str) :
    ls.length ≤ ((ls.map (fun line => line ++ ("\n" : Str))).flatten).count '\n' := by
  induction ls with
  | nil => simp
  | cons l ls ih =>
    simp only [List.map_cons, List.flatten_cons, List.count_append, List.length_cons]
    have h1 : (("\n" : Str)).count '\n' = 1 := by decide
    omega

/-- Claim C39: `push_line` adds exactly one line, the given one, at the end; `push` makes
the token the only line of an empty buffer and otherwise appends the token to the last
line, so that the number of lines and every earlier line stay as they are; `string(false)`
is the concatenation of the lines in order, so that a buffer built from pushes only yields
the concatenation of the pushed tokens; `string(true)` is the concatenation of every line
followed by a line break, and has at least as many line breaks as the buffer has lines. -/
theorem line_accumulator (buffer : EncodeBuffer) (token line : Str) (tokens : List Str) :
    (buffer.push_line line).m_lines = buffer.m_lines ++ [line]
      ∧ (buffer.push_line line).m_lines.length = buffer.m_lines.length + 1
      ∧ (buffer.push token).m_lines
        = (if buffer.m_lines = [] then [token]
          else buffer.m_lines.dropLast ++ [buffer.m_lines.getLastD [] ++ token])
      ∧ (buffer.push token).m_lines.length
        = (if buffer.m_lines = [] then 1 else buffer.m_lines.length)
      ∧ (buffer.push token).m_lines.dropLast = buffer.m_lines.dropLast
      ∧ buffer.string false = buffer.m_lines.flatten
      ∧ (tokens.foldl push {}).string false = tokens.flatten
      ∧ buffer.string true
        = (buffer.m_lines.map (fun line => line ++ ("\n" : Str))).flatten
      ∧ buffer.m_lines.length ≤ (buffer.string true).count '\n' := by
  have hpush : (buffer.push token).m_lines
      = (if buffer.m_lines = [] then [token]
        else buffer.m_lines.dropLast ++ [buffer.m_lines.getLastD [] ++ token]) := by
    unfold push
    cases h : buffer.m_lines with
    | nil => simp
    | cons l ls => simp
  refine ⟨rfl, by simp [push_line], hpush, ?_, ?_, string_false buffer, ?_, string_true buffer,
    ?_⟩
  · rw [hpush]
    cases h : buffer.m_lines with
    | nil => simp
    | cons l ls => simp
  · rw [hpush]
    cases h : buffer.m_lines with
    | nil => simp
    | cons l ls => simp
  · have := string_false_pushAll {} tokens
    simpa [pushAll, string_false_empty] using this
  · rw [string_true]
    exact length_le_count_flatten_endline buffer.m_lines

end EncodeBuffer

/-! ## The string accesses of the template helpers: claim C38 -/

namespace Encoder

/-- In a token that contains `<` and ends with `>`, the first `<` is not the last
character. -/
theorem indexOf_succ_lt_length (token : Str) (h1 : '<' ∈ token)
    (h2 : token.getLast? = some '>') : token.indexOf '<' + 1 < token.length := by
  have hlt : token.indexOf '<' < token.length := List.indexOf_lt_length.mpr h1
  by_contra hnot
  have heq : token.indexOf '<' = token.length - 1 := by omega
  have hget : token[token.indexOf '<'] = '<' := List.getElem_indexOf hlt
  rw [List.getLast?_eq_getElem?, ← heq, List.getElem?_eq_getElem hlt, hget] at h2
  cases h2

/-- The text after the first `<` of a token that contains `<` and ends with `>` is not
empty and ends with `>`. -/
theorem drop_indexOf_succ (token : Str) (h1 : '<' ∈ token) (h2 : token.getLast? = some '>') :
    token.drop (token.indexOf '<' + 1) ≠ []
      ∧ (token.drop (token.indexOf '<' + 1)).getLast? = some '>' := by
  have hlt := indexOf_succ_lt_length token h1 h2
  constructor
  · intro h
    have := List.drop_eq_nil_iff.mp h
    omega
  · rw [List.getLast?_drop, if_neg (by omega), h2]

/-- Claim C38: on every token, the empty one included, `extractTypenames` and
`sanitizeTemplate` call `back`, `substr` and `pop_back` inside their domains and return
what the unchecked functions return. When the token contains `<` it is not empty, so that
`back` is defined; when it also ends with `>`, the text after the first `<` is not empty
and ends with `>`, so that `pop_back` is defined; in every other case `extractTypenames`
returns the empty list and `sanitizeTemplate` returns the token. -/
theorem extractTypenames_in_bounds (token : Str) :
    extractTypenamesChecked token = some (extractTypenames token)
      ∧ sanitizeTemplateChecked token = some (sanitizeTemplate token)
      ∧ (if '<' ∈ token then token ≠ [] ∧ (back token).isSome = true
          ∧ substr token (token.indexOf '<' + 1) = some (token.drop (token.indexOf '<' + 1))
        else extractTypenames token = [] ∧ sanitizeTemplate token = token)
      ∧ (if '<' ∈ token ∧ token.getLast? = some '>' then
          token.drop (token.indexOf '<' + 1) ≠ []
            ∧ (token.drop (token.indexOf '<' + 1)).getLast? = some '>'
            ∧ pop_back (token.drop (token.indexOf '<' + 1))
              = some (token.drop (token.indexOf '<' + 1)).dropLast
        else extractTypenames token = [] ∧ sanitizeTemplate token = token) := by
  by_cases h1 : '<' ∈ token
  · have hlt : token.indexOf '<' < token.length := List.indexOf_lt_length.mpr h1
    have hne : token.indexOf '<' ≠ token.length := by omega
    have hnil : token ≠ [] := by
      intro h
      rw [h] at h1
      cases h1
    obtain ⟨last, hlast⟩ : ∃ last, token.getLast? = some last := by
      cases hl : token.getLast? with
      | none => exact absurd (List.getLast?_eq_none_iff.mp hl) hnil
      | some last => exact ⟨last, rfl⟩
    have hsub : substr token (token.indexOf '<' + 1)
        = some (token.drop (token.indexOf '<' + 1)) := by
      unfold substr
      rw [if_pos (by omega)]
    by_cases h2 : last = '>'
    · subst h2
      obtain ⟨hd1, hd2⟩ := drop_indexOf_succ token h1 hlast
      have hpop : pop_back (token.drop (token.indexOf '<' + 1))
          = some (token.drop (token.indexOf '<' + 1)).dropLast := by
        unfold pop_back
        rw [if_neg (by simpa using hd1)]
      refine ⟨?_, ?_, ?_, ?_⟩
      · unfold extractTypenamesChecked extractTypenames
        simp only [hne, ↓reduceIte, back, hlast, ne_eq, not_true_eq_false, hsub, hpop]
      · unfold sanitizeTemplateChecked sanitizeTemplate
        simp only [hne, ↓reduceIte, back, hlast, ne_eq, not_true_eq_false, hsub, hpop]
      · rw [if_pos h1]
        exact ⟨hnil, by simp [back, hlast], hsub⟩
      · rw [if_pos ⟨h1, hlast⟩]
        exact ⟨hd1, hd2, hpop⟩
    · have hl2 : token.getLast? ≠ some '>' := by
        rw [hlast]
        intro h
        exact h2 (Option.some.inj h)
      have hx : extractTypenames token = [] := by
        unfold extractTypenames
        simp only [hne, ↓reduceIte, hl2, ne_eq, not_false_eq_true]
      have hs : sanitizeTemplate token = token := by
        unfold sanitizeTemplate
        simp only [hne, ↓reduceIte, hl2, ne_eq, not_false_eq_true]
      refine ⟨?_, ?_, ?_, ?_⟩
      · rw [hx]
        unfold extractTypenamesChecked
        simp only [hne, ↓reduceIte, back, hlast, ne_eq, h2, not_false_eq_true]
      · rw [hs]
        unfold sanitizeTemplateChecked
        simp only [hne, ↓reduceIte, back, hlast, ne_eq, h2, not_false_eq_true]
      · rw [if_pos h1]
        exact ⟨hnil, by simp [back, hlast], hsub⟩
      · rw [if_neg (fun h => hl2 h.2)]
        exact ⟨hx, hs⟩
  · have heq : token.indexOf '<' = token.length := List.indexOf_eq_length.mpr h1
    have hx : extractTypenames token = [] := by
      unfold extractTypenames
      simp only [heq, ↓reduceIte]
    have hs : sanitizeTemplate token = token := by
      unfold sanitizeTemplate
      simp only [heq, ↓reduceIte]
    refine ⟨?_, ?_, ?_, ?_⟩
    · rw [hx]
      unfold extractTypenamesChecked
      simp only [heq, ↓reduceIte]
    · rw [hs]
      unfold sanitizeTemplateChecked
      simp only [heq, ↓reduceIte]
    · rw [if_neg h1]
      exact ⟨hx, hs⟩
    · rw [if_neg (fun h => h1 h.1)]
      exact ⟨hx, hs⟩

end Encoder

/-! ## The reflection line of a property and the descriptor of a type: claims C33 and C34 -/

namespace Encoder

/-- The loop over the meta map (lines 405-410) once an entry has been written: every
further entry comes behind a separator. -/
theorem string_false_foldl_meta_rest (entries : List (Str × Str)) :
    ∀ buffer : EncodeBuffer,
      ((entries.foldl
        (fun (state : EncodeBuffer × Bool) (entry : Str × Str) =>
          (state.1.pushAll [if state.2 then "" else ", ", "\x7b\"", entry.1, "\", \"", entry.2,
            "\"\x7d"], false))
        (buffer, false)).1).string false
        = buffer.string false
          ++ (entries.map (fun entry => (", " : Str) ++ metaEntryText entry)).flatten := by
  induction entries with
  | nil => intro buffer; simp
  | cons entry rest ih =>
    intro buffer
    simp only [List.foldl_cons, Bool.false_eq_true, ↓reduceIte, List.map_cons, List.flatten_cons]
    rw [ih, EncodeBuffer.string_false_pushAll]
    simp [metaEntryText]

/-- The loop over the meta map (lines 405-410): the entries joined by the separator. -/
theorem string_false_foldl_meta_first (entries : List (Str × Str)) (buffer : EncodeBuffer) :
    ((entries.foldl
      (fun (state : EncodeBuffer × Bool) (entry : Str × Str) =>
        (state.1.pushAll [if state.2 then "" else ", ", "\x7b\"", entry.1, "\", \"", entry.2,
          "\"\x7d"], false))
      (buffer, true)).1).string false
      = buffer.string false ++ (", " : Str).intercalate (entries.map metaEntryText) := by
  cases entries with
  | nil => simp [List.intercalate]
  | cons entry rest =>
    simp only [List.foldl_cons, ↓reduceIte, List.map_cons]
    rw [string_false_foldl_meta_rest, EncodeBuffer.string_false_pushAll]
    have hinter : ∀ (x : Str) (xs : List Str),
        (", " : Str).intercalate (x :: xs)
          = x ++ (xs.map (fun y => (", " : Str) ++ y)).flatten := by
      intro x xs
      induction xs generalizing x with
      | nil => simp [List.intercalate]
      | cons y ys ihy =>
        have := ihy y
        simp only [List.intercalate, List.intersperse, List.flatten_cons, List.map_cons] at this ⊢
        rw [this, List.append_assoc]
    rw [hinter]
    simp [metaEntryText, List.map_map, Function.comp_def]

/-- The reflection line of a property in closed form. -/
theorem encodePropertyReflectionProperty_eq (offset : Str) (symbolTable : SymbolTable)
    (property : Property) (name : Str) :
    encodePropertyReflectionProperty offset symbolTable property name
      = offset ++ ("\x7b \"" : Str) ++ property.name
        ++ ("\", reflect::Property\x7b offsetof(" : Str) ++ name ++ (", " : Str) ++ property.name
        ++ ("), reflect::meta_t \x7b" : Str)
        ++ (", " : Str).intercalate (property.meta.map metaEntryText)
        ++ (" \x7d, \"" : Str) ++ property.name ++ ("\", " : Str)
        ++ encodePropertyReflection offset symbolTable property.type ++ (" \x7d \x7d" : Str) := by
  unfold encodePropertyReflectionProperty
  dsimp only
  rw [EncodeBuffer.string_false_pushAll, string_false_foldl_meta_first,
    EncodeBuffer.string_false_pushAll, EncodeBuffer.string_false_empty]
  simp

end Encoder

namespace Encoder

theorem mem_ancestorSection_of_parent (marker propertiesMarker : Str)
    (lines : Property → List Str) (chain : List TypeClass) (type parentClass : TypeClass)
    (property : Property) (line : Str) (hparent : parentClass ∈ chain)
    (hproperty : property ∈ parentClass.properties) (hline : line ∈ lines property) :
    line ∈ ancestorSection marker propertiesMarker lines chain type := by
  unfold ancestorSection
  apply List.mem_append_left
  apply List.mem_append_left
  exact List.mem_flatMap.mpr ⟨parentClass, hparent,
    List.mem_cons_of_mem _ (List.mem_flatMap.mpr ⟨property, hproperty, hline⟩)⟩

theorem mem_ancestorSection_of_own (marker propertiesMarker : Str)
    (lines : Property → List Str) (chain : List TypeClass) (type : TypeClass)
    (property : Property) (line : Str)
    (hproperty : property ∈ type.properties) (hline : line ∈ lines property) :
    line ∈ ancestorSection marker propertiesMarker lines chain type := by
  unfold ancestorSection
  apply List.mem_append_right
  exact List.mem_flatMap.mpr ⟨property, hproperty, hline⟩

/-- The lines of the `properties()` section are lines of the emitted source. -/
theorem mem_classSourceLines_of_mem_reflection (symbolTable : SymbolTable) (type : TypeClass)
    (chain : List TypeClass) (line : Str)
    (h : line ∈ ancestorSection "        // Parent class " "        // Properties"
      (reflectionLines symbolTable type.name) chain type) :
    line ∈ classSourceLines symbolTable type chain := by
  unfold classSourceLines
  simp only [List.mem_append]
  tauto

end Encoder

namespace Encoder

/-- Claim C33: the reflection line of a property is the offset, the opening with the name
of the property and `offsetof(C, name)` for the owning class name `C` that is passed, the
entries of the meta map joined by `, ` with no separator before the first or after the
last, the name again, the descriptor of the type, and the closing. For a class whose
ancestors are all found, the class encoder returns `true` and the line of every property
inherited from an ancestor is emitted with the name of the class being encoded as `C`;
in the inheritance scenario the property `a` of `Base` is emitted for `Leaf` with
`offsetof(Leaf, a)`. -/
theorem encodePropertyReflection_property_line (offset : Str) (symbolTable : SymbolTable)
    (property : Property) (name : Str) (fuel : Nat) (headerBuffer sourceBuffer : EncodeBuffer)
    (collection : TypeCollection) (type : TypeClass) (chain : List TypeClass)
    (hchain : isParentChain collection type.parent chain = true) (hfuel : chain.length ≤ fuel) :
    encodePropertyReflectionProperty offset symbolTable property name
        = offset ++ ("\x7b \"" : Str) ++ property.name
          ++ ("\", reflect::Property\x7b offsetof(" : Str) ++ name ++ (", " : Str)
          ++ property.name ++ ("), reflect::meta_t \x7b" : Str)
          ++ (", " : Str).intercalate (property.meta.map (fun entry =>
              ("\x7b\"" : Str) ++ entry.1 ++ "\", \"" ++ entry.2 ++ "\"\x7d"))
          ++ (" \x7d, \"" : Str) ++ property.name ++ ("\", " : Str)
          ++ encodePropertyReflection offset symbolTable property.type ++ (" \x7d \x7d" : Str)
      ∧ encodeClass fuel headerBuffer sourceBuffer symbolTable collection type
        = some (true, ⟨headerBuffer.m_lines ++ classHeaderLines type⟩,
            ⟨sourceBuffer.m_lines ++ classSourceLines symbolTable type chain⟩)
      ∧ (∀ parentClass ∈ chain, ∀ inherited ∈ parentClass.properties,
          encodePropertyReflectionProperty "        " symbolTable inherited type.name
              ++ ("," : Str) ∈ classSourceLines symbolTable type chain)
      ∧ (("        \x7b \"a\", reflect::Property\x7b offsetof(Leaf, a), reflect::meta_t \x7b \x7d, \"a\", reflect::NativeType\x7b \"int\", \x7b  \x7d, reflect::NativeType::DecoratorType::D_raw, sizeof(int), reflect::NativeType::Type::T_int \x7d \x7d \x7d," : Str)
          ∈ classSourceLines sampleSymbolTable sampleLeaf [sampleMid, sampleBase]) := by
  refine ⟨encodePropertyReflectionProperty_eq offset symbolTable property name,
    encodeClass_of_chain fuel headerBuffer sourceBuffer symbolTable collection type chain
      hchain hfuel, ?_, by decide⟩
  intro parentClass hparent inherited hinherited
  apply mem_classSourceLines_of_mem_reflection
  exact mem_ancestorSection_of_parent _ _ _ chain type parentClass inherited _ hparent
    hinherited (List.mem_singleton.mpr rfl)

/-- Witness of `encodePropertyReflection_property_line`: the property `a` of `Base`, with
two meta entries, as `Leaf` inherits it. -/
theorem encodePropertyReflection_property_line_witness :
    isParentChain sampleCollection sampleLeaf.parent [sampleMid, sampleBase] = true
      ∧ [sampleMid, sampleBase].length ≤ 2
      ∧ encodePropertyReflectionProperty "        " sampleSymbolTable
          ⟨"a", "int", [("JsonExport", "true"), ("Category", "x")]⟩ "Leaf"
        = ("        \x7b \"a\", reflect::Property\x7b offsetof(Leaf, a), reflect::meta_t \x7b\x7b\"JsonExport\", \"true\"\x7d, \x7b\"Category\", \"x\"\x7d \x7d, \"a\", reflect::NativeType\x7b \"int\", \x7b  \x7d, reflect::NativeType::DecoratorType::D_raw, sizeof(int), reflect::NativeType::Type::T_int \x7d \x7d \x7d" : Str)
      ∧ encodePropertyReflectionProperty "        " sampleSymbolTable ⟨"a", "int", []⟩
          sampleLeaf.name ++ ("," : Str)
        ∈ classSourceLines sampleSymbolTable sampleLeaf [sampleMid, sampleBase] :=
  ⟨by decide, by decide, by decide,
    (encodePropertyReflection_property_line "        " sampleSymbolTable
      ⟨"a", "int", [("JsonExport", "true"), ("Category", "x")]⟩ "Leaf" 2 ⟨[]⟩ ⟨[]⟩
      sampleCollection sampleLeaf [sampleMid, sampleBase] (by decide) (by decide)).2.2.1
      sampleBase (by decide) ⟨"a", "int", []⟩ (by decide)⟩

/-- Claim C34: the descriptor of a type string `T` carries `T` verbatim as its name, the
decorator `parseDecoratorType(T)`, `sizeof(T)` and the kind `parseNativeType(T)`. When `T`
is not classified Template the arguments list is the text of an empty list; when it is,
the arguments are the descriptors of the elements of `extractTypenames(T)` in their
order, each on a line of its own behind the offset extended by four spaces, computed by
the same function with that extended offset, and each followed by a comma. The nested
descriptor of `std::map<std::string, std::vector<int>>` is the instance of the sample. -/
theorem encodePropertyReflection_descriptor (offset : Str) (symbolTable : SymbolTable)
    (T : Str) :
    encodePropertyReflection offset symbolTable T
        = ("reflect::NativeType\x7b \"" : Str) ++ T ++ ("\", \x7b " : Str)
          ++ (if parseNativeType symbolTable T = NativeType.T_template then
                ((extractTypenames T).map (fun tname =>
                    ("\n" : Str) ++ (offset ++ ("    " : Str))
                      ++ encodePropertyReflection (offset ++ ("    " : Str)) symbolTable tname
                      ++ ("," : Str))).flatten
                  ++ (("\n" : Str) ++ offset)
              else (" " : Str))
          ++ ("\x7d, " : Str) ++ toStringDecorator (parseDecoratorType symbolTable T)
          ++ (", sizeof(" : Str) ++ T ++ ("), " : Str)
          ++ toStringNative (parseNativeType symbolTable T) ++ (" \x7d" : Str)
      ∧ encodePropertyReflection "        " [] "std::map<std::string, std::vector<int>>"
        = ("reflect::NativeType\x7b \"std::map<std::string, std::vector<int>>\", \x7b \n            reflect::NativeType\x7b \"std::string\", \x7b  \x7d, reflect::NativeType::DecoratorType::D_raw, sizeof(std::string), reflect::NativeType::Type::T_string \x7d,\n            reflect::NativeType\x7b \"std::vector<int>\", \x7b \n                reflect::NativeType\x7b \"int\", \x7b  \x7d, reflect::NativeType::DecoratorType::D_raw, sizeof(int), reflect::NativeType::Type::T_int \x7d,\n            \x7d, reflect::NativeType::DecoratorType::D_raw, sizeof(std::vector<int>), reflect::NativeType::Type::T_template \x7d,\n        \x7d, reflect::NativeType::DecoratorType::D_raw, sizeof(std::map<std::string, std::vector<int>>), reflect::NativeType::Type::T_template \x7d" : Str) := by
  refine ⟨?_, by decide⟩
  rw [encodePropertyReflection_eq offset symbolTable T]
  by_cases h : parseNativeType symbolTable T = NativeType.T_template
  · simp only [h, ↓reduceIte, reflectionTypenames]
  · simp only [h, ↓reduceIte]

end Encoder

/-! ## The recursion of the descriptor emitter: claim C37 -/

namespace Encoder

theorem foldl_attach_eq_foldl {α β : Type} (l : List α) (f : β → α → β)
    (g : β → { x // x ∈ l } → β) (h : ∀ b x, g b x = f b x.1) (init : β) :
    l.attach.foldl g init = l.foldl f init := by
  have hg : g = fun b x => f b x.1 := by
    funext b x
    exact h b x
  subst hg
  calc l.attach.foldl (fun b x => f b x.1) init
      = (l.attach.map Subtype.val).foldl f init :=
        (List.foldl_map Subtype.val f l.attach init).symm
    _ = l.foldl f init := by rw [List.attach_map_subtype_val]

theorem foldl_congr_mem {α β : Type} (l : List α) (f g : β → α → β)
    (h : ∀ b, ∀ x ∈ l, f b x = g b x) (init : β) : l.foldl f init = l.foldl g init := by
  induction l generalizing init with
  | nil => rfl
  | cons a l ih =>
    simp only [List.foldl_cons]
    rw [h init a (List.mem_cons_self a l)]
    exact ih (fun b x hx => h b x (List.mem_cons_of_mem a hx)) _

/-- The emitter by well-founded recursion computes what the emitter with the length of
the type string as a bound computes. -/
theorem encodePropertyReflectionWF_eq (symbolTable : SymbolTable) :
    ∀ (n : Nat) (offset type : Str), type.length ≤ n →
      encodePropertyReflectionWF offset symbolTable type
        = encodePropertyReflection offset symbolTable type := by
  intro n
  induction n with
  | zero =>
    intro offset type hlen
    have hnil : type = [] := List.length_eq_zero.mp (Nat.le_zero.mp hlen)
    subst hnil
    rw [encodePropertyReflectionWF, encodePropertyReflection_unfold]
    unfold encodePropertyReflectionBody
    rfl
  | succ n ih =>
    intro offset type hlen
    rw [encodePropertyReflectionWF, encodePropertyReflection_unfold]
    unfold encodePropertyReflectionBody
    dsimp only
    have hfold : (extractTypenames type).attach.foldl
        (fun (buffer : EncodeBuffer) (tname : { x // x ∈ extractTypenames type }) =>
          buffer.pushAll [("\n" : Str) ++ (offset ++ ("    " : Str)),
            encodePropertyReflectionWF (offset ++ ("    " : Str)) symbolTable tname.1, ","])
        ({} : EncodeBuffer)
        = (extractTypenames type).foldl
          (fun (buffer : EncodeBuffer) (tname : Str) =>
            buffer.pushAll [("\n" : Str) ++ (offset ++ ("    " : Str)),
              encodePropertyReflection (offset ++ ("    " : Str)) symbolTable tname, ","])
          ({} : EncodeBuffer) := by
      rw [foldl_attach_eq_foldl (extractTypenames type)
        (fun (buffer : EncodeBuffer) (tname : Str) =>
          buffer.pushAll [("\n" : Str) ++ (offset ++ ("    " : Str)),
            encodePropertyReflectionWF (offset ++ ("    " : Str)) symbolTable tname, ","])
        _ (fun _ _ => rfl)]
      apply foldl_congr_mem
      intro b tname hmem
      have hlt := length_lt_of_mem_extractTypenames type tname hmem
      rw [ih (offset ++ ("    " : Str)) tname (by omega)]
    rw [hfold]

end Encoder

namespace Encoder

/-- Claim C37: every element of `extractTypenames(T)` is strictly shorter than `T`; the
descriptor emitter defined by well-founded recursion on the length of the type string,
without a bound on the depth, is therefore a total function, and it is the function
`encodePropertyReflection`: that one returns the same text for every bound that is at
least the length of `T`, and satisfies the recursive equation of lines 415-438, for every
symbol table and offset. -/
theorem encodePropertyReflection_total (offset : Str) (symbolTable : SymbolTable) (T : Str)
    (extra : Nat) :
    (∀ tname ∈ extractTypenames T, tname.length < T.length)
      ∧ encodePropertyReflectionWF offset symbolTable T
        = encodePropertyReflection offset symbolTable T
      ∧ encodePropertyReflectionAux (T.length + extra) offset symbolTable T
        = encodePropertyReflection offset symbolTable T
      ∧ encodePropertyReflection offset symbolTable T
        = encodePropertyReflectionBody encodePropertyReflection offset symbolTable T :=
  ⟨fun tname h => length_lt_of_mem_extractTypenames T tname h,
    encodePropertyReflectionWF_eq symbolTable T.length offset T (Nat.le_refl _),
    encodePropertyReflectionAux_fuel symbolTable (T.length + extra) T.length offset T
      (Nat.le_add_right _ _) (Nat.le_refl _),
    encodePropertyReflection_unfold offset symbolTable T⟩

/-- Witness of `encodePropertyReflection_total`: the argument `std::vector<int>` of
`std::map<std::string, std::vector<int>>` is shorter than the type string. -/
theorem encodePropertyReflection_total_witness :
    ("std::vector<int>" : Str) ∈ extractTypenames "std::map<std::string, std::vector<int>>"
      ∧ ("std::vector<int>" : Str).length
        < ("std::map<std::string, std::vector<int>>" : Str).length :=
  ⟨by decide,
    (encodePropertyReflection_total "" [] "std::map<std::string, std::vector<int>>" 0).1
      "std::vector<int>" (by decide)⟩

end Encoder

/-! ## The shape of the serialisation code: lemmas for claims C31, C36 and C40 -/

namespace Encoder

/-- The serialisation code of a type string is empty when no branch pushes code, and
otherwise starts, behind the offset, with `stream ` or with an opening brace, in both
directions. -/
theorem encodePropertySerialization_shape (offset : Str) (symbolTable : SymbolTable)
    (serialize : Bool) (name type : Str) :
    if emitsSerialization symbolTable type = true then
      ∃ rest, encodePropertySerialization offset symbolTable serialize name type
          = offset ++ (("stream " : Str) ++ rest)
        ∨ encodePropertySerialization offset symbolTable serialize name type
          = offset ++ (("\x7b" : Str) ++ rest)
    else encodePropertySerialization offset symbolTable serialize name type = [] := by
  rw [encodePropertySerialization_unfold offset symbolTable serialize name type]
  unfold encodePropertySerializationBody emitsSerialization isListHead isMapHead
  by_cases hraw : parseDecoratorType symbolTable type = DecoratorType.D_raw
  · cases hn : parseNativeType symbolTable type with
    | T_template =>
      cases hx : extractTypenames type with
      | nil =>
        simp only [hraw, hn, hx, ne_eq, not_true_eq_false, ↓reduceIte, decide_True,
          Bool.true_and, Bool.false_eq_true]
        rfl
      | cons typenames0 typenamesRest =>
        by_cases hl : (StringUtil.startsWith type "vector"
            || StringUtil.startsWith type "std::vector"
            || StringUtil.startsWith type "list" || StringUtil.startsWith type "std::list") = true
        · cases hv : isValidListType (parseNativeType symbolTable typenames0)
          · simp only [hraw, hn, hx, hl, hv, ne_eq, not_true_eq_false, ↓reduceIte, decide_True,
              Bool.true_and, Bool.false_eq_true, Bool.not_false]
            rfl
          · cases serialize <;>
              simp only [hraw, hn, hx, hl, hv, ne_eq, not_true_eq_false, ↓reduceIte,
                decide_True, Bool.true_and, Bool.false_eq_true, Bool.not_true,
                EncodeBuffer.string_false_pushAll, EncodeBuffer.string_false_empty,
                List.flatten_cons, List.flatten_nil, List.append_assoc, List.nil_append,
                List.append_nil] <;>
              exact ⟨_, Or.inr rfl⟩
        · by_cases hm : (StringUtil.startsWith type "map" || StringUtil.startsWith type "std::map"
              || StringUtil.startsWith type "unordered_map"
              || StringUtil.startsWith type "std::unordered_map") = true
          · cases typenamesRest with
            | nil =>
              simp only [hraw, hn, hx, hl, hm, ne_eq, not_true_eq_false, ↓reduceIte,
                decide_True, Bool.true_and, Bool.false_eq_true]
              rfl
            | cons typenames1 rest =>
              cases hk : isValidMapKeyType (parseNativeType symbolTable typenames0) <;>
              cases hw : isValidMapValueType (parseNativeType symbolTable typenames1) <;>
              cases serialize <;>
              simp only [hraw, hn, hx, hl, hm, hk, hw, ne_eq, not_true_eq_false, ↓reduceIte,
                decide_True, Bool.true_and, Bool.false_eq_true, Bool.not_true, Bool.not_false,
                Bool.or_self, Bool.or_true, Bool.or_false, Bool.true_or, Bool.false_or,
                Bool.and_self, Bool.and_true, Bool.and_false, Bool.false_and,
                EncodeBuffer.string_false_pushAll, EncodeBuffer.string_false_empty,
                List.flatten_cons, List.flatten_nil, List.append_assoc, List.nil_append,
                List.append_nil] <;>
              first | rfl | exact ⟨_, Or.inr rfl⟩
          · simp only [hraw, hn, hx, hl, hm, ne_eq, not_true_eq_false, ↓reduceIte,
              decide_True, Bool.true_and, Bool.false_eq_true]
            rfl
    | _ =>
      cases serialize <;>
        simp only [hraw, hn, ne_eq, not_true_eq_false, ↓reduceIte, decide_True,
          Bool.true_and, Bool.false_eq_true,
          EncodeBuffer.string_false_pushAll, EncodeBuffer.string_false_empty,
          List.flatten_cons, List.flatten_nil, List.append_assoc, List.nil_append,
          List.append_nil] <;>
        first | rfl | exact ⟨_, Or.inl rfl⟩ | exact ⟨_, Or.inr rfl⟩
  · simp only [hraw, ne_eq, not_false_eq_true, ↓reduceIte, decide_False, Bool.false_and,
      Bool.false_eq_true]
    rfl

end Encoder

namespace Encoder

/-- The serialisation code is empty exactly when no branch pushes code, whatever the
direction, the offset and the name are. -/
theorem encodePropertySerialization_eq_nil_iff (offset : Str) (symbolTable : SymbolTable)
    (serialize : Bool) (name type : Str) :
    encodePropertySerialization offset symbolTable serialize name type = []
      ↔ emitsSerialization symbolTable type = false := by
  have hshape := encodePropertySerialization_shape offset symbolTable serialize name type
  cases hemit : emitsSerialization symbolTable type
  · simp only [hemit, Bool.false_eq_true, ↓reduceIte] at hshape
    simp [hshape]
  · simp only [hemit, ↓reduceIte] at hshape
    obtain ⟨rest, h | h⟩ := hshape
    · rw [h]
      simp
    · rw [h]
      simp

theorem serializationLines_eq (symbolTable : SymbolTable) (serialize : Bool)
    (property : Property) :
    serializationLines symbolTable serialize property
      = if emitsSerialization symbolTable property.type = true then
          [encodePropertySerializationProperty "    " symbolTable serialize property]
        else [] := by
  unfold serializationLines
  have hiff := encodePropertySerialization_eq_nil_iff "    " symbolTable serialize property.name
    property.type
  cases hemit : emitsSerialization symbolTable property.type
  · have hnil := hiff.mpr hemit
    simp only [encodePropertySerializationProperty, hnil, List.isEmpty_nil, ↓reduceIte,
      Bool.false_eq_true]
  · have hne : encodePropertySerialization "    " symbolTable serialize property.name
        property.type ≠ [] := by
      intro h
      rw [hiff.mp h] at hemit
      cases hemit
    have hempty : (encodePropertySerialization "    " symbolTable serialize property.name
        property.type).isEmpty = false := by
      cases h : encodePropertySerialization "    " symbolTable serialize property.name
          property.type with
      | nil => exact absurd h hne
      | cons c cs => rfl
    simp only [encodePropertySerializationProperty, hempty, Bool.false_eq_true, ↓reduceIte]

theorem flatMap_serializationLines (symbolTable : SymbolTable) (serialize : Bool)
    (properties : List Property) :
    properties.flatMap (serializationLines symbolTable serialize)
      = (properties.filter (fun property => emitsSerialization symbolTable property.type)).map
        (encodePropertySerializationProperty "    " symbolTable serialize) := by
  induction properties with
  | nil => rfl
  | cons p ps ih =>
    rw [List.flatMap_cons, ih, serializationLines_eq]
    cases hemit : emitsSerialization symbolTable p.type
    · simp [List.filter, hemit]
    · simp [List.filter, hemit]

end Encoder

/-! ## The symmetry of the binary format: claim C36 -/

namespace Encoder

/-- Claim C36: for every symbol table, offsets, names and type string, the write code is
empty exactly when the read code is empty. Hence, in every list of properties, the
properties with write code are the properties with read code, in the same order: the
lines that the write loop and the read loop of the class encoder push are the write code
and the read code of one and the same sublist of the properties. -/
theorem encodePropertySerialization_symmetry (symbolTable : SymbolTable)
    (offsetWrite offsetRead nameWrite nameRead type : Str) (properties : List Property) :
    (encodePropertySerialization offsetWrite symbolTable true nameWrite type = []
        ↔ encodePropertySerialization offsetRead symbolTable false nameRead type = [])
      ∧ properties.filter (fun property =>
            !(encodePropertySerializationProperty "    " symbolTable true property).isEmpty)
          = properties.filter (fun property =>
            !(encodePropertySerializationProperty "    " symbolTable false property).isEmpty)
      ∧ properties.foldl (pushSerialization symbolTable true) ⟨[]⟩
          = ⟨(properties.filter (fun property =>
              !(encodePropertySerializationProperty "    " symbolTable true property).isEmpty)).map
            (encodePropertySerializationProperty "    " symbolTable true)⟩
      ∧ properties.foldl (pushSerialization symbolTable false) ⟨[]⟩
          = ⟨(properties.filter (fun property =>
              !(encodePropertySerializationProperty "    " symbolTable false property).isEmpty)).map
            (encodePropertySerializationProperty "    " symbolTable false)⟩ := by
  have hfilter : ∀ serialize : Bool,
      properties.filter (fun property =>
          !(encodePropertySerializationProperty "    " symbolTable serialize property).isEmpty)
        = properties.filter (fun property => emitsSerialization symbolTable property.type) := by
    intro serialize
    apply List.filter_congr
    intro property _
    have hiff := encodePropertySerialization_eq_nil_iff "    " symbolTable serialize
      property.name property.type
    cases hemit : emitsSerialization symbolTable property.type
    · have hnil := hiff.mpr hemit
      simp only [encodePropertySerializationProperty, hnil, List.isEmpty_nil, Bool.not_true]
    · have hempty : (encodePropertySerialization "    " symbolTable serialize property.name
          property.type).isEmpty = false := by
        cases h : encodePropertySerialization "    " symbolTable serialize property.name
            property.type with
        | nil =>
          rw [hiff.mp h] at hemit
          cases hemit
        | cons c cs => rfl
      simp only [encodePropertySerializationProperty, hempty, Bool.not_false]
  have hfold : ∀ serialize : Bool,
      properties.foldl (pushSerialization symbolTable serialize) ⟨[]⟩
        = ⟨(properties.filter (fun property =>
            !(encodePropertySerializationProperty "    " symbolTable serialize
              property).isEmpty)).map
          (encodePropertySerializationProperty "    " symbolTable serialize)⟩ := by
    intro serialize
    apply encodeBuffer_eq
    rw [m_lines_foldl_emit (pushSerialization symbolTable serialize)
      (serializationLines symbolTable serialize) (m_lines_pushSerialization symbolTable serialize),
      hfilter serialize, flatMap_serializationLines]
    rfl
  refine ⟨?_, ?_, hfold true, hfold false⟩
  · rw [encodePropertySerialization_eq_nil_iff, encodePropertySerialization_eq_nil_iff]
  · rw [hfilter true, hfilter false]

end Encoder

/-! ## The head tests of the container branches: claim C35 -/

namespace Encoder

/-- Claim C35, failing input: for the user templates `vector2<int>` and `mapper<int, int>`,
whose head identifiers are not `vector`, `list`, `map` or `unordered_map`, the emitter
returns the code of the vector branch and of the map branch, in both directions, because
the type strings start with `vector` and with `map`; for `std::tuple<int, float>` and
`std::shared_ptr<Foo>` it returns the empty string. -/
theorem encodePropertySerialization_head_prefix :
    encodePropertySerialization "" [] true "v" "vector2<int>"
        = ("\x7b\n    stream << v.size();\n    for (const auto& element : v)\n    \x7b\n        stream << element;\n    \x7d\n\x7d" : Str)
      ∧ encodePropertySerialization "" [] false "v" "vector2<int>"
        = ("\x7b\n    std::size_t size;\n    stream >> size;\n    v.resize(size);\n    for (int i = 0; i < v.size(); ++i)\n    \x7b\n        int element;\n        stream >> element;\n        v.push_back(element);\n    \x7d\n\x7d" : Str)
      ∧ encodePropertySerialization "" [] true "m" "mapper<int, int>"
        = ("\x7b\n    stream << m.size();\n    for (const auto& pair : m)\n    \x7b\n        stream << pair.first;\n        stream << pair.second;\n    \x7d\n\x7d" : Str)
      ∧ encodePropertySerialization "" [] false "m" "mapper<int, int>"
        = ("\x7b\n    std::size_t size;\n    stream >> size;\n    for (int i = 0; i < size; ++i)\n    \x7b\n        int key;\n        stream >> key;\n        int value;\n        stream >> value;\n        m.insert(std::make_pair(key, value));\n    \x7d\n\x7d" : Str)
      ∧ encodePropertySerialization "" [] true "t" "std::tuple<int, float>" = []
      ∧ encodePropertySerialization "" [] false "t" "std::tuple<int, float>" = []
      ∧ encodePropertySerialization "" [("Foo", SymbolType.S_class)] true "p"
          "std::shared_ptr<Foo>" = []
      ∧ encodePropertySerialization "" [("Foo", SymbolType.S_class)] false "p"
          "std::shared_ptr<Foo>" = [] := by
  decide

end Encoder

/-! ## The marker lines of a section: lemmas for claims C31 and C40 -/

namespace Encoder

theorem serializationLines_shape (symbolTable : SymbolTable) (serialize : Bool)
    (property : Property) :
    ∀ line ∈ serializationLines symbolTable serialize property,
      ∃ rest, line = ("    " : Str) ++ (("stream " : Str) ++ rest)
        ∨ line = ("    " : Str) ++ (("\x7b" : Str) ++ rest) := by
  intro line hline
  rw [serializationLines_eq] at hline
  have hshape := encodePropertySerialization_shape "    " symbolTable serialize property.name
    property.type
  cases hemit : emitsSerialization symbolTable property.type
  · simp only [hemit, Bool.false_eq_true, ↓reduceIte, List.not_mem_nil] at hline
  · simp only [hemit, ↓reduceIte, List.mem_singleton] at hline hshape
    rw [hline]
    exact hshape

theorem reflectionLines_shape (symbolTable : SymbolTable) (name : Str) (property : Property) :
    ∀ line ∈ reflectionLines symbolTable name property,
      ∃ rest, line = ("        " : Str) ++ (("\x7b \"" : Str) ++ rest) := by
  intro line hline
  unfold reflectionLines at hline
  rw [List.mem_singleton, encodePropertyReflectionProperty_eq] at hline
  rw [hline]
  simp only [List.append_assoc]
  exact ⟨_, rfl⟩

theorem serializationLines_not_marker (symbolTable : SymbolTable) (serialize : Bool)
    (property : Property) :
    ∀ line ∈ serializationLines symbolTable serialize property,
      List.isPrefixOf ("    // Parent class " : Str) line = false
        ∧ line ≠ ("    // Properties" : Str) := by
  intro line hline
  obtain ⟨rest, h | h⟩ := serializationLines_shape symbolTable serialize property line hline
  · subst h
    constructor
    · simp [List.isPrefixOf]
    · simp
  · subst h
    constructor
    · simp [List.isPrefixOf]
    · simp

theorem reflectionLines_not_marker (symbolTable : SymbolTable) (name : Str)
    (property : Property) :
    ∀ line ∈ reflectionLines symbolTable name property,
      List.isPrefixOf ("        // Parent class " : Str) line = false
        ∧ line ≠ ("        // Properties" : Str) := by
  intro line hline
  obtain ⟨rest, h⟩ := reflectionLines_shape symbolTable name property line hline
  subst h
  constructor
  · simp [List.isPrefixOf]
  · simp

end Encoder

namespace Encoder

theorem filter_flatMap_eq_nil (marker : Str) (lines : Property → List Str)
    (hlines : ∀ p, ∀ line ∈ lines p, List.isPrefixOf marker line = false)
    (properties : List Property) :
    (properties.flatMap lines).filter (fun line => marker.isPrefixOf line) = [] := by
  rw [List.filter_eq_nil_iff]
  intro line hline
  obtain ⟨p, _, hp⟩ := List.mem_flatMap.mp hline
  rw [hlines p line hp]
  decide

/-- The marker lines of a section are the marker lines of the ancestors, in the order of
the chain. -/
theorem parentMarkers_ancestorSection (marker propertiesMarker : Str)
    (lines : Property → List Str) (chain : List TypeClass) (type : TypeClass)
    (hlines : ∀ p, ∀ line ∈ lines p, List.isPrefixOf marker line = false)
    (hpm : List.isPrefixOf marker propertiesMarker = false) :
    parentMarkers marker (ancestorSection marker propertiesMarker lines chain type)
      = chain.map (fun parentClass => marker ++ parentClass.name ++ (" properties" : Str)) := by
  unfold parentMarkers ancestorSection
  rw [List.filter_append, List.filter_append, filter_flatMap_eq_nil marker lines hlines]
  have hmid : (if chain.isEmpty = true then [] else [propertiesMarker]).filter
      (fun line => marker.isPrefixOf line) = [] := by
    split
    · rfl
    · simp only [List.filter, hpm]
  rw [hmid, List.append_nil, List.append_nil]
  clear hmid
  induction chain with
  | nil => rfl
  | cons parentClass rest ih =>
    rw [List.flatMap_cons, List.filter_append, ih, List.map_cons]
    have hself : List.isPrefixOf marker (marker ++ parentClass.name ++ (" properties" : Str))
        = true := by
      rw [ List.isPrefixOf_iff_prefix, List.append_assoc]
      exact List.prefix_append _ _
    simp only [List.filter, hself]
    rw [filter_flatMap_eq_nil marker lines hlines]
    rfl

/-- The marker `// Properties` is a line of a section exactly when there is an ancestor. -/
theorem mem_propertiesMarker_ancestorSection (marker propertiesMarker : Str)
    (lines : Property → List Str) (chain : List TypeClass) (type : TypeClass)
    (hlines : ∀ p, ∀ line ∈ lines p, line ≠ propertiesMarker) :
    propertiesMarker ∈ ancestorSection marker propertiesMarker lines chain type
      ↔ chain ≠ [] := by
  unfold ancestorSection
  constructor
  · intro h hnil
    subst hnil
    simp only [List.flatMap_nil, List.isEmpty_nil, ↓reduceIte, List.append_nil,
      List.nil_append] at h
    obtain ⟨p, _, hp⟩ := List.mem_flatMap.mp h
    exact hlines p _ hp rfl
  · intro hne
    apply List.mem_append_left
    apply List.mem_append_right
    cases chain with
    | nil => exact absurd rfl hne
    | cons c cs => simp

theorem isParentChain_eq_nil_iff (collection : TypeCollection) (parent_name : Str)
    (chain : List TypeClass) (h : isParentChain collection parent_name chain = true) :
    chain = [] ↔ parent_name = ("IType" : Str) := by
  cases chain with
  | nil =>
    simp only [isParentChain, decide_eq_true_eq] at h
    simp [h]
  | cons c cs =>
    simp only [isParentChain, Bool.and_eq_true, decide_eq_true_eq] at h
    have hne : ¬ parent_name = ("IType" : Str) := by simpa using h.1.1
    simp only [reduceCtorEq, false_iff]
    exact hne

end Encoder

namespace Encoder

/-- The emitted source of a class is the fixed lines around its four sections. -/
theorem classSourceLines_eq_sections (symbolTable : SymbolTable) (type : TypeClass)
    (chain : List TypeClass) :
    classSourceLines symbolTable type chain
      = classSourceLinesOf type (propertiesSection symbolTable type chain)
          (writeSection symbolTable type chain) (readSection symbolTable type chain)
          (toJsonSection type chain) := rfl

/-- A class whose parent is the sentinel: the class encoder returns `true` with the lines
of the class without ancestors, for every bound and every collection. -/
theorem encodeClass_of_sentinel (fuel : Nat) (headerBuffer sourceBuffer : EncodeBuffer)
    (symbolTable : SymbolTable) (collection : TypeCollection) (type : TypeClass)
    (hparent : type.parent = ("IType" : Str)) :
    encodeClass fuel headerBuffer sourceBuffer symbolTable collection type
      = some (true, ⟨headerBuffer.m_lines ++ classHeaderLines type⟩,
          ⟨sourceBuffer.m_lines ++ classSourceLines symbolTable type []⟩) :=
  encodeClass_of_chain fuel headerBuffer sourceBuffer symbolTable collection type []
    (by simp only [isParentChain, hparent, decide_True]) (Nat.zero_le _)

end Encoder

/-! ## The marker of the own properties: claim C31 -/

namespace Encoder

/-- Claim C31, counterexample: the parent of `Derived` is `Base`, not the sentinel, and
`Base` is not in the collection; the class encoder returns `false` from the first parent
walk, the last line it has pushed is the line that opens the table, and no line
`// Properties` has been emitted. -/
theorem encodeClass_no_marker_on_failure :
    sampleDerived.parent ≠ ("IType" : Str)
      ∧ (encodeClass 5 ⟨[]⟩ ⟨[]⟩ [("Derived", SymbolType.S_class)] ⟨[sampleDerived], []⟩
          sampleDerived).map (fun result =>
            (result.1, result.2.2.m_lines.getLast?,
              result.2.2.m_lines.filter (fun line =>
                line = ("        // Properties" : Str) ∨ line = ("    // Properties" : Str))))
        = some (false, some ("    static reflect::properties_t s_properties \x7b" : Str), []) := by
  decide

/-- Claim C31, amended: for a class whose ancestors are all found, so that following the
parent field reaches the sentinel `IType`, the class encoder returns `true`, its source
lines are the fixed lines around the four sections, and in each of the four sections (the
`properties()` table, `operator std::string`, `from_string`, `to_json`) the marker line
`// Properties` is a line of the section if and only if the parent of the class is not
`IType`. When the parent is `IType`, the class encoder returns `true` with the same lines
for every collection and for every bound on the parent walks, so that the collection is
not consulted, and no section has a line that starts with `// Parent class`. -/
theorem encodeClass_properties_marker (fuel : Nat) (headerBuffer sourceBuffer : EncodeBuffer)
    (symbolTable : SymbolTable) (collection : TypeCollection) (type : TypeClass) :
    (∀ chain : List TypeClass, isParentChain collection type.parent chain = true →
        chain.length ≤ fuel →
        encodeClass fuel headerBuffer sourceBuffer symbolTable collection type
            = some (true, ⟨headerBuffer.m_lines ++ classHeaderLines type⟩,
                ⟨sourceBuffer.m_lines ++ classSourceLinesOf type
                  (propertiesSection symbolTable type chain)
                  (writeSection symbolTable type chain)
                  (readSection symbolTable type chain) (toJsonSection type chain)⟩)
          ∧ ((("        // Properties" : Str) ∈ propertiesSection symbolTable type chain)
              ↔ type.parent ≠ ("IType" : Str))
          ∧ ((("    // Properties" : Str) ∈ writeSection symbolTable type chain)
              ↔ type.parent ≠ ("IType" : Str))
          ∧ ((("    // Properties" : Str) ∈ readSection symbolTable type chain)
              ↔ type.parent ≠ ("IType" : Str))
          ∧ ((("    // Properties" : Str) ∈ toJsonSection type chain)
              ↔ type.parent ≠ ("IType" : Str)))
      ∧ (type.parent = ("IType" : Str) →
          (∀ (otherFuel : Nat) (otherCollection : TypeCollection),
              encodeClass otherFuel headerBuffer sourceBuffer symbolTable otherCollection type
                = some (true, ⟨headerBuffer.m_lines ++ classHeaderLines type⟩,
                    ⟨sourceBuffer.m_lines ++ classSourceLinesOf type
                      (propertiesSection symbolTable type []) (writeSection symbolTable type [])
                      (readSection symbolTable type []) (toJsonSection type [])⟩))
            ∧ parentMarkers "        // Parent class " (propertiesSection symbolTable type []) = []
            ∧ parentMarkers "    // Parent class " (writeSection symbolTable type []) = []
            ∧ parentMarkers "    // Parent class " (readSection symbolTable type []) = []
            ∧ parentMarkers "    // Parent class " (toJsonSection type []) = []) := by
  constructor
  · intro chain hchain hfuel
    have hnil := isParentChain_eq_nil_iff collection type.parent chain hchain
    have hne : chain ≠ [] ↔ type.parent ≠ ("IType" : Str) := not_congr hnil
    refine ⟨?_, ?_, ?_, ?_, ?_⟩
    · rw [← classSourceLines_eq_sections]
      exact encodeClass_of_chain fuel headerBuffer sourceBuffer symbolTable collection type
        chain hchain hfuel
    · rw [← hne]
      exact mem_propertiesMarker_ancestorSection _ _ _ _ type
        (fun p line h => (reflectionLines_not_marker symbolTable type.name p line h).2)
    · rw [← hne]
      exact mem_propertiesMarker_ancestorSection _ _ _ _ type
        (fun p line h => (serializationLines_not_marker symbolTable true p line h).2)
    · rw [← hne]
      exact mem_propertiesMarker_ancestorSection _ _ _ _ type
        (fun p line h => (serializationLines_not_marker symbolTable false p line h).2)
    · rw [← hne]
      exact mem_propertiesMarker_ancestorSection _ _ _ _ type
        (fun p line h => absurd h (List.not_mem_nil _))
  · intro hparent
    refine ⟨?_, ?_, ?_, ?_, ?_⟩
    · intro otherFuel otherCollection
      rw [← classSourceLines_eq_sections]
      exact encodeClass_of_sentinel otherFuel headerBuffer sourceBuffer symbolTable
        otherCollection type hparent
    · exact parentMarkers_ancestorSection _ _ _ [] type
        (fun p line h => (reflectionLines_not_marker symbolTable type.name p line h).1)
        (by decide)
    · exact parentMarkers_ancestorSection _ _ _ [] type
        (fun p line h => (serializationLines_not_marker symbolTable true p line h).1)
        (by decide)
    · exact parentMarkers_ancestorSection _ _ _ [] type
        (fun p line h => (serializationLines_not_marker symbolTable false p line h).1)
        (by decide)
    · exact parentMarkers_ancestorSection _ _ _ [] type
        (fun p line h => absurd h (List.not_mem_nil _)) (by decide)

/-- Witness of `encodeClass_properties_marker`: the ancestors of `Leaf` are `Mid` and
`Base`, the class encoder returns `true` and the marker is a line of its table; `Base`,
whose parent is the sentinel, is encoded whatever the collection is. -/
theorem encodeClass_properties_marker_witness :
    isParentChain sampleCollection sampleLeaf.parent [sampleMid, sampleBase] = true
      ∧ [sampleMid, sampleBase].length ≤ 2
      ∧ encodeClass 2 ⟨[]⟩ ⟨[]⟩ sampleSymbolTable sampleCollection sampleLeaf
        = some (true, ⟨[] ++ classHeaderLines sampleLeaf⟩,
            ⟨[] ++ classSourceLinesOf sampleLeaf
              (propertiesSection sampleSymbolTable sampleLeaf [sampleMid, sampleBase])
              (writeSection sampleSymbolTable sampleLeaf [sampleMid, sampleBase])
              (readSection sampleSymbolTable sampleLeaf [sampleMid, sampleBase])
              (toJsonSection sampleLeaf [sampleMid, sampleBase])⟩)
      ∧ ((("        // Properties" : Str)
            ∈ propertiesSection sampleSymbolTable sampleLeaf [sampleMid, sampleBase])
          ↔ sampleLeaf.parent ≠ ("IType" : Str))
      ∧ sampleBase.parent = ("IType" : Str)
      ∧ encodeClass 0 ⟨[]⟩ ⟨[]⟩ sampleSymbolTable ⟨[], []⟩ sampleBase
        = some (true, ⟨[] ++ classHeaderLines sampleBase⟩,
            ⟨[] ++ classSourceLinesOf sampleBase
              (propertiesSection sampleSymbolTable sampleBase [])
              (writeSection sampleSymbolTable sampleBase [])
              (readSection sampleSymbolTable sampleBase []) (toJsonSection sampleBase [])⟩) :=
  ⟨by decide, by decide,
    ((encodeClass_properties_marker 2 ⟨[]⟩ ⟨[]⟩ sampleSymbolTable sampleCollection
      sampleLeaf).1 [sampleMid, sampleBase] (by decide) (by decide)).1,
    ((encodeClass_properties_marker 2 ⟨[]⟩ ⟨[]⟩ sampleSymbolTable sampleCollection
      sampleLeaf).1 [sampleMid, sampleBase] (by decide) (by decide)).2.1,
    by decide,
    ((encodeClass_properties_marker 2 ⟨[]⟩ ⟨[]⟩ sampleSymbolTable sampleCollection
      sampleBase).2 (by decide)).1 0 ⟨[], []⟩⟩

end Encoder

/-! ## The class without properties: claim C32 -/

namespace Encoder

/-- Claim C32: for a class with no properties whose parent is the sentinel `IType`, the
class encoder returns `true` and adds the fixed lines only. In the emitted `properties()`
the line that closes the table follows the line that opens it, with no entry line in
between; the body of the emitted `operator std::string` has exactly one line with a
stream write, the write of the type name tag; the body of the emitted `from_string` has
exactly one line with a stream read, the read of the name tag. -/
theorem encodeClass_empty_class (fuel : Nat) (headerBuffer sourceBuffer : EncodeBuffer)
    (symbolTable : SymbolTable) (collection : TypeCollection) (type : TypeClass)
    (hproperties : type.properties = []) (hparent : type.parent = ("IType" : Str)) :
    encodeClass fuel headerBuffer sourceBuffer symbolTable collection type
        = some (true, ⟨headerBuffer.m_lines ++ classHeaderLines type⟩,
            ⟨sourceBuffer.m_lines
              ++ (([ ("const reflect::meta_t& reflect::Type<" : Str) ++ type.name ++ ">::meta()",
                  "\x7b",
                  "    static reflect::meta_t s_meta \x7b" ] : List Str)
                ++ type.meta.map (fun entry =>
                    ("        \x7b \"" : Str) ++ entry.1 ++ "\", \"" ++ entry.2 ++ "\" \x7d,")
                ++ ([ "    \x7d;",
                  "    return s_meta;",
                  "\x7d",
                  ("const char* const reflect::Type<" : Str) ++ type.name
                    ++ ">::name() \x7b return \"" ++ type.name ++ "\"; \x7d",
                  "",
                  ("const reflect::properties_t& Type<" : Str) ++ type.name ++ ">::properties()",
                  "\x7b" ] : List Str)
                ++ emptyPropertiesBody
                ++ ([ "\x7d",
                  "",
                  ("const reflect::meta_t& " : Str) ++ type.name
                    ++ "::type_meta() const \x7b return reflect::Type<" ++ type.name
                    ++ ">::meta(); \x7d",
                  ("const char* const " : Str) ++ type.name
                    ++ "::type_name() const \x7b return reflect::Type<" ++ type.name
                    ++ ">::name(); \x7d",
                  ("const reflect::properties_t& " : Str) ++ type.name
                    ++ "::type_properties() const \x7b return reflect::Type<" ++ type.name
                    ++ ">::properties(); \x7d",
                  "",
                  type.name ++ ("::operator std::string() const" : Str),
                  "\x7b" ] : List Str)
                ++ emptyWriteBody
                ++ ([ "\x7d",
                  "",
                  ("void " : Str) ++ type.name ++ "::from_string(const std::string& str)",
                  "\x7b" ] : List Str)
                ++ emptyReadBody
                ++ ([ "\x7d",
                  "",
                  ("void " : Str) ++ type.name ++ "::from_json(const std::string& json)",
                  "\x7b",
                  "\x7d",
                  "",
                  ("std::string " : Str) ++ type.name ++ "::to_json() const",
                  "\x7b",
                  "    return \"\";",
                  "\x7d",
                  "" ] : List Str))⟩)
      ∧ emptyPropertiesBody.take 2
        = ([ "    static reflect::properties_t s_properties \x7b", "    \x7d;" ] : List Str)
      ∧ emptyWriteBody.filter (fun line => decide (("stream <<" : Str) <:+: line))
        = ([ "    stream << type_name();" ] : List Str)
      ∧ emptyReadBody.filter (fun line => decide (("stream >>" : Str) <:+: line))
        = ([ "    stream >> _name;" ] : List Str) := by
  refine ⟨?_, by decide, by decide, by decide⟩
  rw [encodeClass_of_sentinel fuel headerBuffer sourceBuffer symbolTable collection type hparent]
  unfold classSourceLines ancestorSection emptyPropertiesBody emptyWriteBody emptyReadBody
  rw [hproperties]
  simp only [List.flatMap_nil, List.isEmpty_nil, ↓reduceIte, List.append_nil, List.nil_append,
    List.append_assoc, List.cons_append]

/-- Witness of `encodeClass_empty_class` on the class `Empty`. -/
theorem encodeClass_empty_class_witness :
    sampleEmpty.properties = [] ∧ sampleEmpty.parent = ("IType" : Str)
      ∧ (encodeClass 0 ⟨[]⟩ ⟨[]⟩ [] ⟨[], []⟩ sampleEmpty).map (fun result => result.1)
        = some true
      ∧ emptyWriteBody.filter (fun line => decide (("stream <<" : Str) <:+: line))
        = ([ "    stream << type_name();" ] : List Str) :=
  ⟨by decide, by decide, by decide,
    (encodeClass_empty_class 0 ⟨[]⟩ ⟨[]⟩ [] ⟨[], []⟩ sampleEmpty (by decide) (by decide)).2.2.1⟩

end Encoder

/-! ## The consistency of the four sections: claim C40 -/

namespace Encoder

/-- Claim C40: when the class encoder returns `true`, the ancestors found by following the
parent field from the class end at the sentinel `IType`, the source lines are the fixed
lines around the four sections for that sequence of ancestors, and in each of the four
sections the lines that start with `// Parent class` are the marker lines of exactly that
sequence, in its order, so that the four sections name the same ancestors. The class
encoder returns `false` if and only if that sequence breaks off at a name, other than the
sentinel, that `findClass` does not find. -/
theorem encodeClass_sections_consistent (fuel : Nat) (headerBuffer sourceBuffer : EncodeBuffer)
    (symbolTable : SymbolTable) (collection : TypeCollection) (type : TypeClass) :
    ((encodeClass fuel headerBuffer sourceBuffer symbolTable collection type).map
          (fun result => result.1) = some true →
        isParentChain collection type.parent (ancestorsOf collection fuel type.parent) = true
          ∧ encodeClass fuel headerBuffer sourceBuffer symbolTable collection type
            = some (true, ⟨headerBuffer.m_lines ++ classHeaderLines type⟩,
                ⟨sourceBuffer.m_lines ++ classSourceLinesOf type
                  (propertiesSection symbolTable type (ancestorsOf collection fuel type.parent))
                  (writeSection symbolTable type (ancestorsOf collection fuel type.parent))
                  (readSection symbolTable type (ancestorsOf collection fuel type.parent))
                  (toJsonSection type (ancestorsOf collection fuel type.parent))⟩)
          ∧ parentMarkers "        // Parent class "
              (propertiesSection symbolTable type (ancestorsOf collection fuel type.parent))
            = (ancestorsOf collection fuel type.parent).map (fun parentClass =>
                ("        // Parent class " : Str) ++ parentClass.name ++ (" properties" : Str))
          ∧ parentMarkers "    // Parent class "
              (writeSection symbolTable type (ancestorsOf collection fuel type.parent))
            = (ancestorsOf collection fuel type.parent).map (fun parentClass =>
                ("    // Parent class " : Str) ++ parentClass.name ++ (" properties" : Str))
          ∧ parentMarkers "    // Parent class "
              (readSection symbolTable type (ancestorsOf collection fuel type.parent))
            = (ancestorsOf collection fuel type.parent).map (fun parentClass =>
                ("    // Parent class " : Str) ++ parentClass.name ++ (" properties" : Str))
          ∧ parentMarkers "    // Parent class "
              (toJsonSection type (ancestorsOf collection fuel type.parent))
            = (ancestorsOf collection fuel type.parent).map (fun parentClass =>
                ("    // Parent class " : Str) ++ parentClass.name ++ (" properties" : Str)))
      ∧ ((encodeClass fuel headerBuffer sourceBuffer symbolTable collection type).map
            (fun result => result.1) = some false
          ↔ (isBrokenChain collection type.parent (ancestorsOf collection fuel type.parent)
              = true
            ∧ (ancestorsOf collection fuel type.parent).length + 1 ≤ fuel)) := by
  constructor
  · intro hsuccess
    cases hresult : encodeClass fuel headerBuffer sourceBuffer symbolTable collection type with
    | none =>
      rw [hresult] at hsuccess
      cases hsuccess
    | some result =>
      obtain ⟨flag, headerBuffer', sourceBuffer'⟩ := result
      rw [hresult] at hsuccess
      have hflag : flag = true := by
        simpa using hsuccess
      subst hflag
      obtain ⟨hchain, hh, hs⟩ := encodeClass_eq_true fuel headerBuffer sourceBuffer symbolTable
        collection type headerBuffer' sourceBuffer' hresult
      refine ⟨hchain, ?_, ?_, ?_, ?_, ?_⟩
      · rw [hh, hs, classSourceLines_eq_sections]
      · exact parentMarkers_ancestorSection _ _ _ _ type
          (fun p line h => (reflectionLines_not_marker symbolTable type.name p line h).1)
          (by decide)
      · exact parentMarkers_ancestorSection _ _ _ _ type
          (fun p line h => (serializationLines_not_marker symbolTable true p line h).1)
          (by decide)
      · exact parentMarkers_ancestorSection _ _ _ _ type
          (fun p line h => (serializationLines_not_marker symbolTable false p line h).1)
          (by decide)
      · exact parentMarkers_ancestorSection _ _ _ _ type
          (fun p line h => absurd h (List.not_mem_nil _)) (by decide)
  · rcases walk_trichotomy collection fuel type.parent with hc | ⟨hb, hlen⟩ | he
    · have hflag : (encodeClass fuel headerBuffer sourceBuffer symbolTable collection type).map
          (fun result => result.1) = some true := by
        rw [encodeClass_of_chain fuel headerBuffer sourceBuffer symbolTable collection type _ hc
          (length_ancestorsOf_le collection fuel type.parent)]
        rfl
      constructor
      · intro h
        rw [hflag] at h
        cases h
      · intro h
        exfalso
        obtain ⟨hb', sb', heq⟩ := encodeClass_of_broken_chain fuel headerBuffer sourceBuffer
          symbolTable collection type _ h.1 h.2
        rw [heq] at hflag
        cases hflag
    · obtain ⟨hb', sb', heq⟩ := encodeClass_of_broken_chain fuel headerBuffer sourceBuffer
        symbolTable collection type _ hb hlen
      exact ⟨fun _ => ⟨hb, hlen⟩, fun _ => by rw [heq]; rfl⟩
    · have hflag : (encodeClass fuel headerBuffer sourceBuffer symbolTable collection type).map
          (fun result => result.1) = none := by
        rw [encodeClass_of_exhausts fuel headerBuffer sourceBuffer symbolTable collection type he]
        rfl
      constructor
      · intro h
        rw [hflag] at h
        cases h
      · intro h
        exfalso
        obtain ⟨hb', sb', heq⟩ := encodeClass_of_broken_chain fuel headerBuffer sourceBuffer
          symbolTable collection type _ h.1 h.2
        rw [heq] at hflag
        cases hflag

/-- Witness of `encodeClass_sections_consistent`: the class encoder returns `true` for
`Leaf`, and the marker lines of its `operator std::string` name `Mid` and then `Base`. -/
theorem encodeClass_sections_consistent_witness :
    (encodeClass 2 ⟨[]⟩ ⟨[]⟩ sampleSymbolTable sampleCollection sampleLeaf).map
        (fun result => result.1) = some true
      ∧ ancestorsOf sampleCollection 2 sampleLeaf.parent = [sampleMid, sampleBase]
      ∧ parentMarkers "    // Parent class "
          (writeSection sampleSymbolTable sampleLeaf
            (ancestorsOf sampleCollection 2 sampleLeaf.parent))
        = (ancestorsOf sampleCollection 2 sampleLeaf.parent).map (fun parentClass =>
            ("    // Parent class " : Str) ++ parentClass.name ++ (" properties" : Str)) :=
  ⟨by decide, by decide,
    ((encodeClass_sections_consistent 2 ⟨[]⟩ ⟨[]⟩ sampleSymbolTable sampleCollection
      sampleLeaf).1 (by decide)).2.2.2.1⟩

end Encoder
